import Mathlib

/-! Capmeter firmware: measurement engine and bias-voltage servo.

A shallow embedding of `measurement.c` and `vbias.c`.

* Globals become fields of a state record; every C function becomes a function on
  that record.
* `uint8_t`, `uint16_t` and `uint32_t` are natural numbers reduced modulo `2^8`,
  `2^16`, `2^32` where the C arithmetic wraps. The target is an AVR: `int` is
  16 bits wide, so `uint16_t` operands are promoted to `unsigned int` and their
  differences wrap modulo `2^16`.
* Constants and helpers that live in headers or files outside the listed sources
  (`MAX_FREQ_FOR_MEAS`, `DAC_MAX_VAL`, `get_bit_shift_for_freq_define`, ...) are
  fields of a configuration record, so every statement holds for each value
  they may have.
* Peripheral reads (capture registers, port pins, ADC samples) are inputs.
-/

namespace Capmeter

/-! ## Part 1: `measurement.c` -/

/-- The C truth value `FALSE`. -/
def FALSE : Nat := 0

/-- The C truth value `TRUE`. -/
def TRUE : Nat := 1

/-- Bit mask of pin 6 (`PIN6_bm` of the AVR io header). -/
def PIN6_bm : Nat := 0x40

/-- Constants and helpers used by `measurement.c` that are declared in headers
outside the listed sources. -/
structure MeasCfg where
  MAX_FREQ_FOR_MEAS : Nat
  MIN_FREQ_FOR_MEAS : Nat
  NB_CONSEQ_FREQ_PB_CHG_RES : Nat
  get_bit_shift_for_freq_define : Nat → Nat
  RES_270 : Nat
  RES_1K : Nat
  RES_10K : Nat
  RES_100K : Nat
  FREQ_1HZ : Nat
  TC_CLKSEL_DIV1_gc : Nat

/-- The table `res_mux_modes[] = {RES_270, RES_1K, RES_10K, RES_100K}`. -/
def res_mux_modes (c : MeasCfg) : List Nat :=
  [c.RES_270, c.RES_1K, c.RES_10K, c.RES_100K]

/-- The value of `sizeof(res_mux_modes)` (four `uint8_t` entries). -/
def sizeof_res_mux_modes : Nat := 4

/-- The globals of `measurement.c`, plus `res_mux`, the code last handed to the
range-select mux (`enable_res_mux` / `set_measurement_mode_io`). -/
structure MeasState where
  tc_consecutive_errors_cnt : Nat
  tc_error_flag : Nat
  current_counter_rise : Nat
  current_counter_fall : Nat
  current_agg_rise : Nat
  current_agg_fall : Nat
  last_counter_rise : Nat
  last_counter_fall : Nat
  last_agg_rise : Nat
  last_agg_fall : Nat
  cur_freq_counter_val : Nat
  last_counter_val : Nat
  nb_freq_overflows : Nat
  cur_resistor_index : Nat
  new_val_flag : Nat
  nb_conseq_freq_pb : Nat
  cur_counter_divider : Nat
  cur_freq_meas : Nat
  res_mux : Nat
deriving DecidableEq, Repr

/-- The state at reset: C zero-initialises every global. -/
def MeasState.zero : MeasState :=
  ⟨0, 0, 0, 0, 0, 0, 0, 0, 0, 0, 0, 0, 0, 0, 0, 0, 0, 0, 0⟩

/-- `ISR(TCC0_OVF_vect)`: the pulse-width timer overflowed. -/
def TCC0_OVF_vect (s : MeasState) : MeasState :=
  { s with
    tc_error_flag := TRUE
    tc_consecutive_errors_cnt := (s.tc_consecutive_errors_cnt + 1) % 2 ^ 16 }

/-- `ISR(TCC1_OVF_vect)`: the frequency counter rolled over. -/
def TCC1_OVF_vect (s : MeasState) : MeasState :=
  { s with nb_freq_overflows := (s.nb_freq_overflows + 1) % 2 ^ 8 }

/-- `ISR(TCC1_CCA_vect)`: the window-close handler. `cca` is the capture register
`TCC1.CCA`, read into `uint16_t count_value`. -/
def TCC1_CCA_vect (cca : Nat) (s : MeasState) : MeasState :=
  let count_value := cca % 2 ^ 16
  -- if (count_value < last_counter_val) nb_freq_overflows--;
  let nb_freq_overflows :=
    if count_value < s.last_counter_val then (s.nb_freq_overflows + 2 ^ 8 - 1) % 2 ^ 8
    else s.nb_freq_overflows
  -- nb_freq_overflows * 0x10000 is a long; the uint16_t difference wraps mod 2^16
  let cur_freq_counter_val :=
    (nb_freq_overflows * 0x10000
      + (count_value + 2 ^ 16 - s.last_counter_val % 2 ^ 16) % 2 ^ 16) % 2 ^ 32
  { s with
    cur_freq_counter_val := cur_freq_counter_val
    new_val_flag := TRUE
    last_counter_val := count_value
    last_agg_fall := s.current_agg_fall
    last_agg_rise := s.current_agg_rise
    last_counter_fall := s.current_counter_fall
    last_counter_rise := s.current_counter_rise
    current_counter_fall := 0
    current_counter_rise := 0
    current_agg_fall := 0
    current_agg_rise := 0
    nb_freq_overflows := 0 }

/-- `ISR(TCC0_CCA_vect)`: the pulse-capture handler. `cca` is the capture register
`TCC0.CCA` (read into `uint16_t cur_pulse_width`), `porta_in` the port `PORTA_IN`
sampled by the handler. -/
def TCC0_CCA_vect (cca porta_in : Nat) (s : MeasState) : MeasState :=
  let cur_pulse_width := cca % 2 ^ 16
  let s1 :=
    if s.tc_error_flag = FALSE then
      if porta_in &&& PIN6_bm = 0 then
        { s with
          current_agg_fall := (s.current_agg_fall + cur_pulse_width) % 2 ^ 32
          current_counter_fall := (s.current_counter_fall + 1) % 2 ^ 32 }
      else
        -- current_counter_rise += cur_pulse_width; current_counter_rise++;
        { s with
          current_counter_rise :=
            ((s.current_counter_rise + cur_pulse_width) % 2 ^ 32 + 1) % 2 ^ 32 }
    else s
  { s1 with tc_error_flag := FALSE }

/-- The frequency estimate `current_osc_freq` computed at the head of
`cap_measurement_logic`: `cur_freq_counter_val << shift`, as a `uint32_t`. -/
def current_osc_freq (c : MeasCfg) (s : MeasState) : Nat :=
  (s.cur_freq_counter_val <<< c.get_bit_shift_for_freq_define s.cur_freq_meas) % 2 ^ 32

/-- The statement `enable_res_mux(res_mux_modes[idx])` after `cur_resistor_index`
was set to `idx`, followed by `nb_conseq_freq_pb = 0`. Reading the table outside
its bounds has no defined result: `none`. -/
def change_res (c : MeasCfg) (idx : Nat) (s : MeasState) : Option MeasState :=
  match (res_mux_modes c)[idx]? with
  | none => none
  | some m => some { s with cur_resistor_index := idx, res_mux := m, nb_conseq_freq_pb := 0 }

/-- The function `cap_measurement_logic`. -/
def cap_measurement_logic (c : MeasCfg) (s : MeasState) : Option MeasState :=
  let freq := current_osc_freq c s
  -- the post-increment: the old value is compared, the new one is stored
  let old := s.nb_conseq_freq_pb
  let s1 := { s with nb_conseq_freq_pb := (old + 1) % 2 ^ 8 }
  let r : Option MeasState :=
    if freq > c.MAX_FREQ_FOR_MEAS ∧ s.cur_resistor_index < sizeof_res_mux_modes - 1 then
      if old > c.NB_CONSEQ_FREQ_PB_CHG_RES then
        change_res c ((s.cur_resistor_index + 1) % 2 ^ 8) s1
      else some s1
    else if freq < c.MIN_FREQ_FOR_MEAS ∧ s.cur_resistor_index > 0 then
      if old > c.NB_CONSEQ_FREQ_PB_CHG_RES then
        change_res c ((s.cur_resistor_index + 2 ^ 8 - 1) % 2 ^ 8) s1
      else some s1
    else some { s with nb_conseq_freq_pb := 0 }
  r.map fun s2 => { s2 with tc_consecutive_errors_cnt := 0 }

/-- The function `set_capacitance_measurement_mode`, restricted to the globals it
writes; the last statement hands `res_mux_modes[cur_resistor_index]` to the mux. -/
def set_capacitance_measurement_mode (c : MeasCfg) (s : MeasState) : Option MeasState :=
  let idx := sizeof_res_mux_modes - 1
  match (res_mux_modes c)[idx]? with
  | none => none
  | some m =>
    some { s with
      cur_freq_meas := c.FREQ_1HZ % 2 ^ 16
      cur_counter_divider := c.TC_CLKSEL_DIV1_gc % 2 ^ 8
      cur_resistor_index := idx
      res_mux := m }

/-- What a foreground call hands to the host in sync mode: the latched values it
prints (`last_agg_fall`, `cur_freq_counter_val`). -/
structure Report where
  last_agg_fall : Nat
  cur_freq_counter_val : Nat
deriving DecidableEq, Repr

/-- The function `cap_measurement_loop`: the new state, the returned truth value,
and the values printed when `temp == FALSE`. -/
def cap_measurement_loop (c : MeasCfg) (temp : Nat) (s : MeasState) :
    Option (MeasState × Nat × Option Report) :=
  if s.new_val_flag = TRUE then
    match cap_measurement_logic c s with
    | none => none
    | some s1 =>
      let s2 := { s1 with new_val_flag := FALSE }
      let out :=
        if temp = FALSE then some ⟨s2.last_agg_fall, s2.cur_freq_counter_val⟩ else none
      some (s2, TRUE, out)
  else some (s, FALSE, none)

/-- Consecutive foreground evaluations of `cap_measurement_logic`: before the k-th
one the window-close handler has left `vs[k]` in `cur_freq_counter_val`. -/
def logic_calls (c : MeasCfg) : List Nat → MeasState → Option MeasState
  | [], s => some s
  | v :: vs, s =>
    match cap_measurement_logic c { s with cur_freq_counter_val := v } with
    | none => none
    | some s1 => logic_calls c vs s1

/-- The frequency estimate obtained from the counter value `v` at measurement
frequency setting `fm`. -/
def freq_estimate (c : MeasCfg) (fm v : Nat) : Nat :=
  (v <<< c.get_bit_shift_for_freq_define fm) % 2 ^ 32

/-- The interrupt sources of `measurement.c`, with the peripheral values each
handler reads. -/
inductive Irq where
  | capture (cca porta_in : Nat)
  | capture_overflow
  | freq_overflow
  | window_close (cca : Nat)
deriving DecidableEq, Repr

/-- One interrupt handler executed atomically. -/
def irq_step (i : Irq) (s : MeasState) : MeasState :=
  match i with
  | .capture cca porta_in => TCC0_CCA_vect cca porta_in s
  | .capture_overflow => TCC0_OVF_vect s
  | .freq_overflow => TCC1_OVF_vect s
  | .window_close cca => TCC1_CCA_vect cca s

/-- A sequence of interrupt handlers executed one after the other. -/
def irq_run : List Irq → MeasState → MeasState
  | [], s => s
  | i :: is, s => irq_run is (irq_step i s)

/-- The events that touch the measurement state: an interrupt handler or a
foreground call of `cap_measurement_loop`, each executed atomically. -/
inductive Event where
  | irq (i : Irq)
  | foreground (temp : Nat)
deriving DecidableEq, Repr

/-- One event applied to the state. -/
def step (c : MeasCfg) (e : Event) (s : MeasState) : Option MeasState :=
  match e with
  | .irq i => some (irq_step i s)
  | .foreground temp => (cap_measurement_loop c temp s).map fun r => r.1

/-- A sequence of events applied in order. -/
def run (c : MeasCfg) : List Event → MeasState → Option MeasState
  | [], s => some s
  | e :: es, s =>
    match step c e s with
    | none => none
    | some s1 => run c es s1

/-- The data of one window as the window-close handler latches it and as a
foreground call finds it. -/
structure Latched where
  last_agg_fall : Nat
  last_agg_rise : Nat
  last_counter_fall : Nat
  last_counter_rise : Nat
  cur_freq_counter_val : Nat
deriving DecidableEq, Repr

/-- The latched window data held in a state. -/
def latched_of (s : MeasState) : Latched :=
  ⟨s.last_agg_fall, s.last_agg_rise, s.last_counter_fall, s.last_counter_rise,
    s.cur_freq_counter_val⟩

/-- What can be seen of the handoff: a window-close latching data, a foreground call
returning `TRUE` on the latched data it finds, a foreground call returning `FALSE`. -/
inductive Obs where
  | closed (d : Latched)
  | consumed (d : Latched)
  | idle
deriving DecidableEq, Repr

/-- Whether a log entry is a window-close. -/
def Obs.isClosed : Obs → Bool
  | .closed _ => true
  | _ => false

/-- Whether a log entry is a foreground call returning `TRUE`. -/
def Obs.isConsumed : Obs → Bool
  | .consumed _ => true
  | _ => false

/-- The handoff log of a sequence of events, from the code. -/
def observe (c : MeasCfg) : List Event → MeasState → Option (List Obs)
  | [], _ => some []
  | .irq (.window_close cca) :: es, s =>
    (observe c es (TCC1_CCA_vect cca s)).map
      fun l => Obs.closed (latched_of (TCC1_CCA_vect cca s)) :: l
  | .irq i :: es, s => observe c es (irq_step i s)
  | .foreground temp :: es, s =>
    match cap_measurement_loop c temp s with
    | none => none
    | some r =>
      (observe c es r.1).map
        fun l => (if r.2.1 = TRUE then Obs.consumed (latched_of s) else Obs.idle) :: l

/-- The number of foreground calls returning `TRUE` that fall between the `k`-th
window-close of a log (counted from 0) and the next one: the calls that consume
window `k`. Calls before the first window-close are not counted. -/
def consumers : List Obs → Nat → Nat
  | [], _ => 0
  | .closed _ :: l, 0 => (l.takeWhile fun o => !o.isClosed).countP Obs.isConsumed
  | .closed _ :: l, k + 1 => consumers l k
  | _ :: l, k => consumers l k

/-- The single-slot handoff as the code performs it, checked on a log: `pending`
is the window latched and not yet consumed. A window-close fills the slot, also
when it is still full; a call returning `TRUE` needs a full slot, sees exactly its
data and empties it; a call returning `FALSE` needs an empty slot. -/
def mailbox_ok : Option Latched → List Obs → Bool
  | _, [] => true
  | _, .closed d :: l => mailbox_ok (some d) l
  | pending, .consumed d :: l => pending = some d && mailbox_ok none l
  | pending, .idle :: l => pending = none && mailbox_ok none l

/-- The handoff without loss, checked on a log: as `mailbox_ok`, and a window-close
needs an empty slot, so that every window but a last pending one is consumed by
exactly one call. -/
def exclusive_ok : Option Latched → List Obs → Bool
  | _, [] => true
  | pending, .closed d :: l => pending = none && exclusive_ok (some d) l
  | pending, .consumed d :: l => pending = some d && exclusive_ok none l
  | pending, .idle :: l => pending = none && exclusive_ok none l

/-- A sequence of events in which a foreground call runs between any two
window-close events (`pending` tells whether a window-close is awaiting one at the
start). -/
def paced : Bool → List Event → Bool
  | _, [] => true
  | pending, .irq (.window_close _) :: es => !pending && paced true es
  | pending, .irq _ :: es => paced pending es
  | _, .foreground _ :: es => paced false es

/-- Sample values for the constants of `measurement.c`, used to evaluate the
handlers on concrete inputs. -/
def sampleMeasCfg : MeasCfg where
  MAX_FREQ_FOR_MEAS := 4000000
  MIN_FREQ_FOR_MEAS := 40000
  NB_CONSEQ_FREQ_PB_CHG_RES := 2
  get_bit_shift_for_freq_define := fun fm =>
    if fm = 32767 then 0 else if fm = 1023 then 5 else if fm = 511 then 6 else 7
  RES_270 := 14
  RES_1K := 13
  RES_10K := 11
  RES_100K := 7
  FREQ_1HZ := 32767
  TC_CLKSEL_DIV1_gc := 1

/-- The pre-state of the range-hysteresis scenario: second-highest range, hysteresis
counter at zero, measurement frequency setting `FREQ_1HZ`. -/
def hysteresis_start : MeasState :=
  { MeasState.zero with cur_resistor_index := 2, cur_freq_meas := 32767 }

/-- A sequence of events with an overrun: two windows close before the foreground
runs. -/
def overrun_events : List Event :=
  [Event.irq (Irq.capture 100 0), Event.irq (Irq.window_close 10),
    Event.irq (Irq.capture 700 0), Event.irq (Irq.window_close 20),
    Event.foreground 0, Event.foreground 0]

/-- A sequence of events in which the foreground keeps up with the windows. -/
def paced_events : List Event :=
  [Event.irq (Irq.capture 100 0), Event.irq (Irq.window_close 10), Event.foreground 0,
    Event.irq (Irq.capture 700 0), Event.foreground 0, Event.irq (Irq.window_close 20),
    Event.foreground 0]

/-- Whether an interrupt is the window-close one. -/
def Irq.isWindowClose : Irq → Bool
  | .window_close _ => true
  | _ => false

/-- A state left by an earlier capacitance measurement session: a ready window and
pulses accumulated since. -/
def stale_session : MeasState :=
  { MeasState.zero with
    current_agg_fall := 1234
    current_counter_fall := 3
    current_agg_rise := 0
    current_counter_rise := 777
    cur_resistor_index := 1
    new_val_flag := 1 }

/-! ## Part 2: `vbias.c` -/

/-- Constants used by `vbias.c` that are declared in headers outside the listed
sources. -/
structure VbiasCfg where
  VBIAS_MIN_V : Nat
  VBIAS_MIN_DAC_VAL : Nat
  DAC_MAX_VAL : Nat
  STEPUP_ACTIV_V : Nat
  MV_APPROCH : Nat
  VBIAS_OVERSHOOT_MV : Nat
  PEAKPEAK_APPROCH : Nat
  BIT_AVG_APPROACH : Nat
  PEAKPEAK_FINE : Nat
  BIT_AVG_FINE : Nat
  CONV_DELAY_FINE : Nat
  ADC_CHANNEL_VBIAS : Nat

/-- A call of one of the two ADC sampling routines, with its arguments:
`get_averaged_stabilized_adc_value(avg_bit_shift, peak_peak, fast)` or
`get_averaged_adc_value(avg_bit_shift)`. -/
inductive AdcReq where
  | stabilized (avg_bit_shift peak_peak fast : Nat)
  | averaged (avg_bit_shift : Nat)
deriving DecidableEq, Repr

/-- The behaviour of the ADC: the value the `k`-th sampling call returns, given the
call. Every function of this type is a possible behaviour. -/
abbrev Adc := Nat → AdcReq → Nat

/-- A call of the DAC driver. -/
inductive DacCall where
  | setup_vbias_dac (code : Nat)
  | update_vbias_dac (code : Nat)
  | disable_vbias_dac
deriving DecidableEq, Repr

/-- The globals of `vbias.c`, and the hardware as the driver calls leave it: the
LDO, step-up and quench paths, the configured ADC channel, the DAC driver calls
made so far (latest first) and the number of ADC samples taken so far. -/
structure VbiasState where
  last_measured_vbias : Nat
  cur_set_vbias_voltage : Nat
  cur_vbias_dac_val : Nat
  ldo_enabled : Bool
  stepup_enabled : Bool
  quenching_enabled : Bool
  adc_channel : Nat
  dac_calls : List DacCall
  adc_samples : Nat
deriving DecidableEq, Repr

/-- The locals of `update_bias_voltage` that live across its search loops. -/
structure Locals where
  measured_vbias : Nat
  peak_peak : Nat
  bit_avg : Nat
  precise_phase : Nat
deriving DecidableEq, Repr

/-- Subtraction of two `uint16_t` values on the 16-bit-int target: the operands are
promoted to `unsigned int` and the difference wraps modulo `2^16`. -/
def sub16 (a b : Nat) : Nat :=
  (a % 2 ^ 16 + 2 ^ 16 - b % 2 ^ 16) % 2 ^ 16

/-- The function `compute_vbias_for_adc_value`, in 16-bit unsigned arithmetic. -/
def compute_vbias_for_adc_value (adc_val : Nat) : Nat :=
  let return_value := (adc_val * 16) % 2 ^ 16 / 182
  (return_value + (adc_val * 4) % 2 ^ 16) % 2 ^ 16

/-- One sample of the ADC, as a `uint16_t`; the sample counter advances. -/
def adc_read (adc : Adc) (req : AdcReq) (s : VbiasState) : Nat × VbiasState :=
  (adc s.adc_samples req % 2 ^ 16, { s with adc_samples := s.adc_samples + 1 })

/-- One pass through the body of the voltage-decreasing loop of
`update_bias_voltage`: adjust the sampling settings, step the DAC code up, sample. -/
def decreasing_body (c : VbiasCfg) (adc : Adc) (val_mv : Nat) (s : VbiasState) (l : Locals) :
    VbiasState × Locals :=
  -- adjust peak-peak depending on how close we are
  let l1 :=
    if sub16 l.measured_vbias val_mv < c.MV_APPROCH ∧ l.precise_phase = FALSE then
      { l with
        peak_peak := c.PEAKPEAK_FINE % 2 ^ 8
        bit_avg := c.BIT_AVG_FINE % 2 ^ 8
        precise_phase := TRUE }
    else l
  -- update_vbias_dac(++cur_vbias_dac_val)
  let dac := (s.cur_vbias_dac_val + 1) % 2 ^ 16
  let s1 := { s with
    cur_vbias_dac_val := dac
    dac_calls := DacCall.update_vbias_dac dac :: s.dac_calls }
  let r := adc_read adc (AdcReq.stabilized l1.bit_avg l1.peak_peak FALSE) s1
  (r.2, { l1 with measured_vbias := compute_vbias_for_adc_value r.1 })

/-- The voltage-decreasing `do ... while` loop of `update_bias_voltage`. The result
carries the number of iterations executed; `none` when `fuel` iterations did not
reach the exit. -/
def decreasing_loop (c : VbiasCfg) (adc : Adc) (val_mv : Nat) :
    Nat → VbiasState → Locals → Option (VbiasState × Locals × Nat)
  | 0, _, _ => none
  | fuel + 1, s, l =>
    let b := decreasing_body c adc val_mv s l
    if b.2.measured_vbias > val_mv ∧ b.1.cur_vbias_dac_val ≠ c.DAC_MAX_VAL then
      (decreasing_loop c adc val_mv fuel b.1 b.2).map fun x => (x.1, x.2.1, x.2.2 + 1)
    else some (b.1, b.2, 1)

/-- One pass through the body of the voltage-increasing loop of
`update_bias_voltage`: switch to the precise phase when close, step the DAC code
down, sample with the routine of the phase. -/
def increasing_body (c : VbiasCfg) (adc : Adc) (val_mv : Nat) (s : VbiasState) (l : Locals) :
    VbiasState × Locals :=
  let l1 :=
    if sub16 val_mv l.measured_vbias < c.MV_APPROCH ∧ l.precise_phase = FALSE then
      { l with precise_phase := TRUE }
    else l
  -- update_vbias_dac(--cur_vbias_dac_val)
  let dac := (s.cur_vbias_dac_val + 2 ^ 16 - 1) % 2 ^ 16
  let s1 := { s with
    cur_vbias_dac_val := dac
    dac_calls := DacCall.update_vbias_dac dac :: s.dac_calls }
  let r :=
    if l1.precise_phase = FALSE then
      adc_read adc (AdcReq.stabilized c.BIT_AVG_APPROACH c.PEAKPEAK_APPROCH FALSE) s1
    else adc_read adc (AdcReq.averaged c.BIT_AVG_FINE) s1
  (r.2, { l1 with measured_vbias := compute_vbias_for_adc_value r.1 })

/-- The voltage-increasing `do ... while` loop of `update_bias_voltage`. The result
carries the number of iterations executed; `none` when `fuel` iterations did not
reach the exit. -/
def increasing_loop (c : VbiasCfg) (adc : Adc) (val_mv : Nat) :
    Nat → VbiasState → Locals → Option (VbiasState × Locals × Nat)
  | 0, _, _ => none
  | fuel + 1, s, l =>
    let b := increasing_body c adc val_mv s l
    if b.2.measured_vbias < sub16 val_mv c.VBIAS_OVERSHOOT_MV ∧ b.1.cur_vbias_dac_val ≠ 0 then
      (increasing_loop c adc val_mv fuel b.1 b.2).map fun x => (x.1, x.2.1, x.2.2 + 1)
    else some (b.1, b.2, 1)

/-- The function `update_bias_voltage`: the new state and the returned voltage.
The search loops run on a 16-bit DAC code, so `2^16` iterations of fuel are given
to each. -/
def update_bias_voltage (c : VbiasCfg) (adc : Adc) (val_mv0 : Nat) (s : VbiasState) :
    Option (VbiasState × Nat) :=
  let l : Locals :=
    { measured_vbias := s.last_measured_vbias
      peak_peak := c.PEAKPEAK_APPROCH % 2 ^ 8
      bit_avg := c.BIT_AVG_APPROACH % 2 ^ 8
      precise_phase := FALSE }
  -- check that the ADC channel remained the same
  let s1 := { s with adc_channel := c.ADC_CHANNEL_VBIAS }
  -- check that value isn't too low
  let s2 := if val_mv0 % 2 ^ 16 < c.VBIAS_MIN_V then { s1 with quenching_enabled := false } else s1
  let val_mv := if val_mv0 % 2 ^ 16 < c.VBIAS_MIN_V then c.VBIAS_MIN_V % 2 ^ 16 else val_mv0 % 2 ^ 16
  if s2.cur_set_vbias_voltage = val_mv then
    some (s2, s2.last_measured_vbias)
  else
    let searched : Option (VbiasState × Locals × Nat) :=
      if s2.cur_set_vbias_voltage > val_mv then
        let s3 :=
          if s2.cur_set_vbias_voltage ≥ c.STEPUP_ACTIV_V ∧ val_mv < c.STEPUP_ACTIV_V then
            { s2 with stepup_enabled := false }
          else s2
        decreasing_loop c adc val_mv (2 ^ 16) s3 l
      else
        let s3 :=
          if s2.cur_set_vbias_voltage < c.STEPUP_ACTIV_V ∧ val_mv ≥ c.STEPUP_ACTIV_V then
            { s2 with stepup_enabled := true }
          else s2
        increasing_loop c adc val_mv (2 ^ 16) s3 l
    searched.map fun x =>
      ({ x.1 with
          cur_set_vbias_voltage := val_mv
          last_measured_vbias := x.2.1.measured_vbias },
        x.2.1.measured_vbias)

/-- The function `enable_bias_voltage`. -/
def enable_bias_voltage (c : VbiasCfg) (adc : Adc) (val_mv : Nat) (s : VbiasState) :
    Option (VbiasState × Nat) :=
  let dac := c.VBIAS_MIN_DAC_VAL % 2 ^ 16
  update_bias_voltage c adc val_mv
    { s with
      last_measured_vbias := c.VBIAS_MIN_V % 2 ^ 16
      cur_set_vbias_voltage := (c.VBIAS_MIN_V + 2 ^ 16 - 1) % 2 ^ 16
      cur_vbias_dac_val := dac
      adc_channel := c.ADC_CHANNEL_VBIAS
      dac_calls := DacCall.setup_vbias_dac dac :: s.dac_calls
      ldo_enabled := true }

/-- The wait loop of `wait_for_0v_bias`, entered with `measured_vbias`; `none` when
`fuel` samples did not bring the reading to 100 or below. -/
def wait_loop (adc : Adc) : Nat → Nat → VbiasState → Option (VbiasState × Nat)
  | 0, measured_vbias, s => if measured_vbias > 100 then none else some (s, measured_vbias)
  | fuel + 1, measured_vbias, s =>
    if measured_vbias > 100 then
      let r := adc_read adc (AdcReq.stabilized 6 15 FALSE) s
      wait_loop adc fuel r.1 r.2
    else some (s, measured_vbias)

/-- The function `wait_for_0v_bias`: the new state and the last value of its local
`measured_vbias`. The loop has no bound in the source; `fuel` bounds it here. -/
def wait_for_0v_bias (c : VbiasCfg) (adc : Adc) (fuel : Nat) (s : VbiasState) :
    Option (VbiasState × Nat) :=
  let s1 := { s with adc_channel := c.ADC_CHANNEL_VBIAS, quenching_enabled := true }
  (wait_loop adc fuel 2000 s1).map fun x => ({ x.1 with quenching_enabled := false }, x.2)

/-- The function `disable_bias_voltage`. -/
def disable_bias_voltage (c : VbiasCfg) (adc : Adc) (fuel : Nat) (s : VbiasState) :
    Option (VbiasState × Nat) :=
  wait_for_0v_bias c adc fuel
    { s with
      ldo_enabled := false
      stepup_enabled := false
      dac_calls := DacCall.disable_vbias_dac :: s.dac_calls }

/-- The target after the clamp at the head of `update_bias_voltage`: the value of
`val_mv` once `if (val_mv < VBIAS_MIN_V) val_mv = VBIAS_MIN_V;` has run. -/
def clamped_target (c : VbiasCfg) (val_mv0 : Nat) : Nat :=
  if val_mv0 % 2 ^ 16 < c.VBIAS_MIN_V then c.VBIAS_MIN_V % 2 ^ 16 else val_mv0 % 2 ^ 16

/-- The codes handed to `update_vbias_dac` among a list of DAC driver calls. -/
def update_codes : List DacCall → List Nat
  | [] => []
  | .update_vbias_dac code :: l => code :: update_codes l
  | _ :: l => update_codes l

/-- Sample values for the constants of `vbias.c`, used to evaluate the servo on
concrete inputs. -/
def sampleVbiasCfg : VbiasCfg where
  VBIAS_MIN_V := 1250
  VBIAS_MIN_DAC_VAL := 3900
  DAC_MAX_VAL := 4095
  STEPUP_ACTIV_V := 4500
  MV_APPROCH := 100
  VBIAS_OVERSHOOT_MV := 5
  PEAKPEAK_APPROCH := 40
  BIT_AVG_APPROACH := 3
  PEAKPEAK_FINE := 10
  BIT_AVG_FINE := 9
  CONV_DELAY_FINE := 2
  ADC_CHANNEL_VBIAS := 0

/-- An ADC that reads 0 on its first `n` samples and full scale (4095) afterwards,
whatever the sampling routine. -/
def adc_low_then_high (n : Nat) : Adc :=
  fun k _ => if k < n then 0 else 4095

/-- An ADC stuck at the reading `v`. -/
def adc_const (v : Nat) : Adc :=
  fun _ _ => v

/-- An ADC that reads `hi` on its first `n` samples and `lo` afterwards, whatever
the sampling routine. -/
def adc_step (n hi lo : Nat) : Adc :=
  fun k _ => if k < n then hi else lo

/-- A servo state as a search to 5000 mV left it: step-up path on. -/
def servo_at_5000 : VbiasState :=
  { last_measured_vbias := 4998
    cur_set_vbias_voltage := 5000
    cur_vbias_dac_val := 2900
    ldo_enabled := true
    stepup_enabled := true
    quenching_enabled := false
    adc_channel := 0
    dac_calls := [DacCall.update_vbias_dac 2900]
    adc_samples := 1000 }

/-- The servo state at reset: C zero-initialises the globals, every path is off. -/
def VbiasState.zero : VbiasState :=
  ⟨0, 0, 0, false, false, false, 0, [], 0⟩

/-! ## Theorems about `measurement.c` -/

section RangeLogic

theorem res_mux_modes_length (c : MeasCfg) : (res_mux_modes c).length = 4 := rfl

/-- Below the boundary every table read of `change_res` succeeds. -/
theorem change_res_some (c : MeasCfg) (idx : Nat) (s : MeasState) (h : idx < 4) :
    ∃ m, (res_mux_modes c)[idx]? = some m ∧
      change_res c idx s
        = some { s with cur_resistor_index := idx, res_mux := m, nb_conseq_freq_pb := 0 } := by
  have hl : idx < (res_mux_modes c).length := by simpa [res_mux_modes_length] using h
  refine ⟨(res_mux_modes c)[idx], List.getElem?_eq_getElem hl, ?_⟩
  simp [change_res, List.getElem?_eq_getElem hl]

/-- The range logic never leaves the table: from an index in bounds it returns,
with an index in bounds, and it leaves the measurement frequency setting alone. -/
theorem cap_measurement_logic_bounds (c : MeasCfg) (s : MeasState)
    (h : s.cur_resistor_index ≤ 3) :
    ∃ s1, cap_measurement_logic c s = some s1 ∧ s1.cur_resistor_index ≤ 3 ∧
      s1.cur_freq_meas = s.cur_freq_meas ∧ s1.new_val_flag = s.new_val_flag := by
  unfold cap_measurement_logic
  simp only [sizeof_res_mux_modes]
  split_ifs with h1 h2 h3 h4
  · have hlt : (s.cur_resistor_index + 1) % 2 ^ 8 < 4 := by omega
    obtain ⟨m, -, hm⟩ := change_res_some c _
      { s with nb_conseq_freq_pb := (s.nb_conseq_freq_pb + 1) % 2 ^ 8 } hlt
    rw [hm]
    refine ⟨_, rfl, ?_, rfl, rfl⟩
    simp only; omega
  · exact ⟨_, rfl, h, rfl, rfl⟩
  · have hlt : (s.cur_resistor_index + 2 ^ 8 - 1) % 2 ^ 8 < 4 := by omega
    obtain ⟨m, -, hm⟩ := change_res_some c _
      { s with nb_conseq_freq_pb := (s.nb_conseq_freq_pb + 1) % 2 ^ 8 } hlt
    rw [hm]
    refine ⟨_, rfl, ?_, rfl, rfl⟩
    simp only; omega
  · exact ⟨_, rfl, h, rfl, rfl⟩
  · exact ⟨_, rfl, h, rfl, rfl⟩

/-- A too-high estimate below the top range, hysteresis counter not yet above the
threshold: the counter is incremented and nothing else moves. -/
theorem cap_measurement_logic_high_wait (c : MeasCfg) (s : MeasState)
    (hf : current_osc_freq c s > c.MAX_FREQ_FOR_MEAS) (hi : s.cur_resistor_index < 3)
    (hk : s.nb_conseq_freq_pb ≤ c.NB_CONSEQ_FREQ_PB_CHG_RES) :
    cap_measurement_logic c s
      = some { s with nb_conseq_freq_pb := (s.nb_conseq_freq_pb + 1) % 2 ^ 8,
                      tc_consecutive_errors_cnt := 0 } := by
  unfold cap_measurement_logic
  simp only [sizeof_res_mux_modes]
  rw [if_pos ⟨hf, by omega⟩, if_neg (by omega)]
  rfl

/-- A too-high estimate below the top range, hysteresis counter above the
threshold: the index moves up by one and the counter restarts. -/
theorem cap_measurement_logic_high_fire (c : MeasCfg) (s : MeasState)
    (hf : current_osc_freq c s > c.MAX_FREQ_FOR_MEAS) (hi : s.cur_resistor_index < 3)
    (hk : s.nb_conseq_freq_pb > c.NB_CONSEQ_FREQ_PB_CHG_RES) :
    ∃ s1, cap_measurement_logic c s = some s1 ∧
      s1.cur_resistor_index = s.cur_resistor_index + 1 ∧ s1.nb_conseq_freq_pb = 0 ∧
      (res_mux_modes c)[s.cur_resistor_index + 1]? = some s1.res_mux := by
  unfold cap_measurement_logic
  simp only [sizeof_res_mux_modes]
  rw [if_pos ⟨hf, by omega⟩, if_pos hk]
  have he : (s.cur_resistor_index + 1) % 2 ^ 8 = s.cur_resistor_index + 1 := by omega
  rw [he]
  obtain ⟨m, hm1, hm⟩ := change_res_some c (s.cur_resistor_index + 1)
    { s with nb_conseq_freq_pb := (s.nb_conseq_freq_pb + 1) % 2 ^ 8 } (by omega)
  rw [hm]
  exact ⟨_, rfl, rfl, rfl, hm1⟩

theorem current_osc_freq_set (c : MeasCfg) (s : MeasState) (v : Nat) :
    current_osc_freq c { s with cur_freq_counter_val := v }
      = freq_estimate c s.cur_freq_meas v := rfl

/-- While the hysteresis counter stays at or below the threshold, too-high windows
only count up. -/
theorem logic_calls_high_wait (c : MeasCfg) (hT : c.NB_CONSEQ_FREQ_PB_CHG_RES + 1 < 2 ^ 8) :
    ∀ (vs : List Nat) (s : MeasState), s.cur_resistor_index < 3 →
      s.nb_conseq_freq_pb + vs.length ≤ c.NB_CONSEQ_FREQ_PB_CHG_RES + 1 →
      (∀ v ∈ vs, freq_estimate c s.cur_freq_meas v > c.MAX_FREQ_FOR_MEAS) →
      ∃ s1, logic_calls c vs s = some s1 ∧ s1.cur_resistor_index = s.cur_resistor_index ∧
        s1.nb_conseq_freq_pb = s.nb_conseq_freq_pb + vs.length ∧
        s1.cur_freq_meas = s.cur_freq_meas := by
  intro vs
  induction vs with
  | nil => intro s _ _ _; exact ⟨s, rfl, rfl, rfl, rfl⟩
  | cons v vs ih =>
    intro s hi hk hv
    have hlen : (v :: vs).length = vs.length + 1 := rfl
    rw [hlen] at hk
    have h1 := cap_measurement_logic_high_wait c { s with cur_freq_counter_val := v }
      (by rw [current_osc_freq_set]; exact hv v (List.mem_cons_self _ _)) hi
      (by show s.nb_conseq_freq_pb ≤ _; omega)
    have he : (s.nb_conseq_freq_pb + 1) % 2 ^ 8 = s.nb_conseq_freq_pb + 1 := by omega
    obtain ⟨s1, hs1, hi1, hk1, hm1⟩ := ih
      { s with cur_freq_counter_val := v,
               nb_conseq_freq_pb := (s.nb_conseq_freq_pb + 1) % 2 ^ 8,
               tc_consecutive_errors_cnt := 0 }
      hi (by show (s.nb_conseq_freq_pb + 1) % 2 ^ 8 + vs.length ≤ _; omega)
      (fun w hw => hv w (List.mem_cons_of_mem _ hw))
    refine ⟨s1, ?_, hi1, ?_, hm1⟩
    · simp only [logic_calls, h1]; exact hs1
    · rw [hk1, hlen]; show (s.nb_conseq_freq_pb + 1) % 2 ^ 8 + vs.length = _; omega

theorem logic_calls_append (c : MeasCfg) :
    ∀ (vs ws : List Nat) (s : MeasState),
      logic_calls c (vs ++ ws) s = (logic_calls c vs s).bind (logic_calls c ws) := by
  intro vs
  induction vs with
  | nil => intro ws s; rfl
  | cons v vs ih =>
    intro ws s
    simp only [List.cons_append, logic_calls]
    cases cap_measurement_logic c { s with cur_freq_counter_val := v } with
    | none => rfl
    | some s1 => exact ih ws s1

/-- C1, the claim as stated fails: with the threshold `NB_CONSEQ_FREQ_PB_CHG_RES = 2`,
three (threshold + 1) consecutive too-high windows starting at the second-highest
range with the hysteresis counter at zero leave the range index at 2; the highest
range 3 is not selected. -/
theorem C1_counterexample :
    hysteresis_start.cur_resistor_index = sizeof_res_mux_modes - 2 ∧
    hysteresis_start.nb_conseq_freq_pb = 0 ∧
    [5000000, 5000000, 5000000].length = sampleMeasCfg.NB_CONSEQ_FREQ_PB_CHG_RES + 1 ∧
    (∀ v ∈ [5000000, 5000000, 5000000],
      freq_estimate sampleMeasCfg hysteresis_start.cur_freq_meas v
        > sampleMeasCfg.MAX_FREQ_FOR_MEAS) ∧
    (logic_calls sampleMeasCfg [5000000, 5000000, 5000000] hysteresis_start).map
      (fun s => (s.cur_resistor_index, s.nb_conseq_freq_pb)) = some (2, 3) := by
  decide

/-- C1, amended: starting at the second-highest range with the hysteresis counter at
zero, for every sequence of exactly `NB_CONSEQ_FREQ_PB_CHG_RES + 2` consecutive calls
of `cap_measurement_logic` whose frequency estimate is above `MAX_FREQ_FOR_MEAS`
(the threshold plus one fitting the 8-bit counter), the range index is still at the
second-highest range after each of the first `NB_CONSEQ_FREQ_PB_CHG_RES + 1` calls
and the last call moves it to the highest range, selects that range on the mux and
resets the counter: the index is incremented exactly once. -/
theorem C1_range_hysteresis_scenario (c : MeasCfg) (s : MeasState) (vs : List Nat)
    (hT : c.NB_CONSEQ_FREQ_PB_CHG_RES + 1 < 2 ^ 8)
    (hidx : s.cur_resistor_index = sizeof_res_mux_modes - 2)
    (hcnt : s.nb_conseq_freq_pb = 0)
    (hlen : vs.length = c.NB_CONSEQ_FREQ_PB_CHG_RES + 2)
    (hhigh : ∀ v ∈ vs, freq_estimate c s.cur_freq_meas v > c.MAX_FREQ_FOR_MEAS) :
    (∀ n, n ≤ c.NB_CONSEQ_FREQ_PB_CHG_RES + 1 →
      ∃ s1, logic_calls c (vs.take n) s = some s1 ∧
        s1.cur_resistor_index = sizeof_res_mux_modes - 2) ∧
    ∃ s2, logic_calls c vs s = some s2 ∧
      s2.cur_resistor_index = sizeof_res_mux_modes - 1 ∧
      s2.res_mux = c.RES_100K ∧ s2.nb_conseq_freq_pb = 0 := by
  have hidx2 : s.cur_resistor_index = 2 := hidx
  have hwait : ∀ n, n ≤ c.NB_CONSEQ_FREQ_PB_CHG_RES + 1 →
      ∃ s1, logic_calls c (vs.take n) s = some s1 ∧ s1.cur_resistor_index = 2 ∧
        s1.nb_conseq_freq_pb = n ∧ s1.cur_freq_meas = s.cur_freq_meas := by
    intro n hn
    have hl : (vs.take n).length = n := by rw [List.length_take]; omega
    obtain ⟨s1, h1, h2, h3, h4⟩ := logic_calls_high_wait c hT (vs.take n) s (by omega)
      (by rw [hl, hcnt]; omega) (fun v hv => hhigh v (List.mem_of_mem_take hv))
    exact ⟨s1, h1, by rw [h2, hidx2], by rw [h3, hl, hcnt]; omega, h4⟩
  refine ⟨fun n hn => ?_, ?_⟩
  · obtain ⟨s1, h1, h2, -, -⟩ := hwait n hn
    exact ⟨s1, h1, h2⟩
  · obtain ⟨s1, h1, h2, h3, h4⟩ := hwait (c.NB_CONSEQ_FREQ_PB_CHG_RES + 1) (le_refl _)
    have hdl : (vs.drop (c.NB_CONSEQ_FREQ_PB_CHG_RES + 1)).length = 1 := by
      rw [List.length_drop]; omega
    obtain ⟨w, hw⟩ := List.length_eq_one.mp hdl
    have hsplit : vs = vs.take (c.NB_CONSEQ_FREQ_PB_CHG_RES + 1) ++ [w] := by
      rw [← hw]; exact (List.take_append_drop _ vs).symm
    have hwmem : w ∈ vs := by
      rw [hsplit]; exact List.mem_append_right _ (List.mem_singleton_self w)
    obtain ⟨s2, g1, g2, g3, g4⟩ := cap_measurement_logic_high_fire c
      { s1 with cur_freq_counter_val := w }
      (by rw [current_osc_freq_set, h4]; exact hhigh w hwmem)
      (by show s1.cur_resistor_index < 3; omega)
      (by show s1.nb_conseq_freq_pb > _; omega)
    refine ⟨s2, ?_, ?_, ?_, g3⟩
    · rw [hsplit, logic_calls_append, h1]
      simp only [Option.some_bind, logic_calls, g1]
    · rw [g2]; show s1.cur_resistor_index + 1 = 3; omega
    · have h5 : s1.cur_resistor_index + 1 = 3 := by
        show s1.cur_resistor_index + 1 = 3; omega
      have g5 : (res_mux_modes c)[3]? = some s2.res_mux := by
        rw [← h5]; exact g4
      have g6 : (res_mux_modes c)[3]? = some c.RES_100K := rfl
      rw [g6] at g5
      exact (Option.some.inj g5).symm

/-- Witness for `C1_range_hysteresis_scenario`: threshold 2, four too-high windows. -/
theorem C1_range_hysteresis_scenario_witness :
    (sampleMeasCfg.NB_CONSEQ_FREQ_PB_CHG_RES + 1 < 2 ^ 8 ∧
      hysteresis_start.cur_resistor_index = sizeof_res_mux_modes - 2 ∧
      hysteresis_start.nb_conseq_freq_pb = 0 ∧
      [5000000, 6000000, 5000000, 7000000].length
        = sampleMeasCfg.NB_CONSEQ_FREQ_PB_CHG_RES + 2) ∧
    ((∀ n, n ≤ sampleMeasCfg.NB_CONSEQ_FREQ_PB_CHG_RES + 1 →
      ∃ s1, logic_calls sampleMeasCfg
          ([5000000, 6000000, 5000000, 7000000].take n) hysteresis_start = some s1 ∧
        s1.cur_resistor_index = sizeof_res_mux_modes - 2) ∧
    ∃ s2, logic_calls sampleMeasCfg [5000000, 6000000, 5000000, 7000000] hysteresis_start
        = some s2 ∧
      s2.cur_resistor_index = sizeof_res_mux_modes - 1 ∧
      s2.res_mux = sampleMeasCfg.RES_100K ∧ s2.nb_conseq_freq_pb = 0) :=
  ⟨by decide,
   C1_range_hysteresis_scenario sampleMeasCfg hysteresis_start
     [5000000, 6000000, 5000000, 7000000] (by decide) (by decide) (by decide) (by decide)
     (by decide)⟩

/-- The foreground call returns from every state whose range index is in bounds. -/
theorem cap_measurement_loop_bounds (c : MeasCfg) (temp : Nat) (s : MeasState)
    (h : s.cur_resistor_index ≤ 3) :
    ∃ r, cap_measurement_loop c temp s = some r ∧ r.1.cur_resistor_index ≤ 3 := by
  unfold cap_measurement_loop
  by_cases hf : s.new_val_flag = TRUE
  · obtain ⟨s1, h1, h2, -, -⟩ := cap_measurement_logic_bounds c s h
    rw [if_pos hf, h1]
    exact ⟨_, rfl, h2⟩
  · rw [if_neg hf]
    exact ⟨_, rfl, h⟩

/-- Every event keeps the range index in bounds, and none reads the table outside
its bounds. -/
theorem step_bounds (c : MeasCfg) (e : Event) (s : MeasState)
    (h : s.cur_resistor_index ≤ 3) :
    ∃ s1, step c e s = some s1 ∧ s1.cur_resistor_index ≤ 3 := by
  cases e with
  | irq i =>
    refine ⟨_, rfl, ?_⟩
    cases i with
    | capture cca porta_in =>
      show (TCC0_CCA_vect cca porta_in s).cur_resistor_index ≤ 3
      unfold TCC0_CCA_vect
      split_ifs <;> exact h
    | capture_overflow => exact h
    | freq_overflow => exact h
    | window_close cca => exact h
  | foreground temp =>
    obtain ⟨r, h1, h2⟩ := cap_measurement_loop_bounds c temp s h
    exact ⟨r.1, by simp [step, h1], h2⟩

theorem run_bounds (c : MeasCfg) :
    ∀ (evs : List Event) (s : MeasState), s.cur_resistor_index ≤ 3 →
      ∃ s1, run c evs s = some s1 ∧ s1.cur_resistor_index ≤ 3 := by
  intro evs
  induction evs with
  | nil => intro s h; exact ⟨s, rfl, h⟩
  | cons e es ih =>
    intro s h
    obtain ⟨s1, h1, h2⟩ := step_bounds c e s h
    obtain ⟨s2, h3, h4⟩ := ih s1 h2
    exact ⟨s2, by simp only [run, h1]; exact h3, h4⟩

/-- C2: `set_capacitance_measurement_mode` sets `cur_resistor_index` to
`numRanges - 1 = 3`; from every state with the index in `[0, numRanges - 1]`, whatever
the frequency counter and hysteresis counter values, `cap_measurement_logic` returns
(its table read is in bounds) with the index in `[0, numRanges - 1]`; and on every
state reached from mode entry by interrupt handlers and foreground calls the index
is in bounds and every read of `res_mux_modes` succeeded. -/
theorem C2_range_index_bound (c : MeasCfg) (s0 s : MeasState) (evs : List Event)
    (h : s.cur_resistor_index ≤ sizeof_res_mux_modes - 1) :
    (∃ s1, set_capacitance_measurement_mode c s0 = some s1 ∧
      s1.cur_resistor_index = sizeof_res_mux_modes - 1 ∧ s1.cur_resistor_index = 3) ∧
    (∃ s2, cap_measurement_logic c s = some s2 ∧
      s2.cur_resistor_index ≤ sizeof_res_mux_modes - 1) ∧
    (∃ s1 s3, set_capacitance_measurement_mode c s0 = some s1 ∧
      run c evs s1 = some s3 ∧ s3.cur_resistor_index ≤ sizeof_res_mux_modes - 1) := by
  have hset : ∃ s1, set_capacitance_measurement_mode c s0 = some s1 ∧
      s1.cur_resistor_index = 3 := ⟨_, rfl, rfl⟩
  obtain ⟨s1, h1, h2⟩ := hset
  refine ⟨⟨s1, h1, h2, h2⟩, ?_, ?_⟩
  · obtain ⟨s2, g1, g2, -, -⟩ := cap_measurement_logic_bounds c s h
    exact ⟨s2, g1, g2⟩
  · obtain ⟨s3, g1, g2⟩ := run_bounds c evs s1 (by omega)
    exact ⟨s1, s3, h1, g1, g2⟩

/-- Witness for `C2_range_index_bound`: mode entry from the reset state, then two
window closes with too-high counts, each consumed by the foreground. -/
theorem C2_range_index_bound_witness :
    hysteresis_start.cur_resistor_index ≤ sizeof_res_mux_modes - 1 ∧
    ((∃ s1, set_capacitance_measurement_mode sampleMeasCfg MeasState.zero = some s1 ∧
      s1.cur_resistor_index = sizeof_res_mux_modes - 1 ∧ s1.cur_resistor_index = 3) ∧
    (∃ s2, cap_measurement_logic sampleMeasCfg hysteresis_start = some s2 ∧
      s2.cur_resistor_index ≤ sizeof_res_mux_modes - 1) ∧
    (∃ s1 s3, set_capacitance_measurement_mode sampleMeasCfg MeasState.zero = some s1 ∧
      run sampleMeasCfg
        [Event.irq (Irq.window_close 100), Event.foreground 0,
          Event.irq (Irq.window_close 50), Event.foreground 0] s1 = some s3 ∧
      s3.cur_resistor_index ≤ sizeof_res_mux_modes - 1)) :=
  ⟨by decide,
   C2_range_index_bound sampleMeasCfg MeasState.zero hysteresis_start
     [Event.irq (Irq.window_close 100), Event.foreground 0,
       Event.irq (Irq.window_close 50), Event.foreground 0] (by decide)⟩

end RangeLogic

section Accumulator

/-- A valid capture taken with the polarity pin low: the falling accumulator gains
the width and the falling count gains one; the rising pair is untouched. -/
theorem TCC0_CCA_vect_fall (cca porta_in : Nat) (s : MeasState)
    (hf : s.tc_error_flag = FALSE) (hp : porta_in &&& PIN6_bm = 0) :
    TCC0_CCA_vect cca porta_in s
      = { s with
          current_agg_fall := (s.current_agg_fall + cca % 2 ^ 16) % 2 ^ 32
          current_counter_fall := (s.current_counter_fall + 1) % 2 ^ 32
          tc_error_flag := FALSE } := by
  unfold TCC0_CCA_vect
  simp only [if_pos hf, if_pos hp]

/-- A capture taken while the error flag is set only clears the flag. -/
theorem TCC0_CCA_vect_discard (cca porta_in : Nat) (s : MeasState)
    (hf : s.tc_error_flag ≠ FALSE) :
    TCC0_CCA_vect cca porta_in s = { s with tc_error_flag := FALSE } := by
  unfold TCC0_CCA_vect
  simp only [if_neg hf]

/-- C6, the code at the failing input: from the reset state (error flag clear, all
accumulators zero) a capture of width 1000 with the polarity pin high (rising)
leaves `current_agg_rise` at 0 and puts 1001 in `current_counter_rise`, where the
claim has `current_agg_rise = 1000` and `current_counter_rise = 1`. The falling
pair is unchanged. -/
theorem C6_rising_capture_miscounted :
    MeasState.zero.tc_error_flag = FALSE ∧ 0x40 &&& PIN6_bm ≠ 0 ∧
    (TCC0_CCA_vect 1000 0x40 MeasState.zero).current_agg_rise = 0 ∧
    (TCC0_CCA_vect 1000 0x40 MeasState.zero).current_counter_rise = 1001 ∧
    (TCC0_CCA_vect 1000 0x40 MeasState.zero).current_agg_fall = 0 ∧
    (TCC0_CCA_vect 1000 0x40 MeasState.zero).current_counter_fall = 0 := by
  decide

/-- C7: from every state with `tc_error_flag` set, for every captured width and
polarity, the pulse-capture handler leaves the four current accumulators and counts
unchanged and clears `tc_error_flag`. Hence a capture right after a capture-timer
overflow (from any state `t`) contributes to neither accumulator, and the capture
after that one is processed as a valid capture on the untouched accumulators: with
the polarity pin low it adds its width to `current_agg_fall` and one to
`current_counter_fall`. -/
theorem C7_pulse_discard (s t : MeasState) (cca porta_in cca2 porta_in2 : Nat)
    (h : s.tc_error_flag ≠ FALSE) :
    ((TCC0_CCA_vect cca porta_in s).current_agg_fall = s.current_agg_fall ∧
      (TCC0_CCA_vect cca porta_in s).current_agg_rise = s.current_agg_rise ∧
      (TCC0_CCA_vect cca porta_in s).current_counter_fall = s.current_counter_fall ∧
      (TCC0_CCA_vect cca porta_in s).current_counter_rise = s.current_counter_rise ∧
      (TCC0_CCA_vect cca porta_in s).tc_error_flag = FALSE) ∧
    ((TCC0_CCA_vect cca porta_in (TCC0_OVF_vect t)).current_agg_fall = t.current_agg_fall ∧
      (TCC0_CCA_vect cca porta_in (TCC0_OVF_vect t)).current_agg_rise = t.current_agg_rise ∧
      (TCC0_CCA_vect cca porta_in (TCC0_OVF_vect t)).current_counter_fall
        = t.current_counter_fall ∧
      (TCC0_CCA_vect cca porta_in (TCC0_OVF_vect t)).current_counter_rise
        = t.current_counter_rise ∧
      (TCC0_CCA_vect cca porta_in (TCC0_OVF_vect t)).tc_error_flag = FALSE) ∧
    (TCC0_CCA_vect cca2 porta_in2 (TCC0_CCA_vect cca porta_in (TCC0_OVF_vect t))
        = TCC0_CCA_vect cca2 porta_in2
            { t with tc_error_flag := FALSE,
                     tc_consecutive_errors_cnt := (t.tc_consecutive_errors_cnt + 1) % 2 ^ 16 }) ∧
    (porta_in2 &&& PIN6_bm = 0 →
      (TCC0_CCA_vect cca2 porta_in2
          (TCC0_CCA_vect cca porta_in (TCC0_OVF_vect t))).current_agg_fall
        = (t.current_agg_fall + cca2 % 2 ^ 16) % 2 ^ 32 ∧
      (TCC0_CCA_vect cca2 porta_in2
          (TCC0_CCA_vect cca porta_in (TCC0_OVF_vect t))).current_counter_fall
        = (t.current_counter_fall + 1) % 2 ^ 32) := by
  have hovf : (TCC0_OVF_vect t).tc_error_flag ≠ FALSE := by
    show TRUE ≠ FALSE
    decide
  have hd : TCC0_CCA_vect cca porta_in (TCC0_OVF_vect t)
      = { t with tc_error_flag := FALSE,
                 tc_consecutive_errors_cnt := (t.tc_consecutive_errors_cnt + 1) % 2 ^ 16 } := by
    rw [TCC0_CCA_vect_discard _ _ _ hovf]
    rfl
  refine ⟨?_, ?_, ?_, ?_⟩
  · rw [TCC0_CCA_vect_discard _ _ _ h]
    exact ⟨rfl, rfl, rfl, rfl, rfl⟩
  · rw [hd]
    exact ⟨rfl, rfl, rfl, rfl, rfl⟩
  · rw [hd]
  · intro hp
    rw [hd, TCC0_CCA_vect_fall _ _ _ rfl hp]
    exact ⟨rfl, rfl⟩

/-- Witness for `C7_pulse_discard`: the state right after a capture-timer overflow. -/
theorem C7_pulse_discard_witness :
    (TCC0_OVF_vect MeasState.zero).tc_error_flag ≠ FALSE ∧
    (TCC0_CCA_vect 700 0 (TCC0_OVF_vect MeasState.zero)).current_agg_fall = 0 ∧
    (TCC0_CCA_vect 700 0 (TCC0_OVF_vect MeasState.zero)).tc_error_flag = FALSE ∧
    (TCC0_CCA_vect 900 0
      (TCC0_CCA_vect 700 0 (TCC0_OVF_vect MeasState.zero))).current_agg_fall = 900 :=
  ⟨by decide,
   (C7_pulse_discard (TCC0_OVF_vect MeasState.zero) MeasState.zero 700 0 900 0
      (by decide)).1.1,
   (C7_pulse_discard (TCC0_OVF_vect MeasState.zero) MeasState.zero 700 0 900 0
      (by decide)).1.2.2.2.2,
   ((C7_pulse_discard (TCC0_OVF_vect MeasState.zero) MeasState.zero 700 0 900 0
      (by decide)).2.2.2 (by decide)).1⟩

/-- C8: for 16-bit raw counts `last` and `count` and an 8-bit overflow count `n` with
`n ≥ 1` whenever `count < last`, the window-close handler sets
`cur_freq_counter_val` to `n * 65536 + count - last` (the 16-bit difference wraps
modulo `2^16`, the overflow count is decremented when it wrapped). -/
theorem C8_wraparound_correction (s : MeasState) (cca : Nat)
    (hl : s.last_counter_val < 2 ^ 16) (hc : cca < 2 ^ 16)
    (hn : s.nb_freq_overflows < 2 ^ 8)
    (h : cca < s.last_counter_val → 1 ≤ s.nb_freq_overflows) :
    ((TCC1_CCA_vect cca s).cur_freq_counter_val : Int)
      = (s.nb_freq_overflows : Int) * 65536 + (cca : Int) - (s.last_counter_val : Int) := by
  have hnat : (TCC1_CCA_vect cca s).cur_freq_counter_val + s.last_counter_val
      = s.nb_freq_overflows * 65536 + cca := by
    show ((if cca % 2 ^ 16 < s.last_counter_val
            then (s.nb_freq_overflows + 2 ^ 8 - 1) % 2 ^ 8 else s.nb_freq_overflows) * 0x10000
          + (cca % 2 ^ 16 + 2 ^ 16 - s.last_counter_val % 2 ^ 16) % 2 ^ 16) % 2 ^ 32
        + s.last_counter_val = _
    split_ifs with hlt <;> omega
  omega

/-- Witness for `C8_wraparound_correction`: one recorded overflow, the raw count
wrapped from 65000 to 200. -/
theorem C8_wraparound_correction_witness :
    ((TCC1_CCA_vect 200
        { MeasState.zero with last_counter_val := 65000, nb_freq_overflows := 1 }
      ).cur_freq_counter_val : Int)
      = (1 : Int) * 65536 + (200 : Int) - (65000 : Int) :=
  C8_wraparound_correction
    { MeasState.zero with last_counter_val := 65000, nb_freq_overflows := 1 } 200
    (by decide) (by decide) (by decide) (by decide)

end Accumulator

section Handoff

/-- The slot of the handoff as the state holds it: full exactly when `new_val_flag`
is `TRUE`. -/
theorem cap_measurement_loop_ready (c : MeasCfg) (temp : Nat) (s : MeasState)
    (h : s.cur_resistor_index ≤ 3) (hf : s.new_val_flag = TRUE) :
    ∃ r, cap_measurement_loop c temp s = some r ∧ r.2.1 = TRUE ∧
      r.1.new_val_flag = FALSE ∧ r.1.cur_resistor_index ≤ 3 := by
  obtain ⟨s1, h1, h2, -, -⟩ := cap_measurement_logic_bounds c s h
  unfold cap_measurement_loop
  rw [if_pos hf, h1]
  exact ⟨_, rfl, rfl, rfl, h2⟩

theorem cap_measurement_loop_idle (c : MeasCfg) (temp : Nat) (s : MeasState)
    (hf : s.new_val_flag ≠ TRUE) :
    cap_measurement_loop c temp s = some (s, FALSE, none) := by
  unfold cap_measurement_loop
  rw [if_neg hf]

theorem irq_step_bounds (i : Irq) (s : MeasState) (h : s.cur_resistor_index ≤ 3) :
    (irq_step i s).cur_resistor_index ≤ 3 := by
  cases i with
  | capture cca porta_in =>
    show (TCC0_CCA_vect cca porta_in s).cur_resistor_index ≤ 3
    unfold TCC0_CCA_vect
    split_ifs <;> exact h
  | capture_overflow => exact h
  | freq_overflow => exact h
  | window_close cca => exact h

/-- The capture handler touches neither the latched data nor the ready flag. -/
theorem TCC0_CCA_vect_latched (cca porta_in : Nat) (s : MeasState) :
    latched_of (TCC0_CCA_vect cca porta_in s) = latched_of s ∧
      (TCC0_CCA_vect cca porta_in s).new_val_flag = s.new_val_flag := by
  unfold TCC0_CCA_vect
  split_ifs <;> exact ⟨rfl, rfl⟩

/-- The slot a state holds: the latched data when `new_val_flag` is `TRUE`. -/
theorem observe_mailbox (c : MeasCfg) :
    ∀ (evs : List Event) (s : MeasState), s.cur_resistor_index ≤ 3 →
      ∃ log, observe c evs s = some log ∧
        mailbox_ok (if s.new_val_flag = TRUE then some (latched_of s) else none) log
          = true := by
  intro evs
  induction evs with
  | nil => intro s _; exact ⟨[], rfl, rfl⟩
  | cons e es ih =>
    intro s h
    cases e with
    | irq i =>
      cases i with
      | capture cca porta_in =>
        obtain ⟨log, h1, h2⟩ := ih (irq_step (Irq.capture cca porta_in) s)
          (irq_step_bounds _ s h)
        refine ⟨log, by simp only [observe]; exact h1, ?_⟩
        obtain ⟨e1, e2⟩ := TCC0_CCA_vect_latched cca porta_in s
        have e3 : irq_step (Irq.capture cca porta_in) s = TCC0_CCA_vect cca porta_in s := rfl
        rw [e3, e1, e2] at h2
        exact h2
      | capture_overflow =>
        obtain ⟨log, h1, h2⟩ := ih (irq_step Irq.capture_overflow s) (irq_step_bounds _ s h)
        exact ⟨log, by simp only [observe]; exact h1, h2⟩
      | freq_overflow =>
        obtain ⟨log, h1, h2⟩ := ih (irq_step Irq.freq_overflow s) (irq_step_bounds _ s h)
        exact ⟨log, by simp only [observe]; exact h1, h2⟩
      | window_close cca =>
        obtain ⟨log, h1, h2⟩ := ih (TCC1_CCA_vect cca s) h
        have hf : (TCC1_CCA_vect cca s).new_val_flag = TRUE := rfl
        rw [if_pos hf] at h2
        refine ⟨Obs.closed (latched_of (TCC1_CCA_vect cca s)) :: log, ?_, ?_⟩
        · simp only [observe, h1, Option.map_some']
        · simp only [mailbox_ok]; exact h2
    | foreground temp =>
      by_cases hf : s.new_val_flag = TRUE
      · obtain ⟨r, g1, g2, g3, g4⟩ := cap_measurement_loop_ready c temp s h hf
        obtain ⟨log, h1, h2⟩ := ih r.1 g4
        have hne : ¬ r.1.new_val_flag = TRUE := by rw [g3]; decide
        rw [if_neg hne] at h2
        refine ⟨Obs.consumed (latched_of s) :: log, ?_, ?_⟩
        · simp only [observe, g1, h1, Option.map_some', g2, if_true]
        · rw [if_pos hf]
          simp only [mailbox_ok, h2, decide_True, Bool.and_self]
      · have g1 := cap_measurement_loop_idle c temp s hf
        obtain ⟨log, h1, h2⟩ := ih s h
        rw [if_neg hf] at h2
        refine ⟨Obs.idle :: log, ?_, ?_⟩
        · have hft : ¬ FALSE = TRUE := by decide
          simp only [observe, g1, h1, Option.map_some', if_neg hft]
        · rw [if_neg hf]
          simp only [mailbox_ok, h2, decide_True, Bool.and_self]

/-- With a foreground call between any two window-close events no window-close
finds the slot full. -/
theorem observe_paced (c : MeasCfg) :
    ∀ (evs : List Event) (s : MeasState) (p : Bool), s.cur_resistor_index ≤ 3 →
      (p = true ↔ s.new_val_flag = TRUE) → paced p evs = true →
      ∃ log, observe c evs s = some log ∧
        exclusive_ok (if s.new_val_flag = TRUE then some (latched_of s) else none) log
          = true := by
  intro evs
  induction evs with
  | nil => intro s p _ _ _; exact ⟨[], rfl, rfl⟩
  | cons e es ih =>
    intro s p h hp hpaced
    cases e with
    | irq i =>
      cases i with
      | capture cca porta_in =>
        obtain ⟨e1, e2⟩ := TCC0_CCA_vect_latched cca porta_in s
        have e3 : irq_step (Irq.capture cca porta_in) s = TCC0_CCA_vect cca porta_in s := rfl
        obtain ⟨log, h1, h2⟩ := ih (irq_step (Irq.capture cca porta_in) s) p
          (irq_step_bounds _ s h) (by rw [e3, e2]; exact hp)
          (by simpa only [paced] using hpaced)
        refine ⟨log, by simp only [observe]; exact h1, ?_⟩
        rw [e3, e1, e2] at h2
        exact h2
      | capture_overflow =>
        obtain ⟨log, h1, h2⟩ := ih (irq_step Irq.capture_overflow s) p
          (irq_step_bounds _ s h) hp (by simpa only [paced] using hpaced)
        exact ⟨log, by simp only [observe]; exact h1, h2⟩
      | freq_overflow =>
        obtain ⟨log, h1, h2⟩ := ih (irq_step Irq.freq_overflow s) p
          (irq_step_bounds _ s h) hp (by simpa only [paced] using hpaced)
        exact ⟨log, by simp only [observe]; exact h1, h2⟩
      | window_close cca =>
        simp only [paced, Bool.and_eq_true, Bool.not_eq_true'] at hpaced
        have hf : (TCC1_CCA_vect cca s).new_val_flag = TRUE := rfl
        obtain ⟨log, h1, h2⟩ := ih (TCC1_CCA_vect cca s) true h (by simp [hf]) hpaced.2
        rw [if_pos hf] at h2
        have hnf : ¬ s.new_val_flag = TRUE := by
          intro hc
          have := hp.mpr hc
          rw [hpaced.1] at this
          exact Bool.noConfusion this
        refine ⟨Obs.closed (latched_of (TCC1_CCA_vect cca s)) :: log, ?_, ?_⟩
        · simp only [observe, h1, Option.map_some']
        · rw [if_neg hnf]
          simp only [exclusive_ok, h2, decide_True, Bool.and_self]
    | foreground temp =>
      simp only [paced] at hpaced
      by_cases hf : s.new_val_flag = TRUE
      · obtain ⟨r, g1, g2, g3, g4⟩ := cap_measurement_loop_ready c temp s h hf
        have hne : ¬ r.1.new_val_flag = TRUE := by rw [g3]; decide
        obtain ⟨log, h1, h2⟩ := ih r.1 false g4 (by simp [hne]) hpaced
        rw [if_neg hne] at h2
        refine ⟨Obs.consumed (latched_of s) :: log, ?_, ?_⟩
        · simp only [observe, g1, h1, Option.map_some', g2, if_true]
        · rw [if_pos hf]
          simp only [exclusive_ok, h2, decide_True, Bool.and_self]
      · have g1 := cap_measurement_loop_idle c temp s hf
        obtain ⟨log, h1, h2⟩ := ih s false h (by simp [hf]) hpaced
        rw [if_neg hf] at h2
        refine ⟨Obs.idle :: log, ?_, ?_⟩
        · have hft : ¬ FALSE = TRUE := by decide
          simp only [observe, g1, h1, Option.map_some', if_neg hft]
        · rw [if_neg hf]
          simp only [exclusive_ok, h2, decide_True, Bool.and_self]

/-- Up to the next window-close at most one call consumes, and none when the slot
is empty. -/
theorem mailbox_ok_count :
    ∀ (l : List Obs) (p : Option Latched), mailbox_ok p l = true →
      (l.takeWhile fun o => !o.isClosed).countP Obs.isConsumed
        ≤ (if p.isSome = true then 1 else 0) := by
  intro l
  induction l with
  | nil => intro p _; simp
  | cons o l ih =>
    intro p h
    cases o with
    | closed d => simp [List.takeWhile, Obs.isClosed]
    | consumed d =>
      simp only [mailbox_ok, Bool.and_eq_true, decide_eq_true_eq] at h
      have h1 := ih none h.2
      simp only [Option.isSome_none, if_neg Bool.false_ne_true] at h1
      have e : (Obs.consumed d :: l).takeWhile (fun o => !o.isClosed)
          = Obs.consumed d :: l.takeWhile (fun o => !o.isClosed) := rfl
      have e2 : Obs.isConsumed (Obs.consumed d) = true := rfl
      rw [e, List.countP_cons, e2, h.1]
      simp only [Option.isSome_some, if_true]
      omega
    | idle =>
      simp only [mailbox_ok, Bool.and_eq_true, decide_eq_true_eq] at h
      have h1 := ih none h.2
      simp only [Option.isSome_none, if_neg Bool.false_ne_true] at h1
      have e : (Obs.idle :: l).takeWhile (fun o => !o.isClosed)
          = Obs.idle :: l.takeWhile (fun o => !o.isClosed) := rfl
      have e2 : Obs.isConsumed Obs.idle = false := rfl
      rw [e, List.countP_cons, e2, h.1]
      simp only [Option.isSome_none, Bool.false_eq_true, if_false]
      omega

/-- No window is consumed twice. -/
theorem mailbox_ok_consumers :
    ∀ (l : List Obs) (p : Option Latched) (k : Nat), mailbox_ok p l = true →
      consumers l k ≤ 1 := by
  intro l
  induction l with
  | nil => intro p k _; simp [consumers]
  | cons o l ih =>
    intro p k h
    cases o with
    | closed d =>
      simp only [mailbox_ok] at h
      cases k with
      | zero =>
        have h1 := mailbox_ok_count l (some d) h
        simp only [Option.isSome_some, if_true] at h1
        simpa only [consumers] using h1
      | succ k => simpa only [consumers] using ih (some d) k h
    | consumed d =>
      simp only [mailbox_ok, Bool.and_eq_true, decide_eq_true_eq] at h
      simpa only [consumers] using ih none k h.2
    | idle =>
      simp only [mailbox_ok, Bool.and_eq_true, decide_eq_true_eq] at h
      simpa only [consumers] using ih none k h.2

/-- Without overruns, up to the next window-close exactly the pending window is
consumed. -/
theorem exclusive_ok_count :
    ∀ (l : List Obs) (p : Option Latched), exclusive_ok p l = true →
      0 < l.countP Obs.isClosed →
      (l.takeWhile fun o => !o.isClosed).countP Obs.isConsumed
        = (if p.isSome = true then 1 else 0) := by
  intro l
  induction l with
  | nil => intro p _ h; simp at h
  | cons o l ih =>
    intro p h hc
    cases o with
    | closed d =>
      simp only [exclusive_ok, Bool.and_eq_true, decide_eq_true_eq] at h
      have e : (Obs.closed d :: l).takeWhile (fun o => !o.isClosed) = [] := rfl
      rw [e, h.1]
      simp
    | consumed d =>
      simp only [exclusive_ok, Bool.and_eq_true, decide_eq_true_eq] at h
      have e2 : Obs.isClosed (Obs.consumed d) = false := rfl
      have e3 : Obs.isConsumed (Obs.consumed d) = true := rfl
      rw [List.countP_cons, e2] at hc
      have h1 := ih none h.2 (by simpa using hc)
      simp only [Option.isSome_none, Bool.false_eq_true, if_false] at h1
      have e : (Obs.consumed d :: l).takeWhile (fun o => !o.isClosed)
          = Obs.consumed d :: l.takeWhile (fun o => !o.isClosed) := rfl
      rw [e, List.countP_cons, e3, h.1, h1]
      simp
    | idle =>
      simp only [exclusive_ok, Bool.and_eq_true, decide_eq_true_eq] at h
      have e2 : Obs.isClosed Obs.idle = false := rfl
      have e3 : Obs.isConsumed Obs.idle = false := rfl
      rw [List.countP_cons, e2] at hc
      have h1 := ih none h.2 (by simpa using hc)
      simp only [Option.isSome_none, Bool.false_eq_true, if_false] at h1
      have e : (Obs.idle :: l).takeWhile (fun o => !o.isClosed)
          = Obs.idle :: l.takeWhile (fun o => !o.isClosed) := rfl
      rw [e, List.countP_cons, e3, h.1, h1]
      simp

/-- Without overruns every window followed by another window-close is consumed by
exactly one call. -/
theorem exclusive_ok_consumers :
    ∀ (l : List Obs) (p : Option Latched) (k : Nat), exclusive_ok p l = true →
      k + 1 < l.countP Obs.isClosed → consumers l k = 1 := by
  intro l
  induction l with
  | nil => intro p k _ h; simp at h
  | cons o l ih =>
    intro p k h hc
    cases o with
    | closed d =>
      simp only [exclusive_ok, Bool.and_eq_true, decide_eq_true_eq] at h
      have e2 : Obs.isClosed (Obs.closed d) = true := rfl
      rw [List.countP_cons, e2] at hc
      simp only [if_true] at hc
      cases k with
      | zero =>
        have h1 := exclusive_ok_count l (some d) h.2 (by omega)
        simp only [Option.isSome_some, if_true] at h1
        simpa only [consumers] using h1
      | succ k => simpa only [consumers] using ih (some d) k h.2 (by omega)
    | consumed d =>
      simp only [exclusive_ok, Bool.and_eq_true, decide_eq_true_eq] at h
      have e2 : Obs.isClosed (Obs.consumed d) = false := rfl
      rw [List.countP_cons, e2] at hc
      simpa only [consumers] using ih none k h.2 (by simpa using hc)
    | idle =>
      simp only [exclusive_ok, Bool.and_eq_true, decide_eq_true_eq] at h
      have e2 : Obs.isClosed Obs.idle = false := rfl
      rw [List.countP_cons, e2] at hc
      simpa only [consumers] using ih none k h.2 (by simpa using hc)

/-- C10, the claim as stated fails: when two windows close before the foreground
runs (a capture of width 100, a window-close, a capture of width 700, a
window-close, two foreground calls), the log holds two window-closes, the first
window is consumed by no call (its latched `last_agg_fall = 100` is overwritten by
700) and the second by one. -/
theorem C10_counterexample :
    (observe sampleMeasCfg overrun_events MeasState.zero).map
        (fun log => (log.countP Obs.isClosed, consumers log 0, consumers log 1))
      = some (2, 0, 1) ∧
    (observe sampleMeasCfg overrun_events MeasState.zero).map
        (fun log => log.filterMap fun o =>
          match o with
          | Obs.closed d => some (0, d.last_agg_fall)
          | Obs.consumed d => some (1, d.last_agg_fall)
          | Obs.idle => none)
      = some [(0, 100), (0, 700), (1, 700)] := by
  decide

/-- C10, amended: for every sequence of atomic capture, overflow, window-close and
foreground `cap_measurement_loop` events from a state with the ready flag clear and
the range index in bounds, every foreground call returns; a call returns `TRUE`
exactly when a window-close happened since the previous call returning `TRUE`, and
then finds exactly the data latched by the most recent window-close; no window is
consumed twice. A window whose latched values are overwritten by a later
window-close before a call consumes them is never observed. When a foreground call
runs between any two window-close events, no window is overwritten, and every
window followed by another window-close is consumed by exactly one call. -/
theorem C10_window_handoff (c : MeasCfg) (evs : List Event) (s : MeasState)
    (hidx : s.cur_resistor_index ≤ sizeof_res_mux_modes - 1)
    (hflag : s.new_val_flag = FALSE) :
    ∃ log, observe c evs s = some log ∧ mailbox_ok none log = true ∧
      (∀ k, consumers log k ≤ 1) ∧
      (paced false evs = true →
        exclusive_ok none log = true ∧
        ∀ k, k + 1 < log.countP Obs.isClosed → consumers log k = 1) := by
  have hne : ¬ s.new_val_flag = TRUE := by rw [hflag]; decide
  obtain ⟨log, h1, h2⟩ := observe_mailbox c evs s hidx
  rw [if_neg hne] at h2
  refine ⟨log, h1, h2, fun k => mailbox_ok_consumers log none k h2, fun hp => ?_⟩
  obtain ⟨log2, g1, g2⟩ := observe_paced c evs s false hidx (by simp [hne]) hp
  rw [if_neg hne] at g2
  have hl : log2 = log := Option.some.inj (g1.symm.trans h1)
  rw [hl] at g2
  exact ⟨g2, fun k hk => exclusive_ok_consumers log none k g2 hk⟩

/-- Witness for `C10_window_handoff`: the paced sample sequence from the reset
state. -/
theorem C10_window_handoff_witness :
    (MeasState.zero.cur_resistor_index ≤ sizeof_res_mux_modes - 1 ∧
      MeasState.zero.new_val_flag = FALSE ∧ paced false paced_events = true) ∧
    ∃ log, observe sampleMeasCfg paced_events MeasState.zero = some log ∧
      mailbox_ok none log = true ∧
      (∀ k, consumers log k ≤ 1) ∧
      (paced false paced_events = true →
        exclusive_ok none log = true ∧
        ∀ k, k + 1 < log.countP Obs.isClosed → consumers log k = 1) :=
  ⟨by decide, C10_window_handoff sampleMeasCfg paced_events MeasState.zero
    (by decide) (by decide)⟩

end Handoff

section Foreground

/-- Interrupts other than the window-close one leave the ready flag alone. -/
theorem irq_run_flag (is : List Irq) :
    ∀ (s : MeasState), (∀ i ∈ is, Irq.isWindowClose i = false) →
      (irq_run is s).new_val_flag = s.new_val_flag := by
  induction is with
  | nil => intro s _; rfl
  | cons i is ih =>
    intro s h
    have h1 := ih (irq_step i s) (fun j hj => h j (List.mem_cons_of_mem _ hj))
    have h2 : (irq_step i s).new_val_flag = s.new_val_flag := by
      cases i with
      | capture cca porta_in => exact (TCC0_CCA_vect_latched cca porta_in s).2
      | capture_overflow => rfl
      | freq_overflow => rfl
      | window_close cca =>
        have hw := h (Irq.window_close cca) (List.mem_cons_self _ _)
        exact Bool.noConfusion hw
    show (irq_run is (irq_step i s)).new_val_flag = _
    rw [h1, h2]

/-- C11: called with `new_val_flag` clear, `cap_measurement_loop` returns `FALSE` and
changes no state; called with the flag set (range index in bounds) it runs
`cap_measurement_logic` once, clears the flag and returns `TRUE`. Of two foreground
calls with no window-close handler in between (other handlers may run), the second
returns `FALSE` and changes nothing: a window is consumed at most once. -/
theorem C11_flag_and_clear (c : MeasCfg) (temp temp2 : Nat) (s : MeasState) (is : List Irq)
    (hidx : s.cur_resistor_index ≤ sizeof_res_mux_modes - 1)
    (hq : ∀ i ∈ is, Irq.isWindowClose i = false) :
    (s.new_val_flag = FALSE → cap_measurement_loop c temp s = some (s, FALSE, none)) ∧
    (s.new_val_flag = TRUE →
      ∃ s1 out, cap_measurement_logic c s = some s1 ∧
        cap_measurement_loop c temp s = some ({ s1 with new_val_flag := FALSE }, TRUE, out)) ∧
    (∃ r, cap_measurement_loop c temp s = some r ∧
      cap_measurement_loop c temp2 (irq_run is r.1) = some (irq_run is r.1, FALSE, none)) := by
  have hft : ¬ FALSE = TRUE := by decide
  refine ⟨fun hf => ?_, fun hf => ?_, ?_⟩
  · exact cap_measurement_loop_idle c temp s (by rw [hf]; exact hft)
  · obtain ⟨s1, h1, -, -, -⟩ := cap_measurement_logic_bounds c s hidx
    refine ⟨s1,
      if temp = FALSE then some ⟨s1.last_agg_fall, s1.cur_freq_counter_val⟩ else none,
      h1, ?_⟩
    unfold cap_measurement_loop
    rw [if_pos hf, h1]
  · by_cases hf : s.new_val_flag = TRUE
    · obtain ⟨r, g1, -, g3, -⟩ := cap_measurement_loop_ready c temp s hidx hf
      refine ⟨r, g1, cap_measurement_loop_idle c temp2 _ ?_⟩
      rw [irq_run_flag is r.1 hq, g3]
      exact hft
    · refine ⟨_, cap_measurement_loop_idle c temp s hf, cap_measurement_loop_idle c temp2 _ ?_⟩
      rw [irq_run_flag is s hq]
      exact hf

/-- Witness for `C11_flag_and_clear`: a ready window, two captures between the two
foreground calls. -/
theorem C11_flag_and_clear_witness :
    (stale_session.cur_resistor_index ≤ sizeof_res_mux_modes - 1 ∧
      stale_session.new_val_flag = TRUE) ∧
    ∃ r, cap_measurement_loop sampleMeasCfg 0 stale_session = some r ∧
      cap_measurement_loop sampleMeasCfg 0
          (irq_run [Irq.capture 10 0, Irq.capture 20 0x40] r.1)
        = some (irq_run [Irq.capture 10 0, Irq.capture 20 0x40] r.1, FALSE, none) :=
  ⟨by decide,
   (C11_flag_and_clear sampleMeasCfg 0 0 stale_session
      [Irq.capture 10 0, Irq.capture 20 0x40] (by decide) (by decide)).2.2⟩

/-- The `else` branch of the range logic: only the two counters are reset. -/
theorem cap_measurement_logic_rest (c : MeasCfg) (s : MeasState)
    (h1 : ¬ (current_osc_freq c s > c.MAX_FREQ_FOR_MEAS ∧ s.cur_resistor_index < 3))
    (h2 : ¬ (current_osc_freq c s < c.MIN_FREQ_FOR_MEAS ∧ s.cur_resistor_index > 0)) :
    cap_measurement_logic c s
      = some { s with nb_conseq_freq_pb := 0, tc_consecutive_errors_cnt := 0 } := by
  unfold cap_measurement_logic
  simp only [sizeof_res_mux_modes]
  rw [if_neg h1, if_neg h2]
  rfl

/-- While the hysteresis counter is at or below the threshold the range logic
returns and moves neither the range index nor the mux. -/
theorem cap_measurement_logic_hold (c : MeasCfg) (s : MeasState)
    (hk : s.nb_conseq_freq_pb ≤ c.NB_CONSEQ_FREQ_PB_CHG_RES) :
    ∃ s1, cap_measurement_logic c s = some s1 ∧
      s1.cur_resistor_index = s.cur_resistor_index ∧ s1.res_mux = s.res_mux := by
  unfold cap_measurement_logic
  simp only [sizeof_res_mux_modes]
  split_ifs with h1 h2 h3 h4
  · omega
  · exact ⟨_, rfl, rfl, rfl⟩
  · omega
  · exact ⟨_, rfl, rfl, rfl⟩
  · exact ⟨_, rfl, rfl, rfl⟩

/-- C16: from every state with the range index in bounds `cap_measurement_logic`
returns, and if it changes `cur_resistor_index` then it changes it by exactly one
step, upward only with the frequency estimate above `MAX_FREQ_FOR_MEAS` and downward
only with it below `MIN_FREQ_FOR_MEAS`, only when the hysteresis counter before the
call strictly exceeds `NB_CONSEQ_FREQ_PB_CHG_RES`, and it resets the counter to 0 and
selects the mux code `res_mux_modes[new index]`. In particular a window with any
count `v` that follows an in-band window changes neither the range nor the mux. -/
theorem C16_range_change_guard (c : MeasCfg) (s : MeasState) (v : Nat)
    (hidx : s.cur_resistor_index ≤ sizeof_res_mux_modes - 1) :
    (∃ s1, cap_measurement_logic c s = some s1 ∧
      (s1.cur_resistor_index ≠ s.cur_resistor_index →
        ((s1.cur_resistor_index = s.cur_resistor_index + 1 ∧
            current_osc_freq c s > c.MAX_FREQ_FOR_MEAS) ∨
          (s1.cur_resistor_index + 1 = s.cur_resistor_index ∧
            current_osc_freq c s < c.MIN_FREQ_FOR_MEAS)) ∧
        s.nb_conseq_freq_pb > c.NB_CONSEQ_FREQ_PB_CHG_RES ∧
        s1.nb_conseq_freq_pb = 0 ∧
        (res_mux_modes c)[s1.cur_resistor_index]? = some s1.res_mux)) ∧
    (c.MIN_FREQ_FOR_MEAS ≤ current_osc_freq c s →
      current_osc_freq c s ≤ c.MAX_FREQ_FOR_MEAS →
      ∃ s1 s2, cap_measurement_logic c s = some s1 ∧
        cap_measurement_logic c { s1 with cur_freq_counter_val := v } = some s2 ∧
        s2.cur_resistor_index = s.cur_resistor_index ∧ s2.res_mux = s.res_mux) := by
  have hidx3 : s.cur_resistor_index ≤ 3 := hidx
  constructor
  · unfold cap_measurement_logic
    simp only [sizeof_res_mux_modes]
    split_ifs with h1 h2 h3 h4
    · have he : (s.cur_resistor_index + 1) % 2 ^ 8 = s.cur_resistor_index + 1 := by omega
      obtain ⟨m, hm1, hm⟩ := change_res_some c ((s.cur_resistor_index + 1) % 2 ^ 8)
        { s with nb_conseq_freq_pb := (s.nb_conseq_freq_pb + 1) % 2 ^ 8 } (by omega)
      rw [hm]
      exact ⟨_, rfl, fun _ => ⟨Or.inl ⟨he, h1.1⟩, h2, rfl, hm1⟩⟩
    · exact ⟨_, rfl, fun hne => absurd rfl hne⟩
    · have he : (s.cur_resistor_index + 2 ^ 8 - 1) % 2 ^ 8 + 1 = s.cur_resistor_index := by
        omega
      obtain ⟨m, hm1, hm⟩ := change_res_some c ((s.cur_resistor_index + 2 ^ 8 - 1) % 2 ^ 8)
        { s with nb_conseq_freq_pb := (s.nb_conseq_freq_pb + 1) % 2 ^ 8 } (by omega)
      rw [hm]
      exact ⟨_, rfl, fun _ => ⟨Or.inr ⟨he, h3.1⟩, h4, rfl, hm1⟩⟩
    · exact ⟨_, rfl, fun hne => absurd rfl hne⟩
    · exact ⟨_, rfl, fun hne => absurd rfl hne⟩
  · intro hlo hhi
    have h1 := cap_measurement_logic_rest c s (fun h => by omega) (fun h => by omega)
    obtain ⟨s2, g1, g2, g3⟩ := cap_measurement_logic_hold c
      { s with nb_conseq_freq_pb := 0, tc_consecutive_errors_cnt := 0,
               cur_freq_counter_val := v }
      (Nat.zero_le _)
    exact ⟨_, s2, h1, g1, g2, g3⟩

/-- Witness for `C16_range_change_guard`: the hysteresis counter above the threshold
at the second-highest range, a too-high count. -/
theorem C16_range_change_guard_witness :
    ({ hysteresis_start with nb_conseq_freq_pb := 3, cur_freq_counter_val := 5000000 }
        : MeasState).cur_resistor_index ≤ sizeof_res_mux_modes - 1 ∧
    ∃ s1, cap_measurement_logic sampleMeasCfg
        { hysteresis_start with nb_conseq_freq_pb := 3, cur_freq_counter_val := 5000000 }
        = some s1 ∧
      (s1.cur_resistor_index ≠ 2 →
        ((s1.cur_resistor_index = 2 + 1 ∧
            current_osc_freq sampleMeasCfg
              { hysteresis_start with nb_conseq_freq_pb := 3, cur_freq_counter_val := 5000000 }
              > sampleMeasCfg.MAX_FREQ_FOR_MEAS) ∨
          (s1.cur_resistor_index + 1 = 2 ∧
            current_osc_freq sampleMeasCfg
              { hysteresis_start with nb_conseq_freq_pb := 3, cur_freq_counter_val := 5000000 }
              < sampleMeasCfg.MIN_FREQ_FOR_MEAS)) ∧
        3 > sampleMeasCfg.NB_CONSEQ_FREQ_PB_CHG_RES ∧
        s1.nb_conseq_freq_pb = 0 ∧
        (res_mux_modes sampleMeasCfg)[s1.cur_resistor_index]? = some s1.res_mux) :=
  ⟨by decide,
   (C16_range_change_guard sampleMeasCfg
      { hysteresis_start with nb_conseq_freq_pb := 3, cur_freq_counter_val := 5000000 } 0
      (by decide)).1⟩

/-- C17: from every state whose frequency estimate lies within
`[MIN_FREQ_FOR_MEAS, MAX_FREQ_FOR_MEAS]`, and likewise when the estimate is too high
at the highest range or too low at the lowest range (the two bounds in order),
`cap_measurement_logic` sets `nb_conseq_freq_pb` to 0 and leaves
`cur_resistor_index` and the selected mux unchanged: it only resets the hysteresis
counter and the capture error counter. -/
theorem C17_in_band_reset (c : MeasCfg) (s : MeasState)
    (hmm : c.MIN_FREQ_FOR_MEAS ≤ c.MAX_FREQ_FOR_MEAS)
    (h : (c.MIN_FREQ_FOR_MEAS ≤ current_osc_freq c s ∧
            current_osc_freq c s ≤ c.MAX_FREQ_FOR_MEAS) ∨
          (current_osc_freq c s > c.MAX_FREQ_FOR_MEAS ∧
            s.cur_resistor_index = sizeof_res_mux_modes - 1) ∨
          (current_osc_freq c s < c.MIN_FREQ_FOR_MEAS ∧ s.cur_resistor_index = 0)) :
    current_osc_freq c s
      = (s.cur_freq_counter_val
          <<< c.get_bit_shift_for_freq_define s.cur_freq_meas) % 2 ^ 32 ∧
    ∃ s1, cap_measurement_logic c s = some s1 ∧ s1.nb_conseq_freq_pb = 0 ∧
      s1.cur_resistor_index = s.cur_resistor_index ∧ s1.res_mux = s.res_mux ∧
      s1 = { s with nb_conseq_freq_pb := 0, tc_consecutive_errors_cnt := 0 } := by
  refine ⟨rfl, _, cap_measurement_logic_rest c s ?_ ?_, rfl, rfl, rfl, rfl⟩
  · intro hc
    rcases h with h | h | h
    · omega
    · have h3 : s.cur_resistor_index = 3 := h.2
      omega
    · omega
  · intro hc
    rcases h with h | h | h
    · omega
    · omega
    · omega

/-- Witness for `C17_in_band_reset`: a too-high count at the highest range with the
hysteresis counter at 5. -/
theorem C17_in_band_reset_witness :
    (sampleMeasCfg.MIN_FREQ_FOR_MEAS ≤ sampleMeasCfg.MAX_FREQ_FOR_MEAS ∧
      current_osc_freq sampleMeasCfg
          { MeasState.zero with cur_resistor_index := 3, nb_conseq_freq_pb := 5,
                                cur_freq_counter_val := 5000000, cur_freq_meas := 32767 }
        > sampleMeasCfg.MAX_FREQ_FOR_MEAS) ∧
    ∃ s1, cap_measurement_logic sampleMeasCfg
        { MeasState.zero with cur_resistor_index := 3, nb_conseq_freq_pb := 5,
                              cur_freq_counter_val := 5000000, cur_freq_meas := 32767 }
        = some s1 ∧
      s1.nb_conseq_freq_pb = 0 ∧ s1.cur_resistor_index = 3 ∧ s1.res_mux = 0 ∧
      s1 = { MeasState.zero with cur_resistor_index := 3, nb_conseq_freq_pb := 0,
                                 cur_freq_counter_val := 5000000, cur_freq_meas := 32767,
                                 tc_consecutive_errors_cnt := 0 } :=
  ⟨by decide,
   (C17_in_band_reset sampleMeasCfg
      { MeasState.zero with cur_resistor_index := 3, nb_conseq_freq_pb := 5,
                            cur_freq_counter_val := 5000000, cur_freq_meas := 32767 }
      (by decide) (Or.inr (Or.inl (by decide)))).2⟩

/-- C18: for every state and raw count the window-close handler sets each `last_*`
field to the value the matching `current_*` field had before the call, sets the four
`current_*` fields and `nb_freq_overflows` to 0, sets `last_counter_val` to the raw
16-bit count and sets `new_val_flag`. -/
theorem C18_window_close_snapshot (s : MeasState) (cca : Nat) :
    (TCC1_CCA_vect cca s).last_agg_fall = s.current_agg_fall ∧
    (TCC1_CCA_vect cca s).last_agg_rise = s.current_agg_rise ∧
    (TCC1_CCA_vect cca s).last_counter_fall = s.current_counter_fall ∧
    (TCC1_CCA_vect cca s).last_counter_rise = s.current_counter_rise ∧
    (TCC1_CCA_vect cca s).current_agg_fall = 0 ∧
    (TCC1_CCA_vect cca s).current_agg_rise = 0 ∧
    (TCC1_CCA_vect cca s).current_counter_fall = 0 ∧
    (TCC1_CCA_vect cca s).current_counter_rise = 0 ∧
    (TCC1_CCA_vect cca s).nb_freq_overflows = 0 ∧
    (TCC1_CCA_vect cca s).last_counter_val = cca % 2 ^ 16 ∧
    (TCC1_CCA_vect cca s).new_val_flag = TRUE :=
  ⟨rfl, rfl, rfl, rfl, rfl, rfl, rfl, rfl, rfl, rfl, rfl⟩

/-- C19, the claim as stated fails: entered from a state left by an earlier session
(falling aggregate 1234 over 3 pulses, rising count 777),
`set_capacitance_measurement_mode` returns with these values still in the current
accumulators and counts. -/
theorem C19_counterexample :
    (set_capacitance_measurement_mode sampleMeasCfg stale_session).map
        (fun s => (s.current_agg_fall, s.current_counter_fall, s.current_agg_rise,
          s.current_counter_rise))
      = some (1234, 3, 0, 777) := by
  decide

/-- C19, amended: `set_capacitance_measurement_mode` returns from every prior state
and leaves the current rise/fall accumulators and pulse counts as they were; they
are all zero after mode entry from the reset state, where they are zero already,
and from any prior state they are all zero after the first window-close handler
that follows mode entry. -/
theorem C19_mode_entry_accumulators (c : MeasCfg) (s : MeasState) (cca : Nat) :
    ∃ s1, set_capacitance_measurement_mode c s = some s1 ∧
      (s1.current_agg_fall = s.current_agg_fall ∧
        s1.current_agg_rise = s.current_agg_rise ∧
        s1.current_counter_fall = s.current_counter_fall ∧
        s1.current_counter_rise = s.current_counter_rise) ∧
      (∃ s0, set_capacitance_measurement_mode c MeasState.zero = some s0 ∧
        s0.current_agg_fall = 0 ∧ s0.current_agg_rise = 0 ∧
        s0.current_counter_fall = 0 ∧ s0.current_counter_rise = 0) ∧
      ((TCC1_CCA_vect cca s1).current_agg_fall = 0 ∧
        (TCC1_CCA_vect cca s1).current_agg_rise = 0 ∧
        (TCC1_CCA_vect cca s1).current_counter_fall = 0 ∧
        (TCC1_CCA_vect cca s1).current_counter_rise = 0) :=
  ⟨_, rfl, ⟨rfl, rfl, rfl, rfl⟩, ⟨_, rfl, rfl, rfl, rfl, rfl⟩, ⟨rfl, rfl, rfl, rfl⟩⟩

end Foreground

/-! ## Theorems about `vbias.c` -/

section Servo

theorem increasing_body_state (c : VbiasCfg) (adc : Adc) (val_mv : Nat) (s : VbiasState)
    (l : Locals) :
    (increasing_body c adc val_mv s l).1
      = { s with
          cur_vbias_dac_val := (s.cur_vbias_dac_val + 2 ^ 16 - 1) % 2 ^ 16
          dac_calls :=
            DacCall.update_vbias_dac ((s.cur_vbias_dac_val + 2 ^ 16 - 1) % 2 ^ 16)
              :: s.dac_calls
          adc_samples := s.adc_samples + 1 } := by
  simp only [increasing_body, adc_read]
  split_ifs <;> rfl

theorem increasing_body_measured (c : VbiasCfg) (adc : Adc) (val_mv : Nat) (s : VbiasState)
    (l : Locals) :
    ∃ req, (increasing_body c adc val_mv s l).2.measured_vbias
      = compute_vbias_for_adc_value (adc s.adc_samples req % 2 ^ 16) := by
  simp only [increasing_body, adc_read]
  split_ifs <;> exact ⟨_, rfl⟩

theorem decreasing_body_state (c : VbiasCfg) (adc : Adc) (val_mv : Nat) (s : VbiasState)
    (l : Locals) :
    (decreasing_body c adc val_mv s l).1
      = { s with
          cur_vbias_dac_val := (s.cur_vbias_dac_val + 1) % 2 ^ 16
          dac_calls :=
            DacCall.update_vbias_dac ((s.cur_vbias_dac_val + 1) % 2 ^ 16) :: s.dac_calls
          adc_samples := s.adc_samples + 1 } := by
  simp only [decreasing_body, adc_read]

theorem decreasing_body_measured (c : VbiasCfg) (adc : Adc) (val_mv : Nat) (s : VbiasState)
    (l : Locals) :
    ∃ req, (decreasing_body c adc val_mv s l).2.measured_vbias
      = compute_vbias_for_adc_value (adc s.adc_samples req % 2 ^ 16) := by
  simp only [decreasing_body, adc_read]
  split_ifs <;> exact ⟨_, rfl⟩

theorem increasing_loop_succ (c : VbiasCfg) (adc : Adc) (val_mv fuel : Nat) (s : VbiasState)
    (l : Locals) :
    increasing_loop c adc val_mv (fuel + 1) s l
      = if (increasing_body c adc val_mv s l).2.measured_vbias
            < sub16 val_mv c.VBIAS_OVERSHOOT_MV ∧
          (increasing_body c adc val_mv s l).1.cur_vbias_dac_val ≠ 0 then
          (increasing_loop c adc val_mv fuel (increasing_body c adc val_mv s l).1
            (increasing_body c adc val_mv s l).2).map fun x => (x.1, x.2.1, x.2.2 + 1)
        else some ((increasing_body c adc val_mv s l).1,
          (increasing_body c adc val_mv s l).2, 1) := rfl

theorem decreasing_loop_succ (c : VbiasCfg) (adc : Adc) (val_mv fuel : Nat) (s : VbiasState)
    (l : Locals) :
    decreasing_loop c adc val_mv (fuel + 1) s l
      = if (decreasing_body c adc val_mv s l).2.measured_vbias > val_mv ∧
          (decreasing_body c adc val_mv s l).1.cur_vbias_dac_val ≠ c.DAC_MAX_VAL then
          (decreasing_loop c adc val_mv fuel (decreasing_body c adc val_mv s l).1
            (decreasing_body c adc val_mv s l).2).map fun x => (x.1, x.2.1, x.2.2 + 1)
        else some ((decreasing_body c adc val_mv s l).1,
          (decreasing_body c adc val_mv s l).2, 1) := rfl

theorem increasing_body_dac (c : VbiasCfg) (adc : Adc) (val_mv : Nat) (s : VbiasState)
    (l : Locals) :
    (increasing_body c adc val_mv s l).1.cur_vbias_dac_val
      = (s.cur_vbias_dac_val + 2 ^ 16 - 1) % 2 ^ 16 := by
  rw [increasing_body_state]

theorem decreasing_body_dac (c : VbiasCfg) (adc : Adc) (val_mv : Nat) (s : VbiasState)
    (l : Locals) :
    (decreasing_body c adc val_mv s l).1.cur_vbias_dac_val
      = (s.cur_vbias_dac_val + 1) % 2 ^ 16 := by
  rw [decreasing_body_state]

/-- The voltage-increasing loop exits: the 16-bit DAC code reaches 0 after at most
`2^16` passes. Entered with the code `d`, it makes at most `((d - 1) mod 2^16) + 1`
passes. -/
theorem increasing_loop_bound (c : VbiasCfg) (adc : Adc) (val_mv : Nat) :
    ∀ (fuel : Nat) (s : VbiasState) (l : Locals),
      (s.cur_vbias_dac_val + 2 ^ 16 - 1) % 2 ^ 16 < fuel →
      ∃ r, increasing_loop c adc val_mv fuel s l = some r ∧ 1 ≤ r.2.2 ∧
        r.2.2 ≤ (s.cur_vbias_dac_val + 2 ^ 16 - 1) % 2 ^ 16 + 1 := by
  intro fuel
  induction fuel with
  | zero => intro s l h; omega
  | succ fuel ih =>
    intro s l h
    rw [increasing_loop_succ]
    have hd := increasing_body_dac c adc val_mv s l
    split_ifs with hc
    · obtain ⟨r, h1, h2, h3⟩ := ih (increasing_body c adc val_mv s l).1
        (increasing_body c adc val_mv s l).2 (by rw [hd]; rw [hd] at hc; omega)
      rw [h1]
      refine ⟨_, rfl, ?_, ?_⟩
      · show 1 ≤ r.2.2 + 1; omega
      · show r.2.2 + 1 ≤ _
        rw [hd] at h3 hc
        omega
    · exact ⟨_, rfl, le_refl _, by show 1 ≤ _; omega⟩

/-- The voltage-decreasing loop exits: the 16-bit DAC code reaches `DAC_MAX_VAL`
after at most `2^16` passes. Entered with the code `d`, it makes at most
`((DAC_MAX_VAL - d - 1) mod 2^16) + 1` passes. -/
theorem decreasing_loop_bound (c : VbiasCfg) (adc : Adc) (val_mv : Nat)
    (hmax : c.DAC_MAX_VAL < 2 ^ 16) :
    ∀ (fuel : Nat) (s : VbiasState) (l : Locals),
      (c.DAC_MAX_VAL + 2 ^ 16 - (s.cur_vbias_dac_val + 1) % 2 ^ 16) % 2 ^ 16 < fuel →
      ∃ r, decreasing_loop c adc val_mv fuel s l = some r ∧ 1 ≤ r.2.2 ∧
        r.2.2 ≤ (c.DAC_MAX_VAL + 2 ^ 16 - (s.cur_vbias_dac_val + 1) % 2 ^ 16) % 2 ^ 16 + 1 := by
  intro fuel
  induction fuel with
  | zero => intro s l h; omega
  | succ fuel ih =>
    intro s l h
    rw [decreasing_loop_succ]
    have hd := decreasing_body_dac c adc val_mv s l
    split_ifs with hc
    · obtain ⟨r, h1, h2, h3⟩ := ih (decreasing_body c adc val_mv s l).1
        (decreasing_body c adc val_mv s l).2 (by rw [hd]; rw [hd] at hc; omega)
      rw [h1]
      refine ⟨_, rfl, ?_, ?_⟩
      · show 1 ≤ r.2.2 + 1; omega
      · show r.2.2 + 1 ≤ _
        rw [hd] at h3 hc
        omega
    · exact ⟨_, rfl, le_refl _, by show 1 ≤ _; omega⟩

theorem increasing_body_samples (c : VbiasCfg) (adc : Adc) (val_mv : Nat) (s : VbiasState)
    (l : Locals) :
    (increasing_body c adc val_mv s l).1.adc_samples = s.adc_samples + 1 := by
  rw [increasing_body_state]

theorem decreasing_body_samples (c : VbiasCfg) (adc : Adc) (val_mv : Nat) (s : VbiasState)
    (l : Locals) :
    (decreasing_body c adc val_mv s l).1.adc_samples = s.adc_samples + 1 := by
  rw [decreasing_body_state]

/-- While every reading stays under the exit level, the voltage-increasing loop
steps the DAC code all the way down to 0. -/
theorem increasing_loop_low (c : VbiasCfg) (adc : Adc) (val_mv : Nat) :
    ∀ (fuel : Nat) (s : VbiasState) (l : Locals),
      (s.cur_vbias_dac_val + 2 ^ 16 - 1) % 2 ^ 16 < fuel →
      (∀ k req, s.adc_samples ≤ k →
        k ≤ s.adc_samples + (s.cur_vbias_dac_val + 2 ^ 16 - 1) % 2 ^ 16 →
        compute_vbias_for_adc_value (adc k req % 2 ^ 16)
          < sub16 val_mv c.VBIAS_OVERSHOOT_MV) →
      ∃ r, increasing_loop c adc val_mv fuel s l = some r ∧
        r.2.2 = (s.cur_vbias_dac_val + 2 ^ 16 - 1) % 2 ^ 16 + 1 ∧
        r.1.cur_vbias_dac_val = 0 ∧
        r.1.adc_samples = s.adc_samples + (s.cur_vbias_dac_val + 2 ^ 16 - 1) % 2 ^ 16 + 1 := by
  intro fuel
  induction fuel with
  | zero => intro s l h; omega
  | succ fuel ih =>
    intro s l h hlow
    rw [increasing_loop_succ]
    have hd := increasing_body_dac c adc val_mv s l
    have hs := increasing_body_samples c adc val_mv s l
    obtain ⟨req, hm⟩ := increasing_body_measured c adc val_mv s l
    have hlt : (increasing_body c adc val_mv s l).2.measured_vbias
        < sub16 val_mv c.VBIAS_OVERSHOOT_MV := by
      rw [hm]; exact hlow _ req (le_refl _) (by omega)
    by_cases hz : (increasing_body c adc val_mv s l).1.cur_vbias_dac_val = 0
    · rw [if_neg (fun hc => hc.2 hz)]
      refine ⟨_, rfl, ?_, hz, ?_⟩
      · show 1 = _; rw [hd] at hz; omega
      · show (increasing_body c adc val_mv s l).1.adc_samples = _
        rw [hs]; rw [hd] at hz; omega
    · rw [if_pos ⟨hlt, hz⟩]
      obtain ⟨r, h1, h2, h3, h4⟩ := ih (increasing_body c adc val_mv s l).1
        (increasing_body c adc val_mv s l).2 (by rw [hd]; rw [hd] at hz; omega)
        (fun k rq hk1 hk2 => hlow k rq (by rw [hs] at hk1; omega)
          (by rw [hs, hd] at hk2; rw [hd] at hz; omega))
      rw [h1]
      refine ⟨_, rfl, ?_, h3, ?_⟩
      · show r.2.2 + 1 = _
        rw [h2, hd]; rw [hd] at hz; omega
      · show r.1.adc_samples = _
        rw [h4, hs, hd]; rw [hd] at hz; omega

/-- While every reading stays above the target, the voltage-decreasing loop steps
the DAC code all the way up to `DAC_MAX_VAL`. -/
theorem decreasing_loop_high (c : VbiasCfg) (adc : Adc) (val_mv : Nat)
    (hmax : c.DAC_MAX_VAL < 2 ^ 16) :
    ∀ (fuel : Nat) (s : VbiasState) (l : Locals),
      (c.DAC_MAX_VAL + 2 ^ 16 - (s.cur_vbias_dac_val + 1) % 2 ^ 16) % 2 ^ 16 < fuel →
      (∀ k req, s.adc_samples ≤ k →
        k ≤ s.adc_samples
          + (c.DAC_MAX_VAL + 2 ^ 16 - (s.cur_vbias_dac_val + 1) % 2 ^ 16) % 2 ^ 16 →
        compute_vbias_for_adc_value (adc k req % 2 ^ 16) > val_mv) →
      ∃ r, decreasing_loop c adc val_mv fuel s l = some r ∧
        r.2.2 = (c.DAC_MAX_VAL + 2 ^ 16 - (s.cur_vbias_dac_val + 1) % 2 ^ 16) % 2 ^ 16 + 1 ∧
        r.1.cur_vbias_dac_val = c.DAC_MAX_VAL ∧
        r.1.adc_samples = s.adc_samples
          + (c.DAC_MAX_VAL + 2 ^ 16 - (s.cur_vbias_dac_val + 1) % 2 ^ 16) % 2 ^ 16 + 1 := by
  intro fuel
  induction fuel with
  | zero => intro s l h; omega
  | succ fuel ih =>
    intro s l h hhigh
    rw [decreasing_loop_succ]
    have hd := decreasing_body_dac c adc val_mv s l
    have hs := decreasing_body_samples c adc val_mv s l
    obtain ⟨req, hm⟩ := decreasing_body_measured c adc val_mv s l
    have hgt : (decreasing_body c adc val_mv s l).2.measured_vbias > val_mv := by
      rw [hm]; exact hhigh _ req (le_refl _) (by omega)
    by_cases hz : (decreasing_body c adc val_mv s l).1.cur_vbias_dac_val = c.DAC_MAX_VAL
    · rw [if_neg (fun hc => hc.2 hz)]
      refine ⟨_, rfl, ?_, hz, ?_⟩
      · show 1 = _; rw [hd] at hz; omega
      · show (decreasing_body c adc val_mv s l).1.adc_samples = _
        rw [hs]; rw [hd] at hz; omega
    · rw [if_pos ⟨hgt, hz⟩]
      obtain ⟨r, h1, h2, h3, h4⟩ := ih (decreasing_body c adc val_mv s l).1
        (decreasing_body c adc val_mv s l).2 (by rw [hd]; rw [hd] at hz; omega)
        (fun k rq hk1 hk2 => hhigh k rq (by rw [hs] at hk1; omega)
          (by rw [hs, hd] at hk2; rw [hd] at hz; omega))
      rw [h1]
      refine ⟨_, rfl, ?_, h3, ?_⟩
      · show r.2.2 + 1 = _
        rw [h2, hd]; rw [hd] at hz; omega
      · show r.1.adc_samples = _
        rw [h4, hs, hd]; rw [hd] at hz; omega

/-- The voltage-increasing loop only adds DAC calls, the first one with the code one
below the entry code (modulo `2^16`). -/
theorem increasing_loop_calls (c : VbiasCfg) (adc : Adc) (val_mv : Nat) :
    ∀ (fuel : Nat) (s : VbiasState) (l : Locals) (r : VbiasState × Locals × Nat),
      increasing_loop c adc val_mv fuel s l = some r →
      ∃ pre, r.1.dac_calls
        = pre ++ DacCall.update_vbias_dac ((s.cur_vbias_dac_val + 2 ^ 16 - 1) % 2 ^ 16)
            :: s.dac_calls := by
  intro fuel
  induction fuel with
  | zero => intro s l r h; exact absurd h (by simp [increasing_loop])
  | succ fuel ih =>
    intro s l r h
    rw [increasing_loop_succ] at h
    have hb : (increasing_body c adc val_mv s l).1.dac_calls
        = DacCall.update_vbias_dac ((s.cur_vbias_dac_val + 2 ^ 16 - 1) % 2 ^ 16)
            :: s.dac_calls := by
      rw [increasing_body_state]
    split_ifs at h with hc
    · cases hr : increasing_loop c adc val_mv fuel (increasing_body c adc val_mv s l).1
          (increasing_body c adc val_mv s l).2 with
      | none => rw [hr] at h; exact absurd h (by simp)
      | some r1 =>
        rw [hr] at h
        obtain ⟨pre, hp⟩ := ih _ _ r1 hr
        have hr1 : r = (r1.1, r1.2.1, r1.2.2 + 1) := (Option.some.inj h).symm
        refine ⟨pre ++ [DacCall.update_vbias_dac
          (((increasing_body c adc val_mv s l).1.cur_vbias_dac_val + 2 ^ 16 - 1) % 2 ^ 16)], ?_⟩
        rw [hr1]
        show r1.1.dac_calls = _
        rw [hp, hb]
        simp
    · have hr1 : r = ((increasing_body c adc val_mv s l).1,
          (increasing_body c adc val_mv s l).2, 1) := (Option.some.inj h).symm
      refine ⟨[], ?_⟩
      rw [hr1]
      exact hb

/-- The voltage-decreasing loop only adds DAC calls, the first one with the code one
above the entry code (modulo `2^16`). -/
theorem decreasing_loop_calls (c : VbiasCfg) (adc : Adc) (val_mv : Nat) :
    ∀ (fuel : Nat) (s : VbiasState) (l : Locals) (r : VbiasState × Locals × Nat),
      decreasing_loop c adc val_mv fuel s l = some r →
      ∃ pre, r.1.dac_calls
        = pre ++ DacCall.update_vbias_dac ((s.cur_vbias_dac_val + 1) % 2 ^ 16)
            :: s.dac_calls := by
  intro fuel
  induction fuel with
  | zero => intro s l r h; exact absurd h (by simp [decreasing_loop])
  | succ fuel ih =>
    intro s l r h
    rw [decreasing_loop_succ] at h
    have hb : (decreasing_body c adc val_mv s l).1.dac_calls
        = DacCall.update_vbias_dac ((s.cur_vbias_dac_val + 1) % 2 ^ 16) :: s.dac_calls := by
      rw [decreasing_body_state]
    split_ifs at h with hc
    · cases hr : decreasing_loop c adc val_mv fuel (decreasing_body c adc val_mv s l).1
          (decreasing_body c adc val_mv s l).2 with
      | none => rw [hr] at h; exact absurd h (by simp)
      | some r1 =>
        rw [hr] at h
        obtain ⟨pre, hp⟩ := ih _ _ r1 hr
        have hr1 : r = (r1.1, r1.2.1, r1.2.2 + 1) := (Option.some.inj h).symm
        refine ⟨pre ++ [DacCall.update_vbias_dac
          (((decreasing_body c adc val_mv s l).1.cur_vbias_dac_val + 1) % 2 ^ 16)], ?_⟩
        rw [hr1]
        show r1.1.dac_calls = _
        rw [hp, hb]
        simp
    · have hr1 : r = ((decreasing_body c adc val_mv s l).1,
          (decreasing_body c adc val_mv s l).2, 1) := (Option.some.inj h).symm
      refine ⟨[], ?_⟩
      rw [hr1]
      exact hb

/-- Inside the range the voltage-decreasing loop meets the bound: entered with a DAC
code below `DAC_MAX_VAL` it exits after at most `DAC_MAX_VAL - code` passes. -/
theorem decreasing_loop_bound_in_range (c : VbiasCfg) (adc : Adc) (val_mv : Nat)
    (s : VbiasState) (l : Locals) (hmax : c.DAC_MAX_VAL < 2 ^ 16)
    (hdac : s.cur_vbias_dac_val < c.DAC_MAX_VAL) :
    ∃ r, decreasing_loop c adc val_mv (2 ^ 16) s l = some r ∧ 1 ≤ r.2.2 ∧
      r.2.2 ≤ c.DAC_MAX_VAL - s.cur_vbias_dac_val := by
  obtain ⟨r, h1, h2, h3⟩ := decreasing_loop_bound c adc val_mv hmax (2 ^ 16) s l (by omega)
  exact ⟨r, h1, h2, by omega⟩

/-- Inside the range the voltage-increasing loop meets the bound: entered with a DAC
code above 0 it exits after at most `code` passes. -/
theorem increasing_loop_bound_in_range (c : VbiasCfg) (adc : Adc) (val_mv : Nat)
    (s : VbiasState) (l : Locals) (hpos : 0 < s.cur_vbias_dac_val)
    (hdac : s.cur_vbias_dac_val < 2 ^ 16) :
    ∃ r, increasing_loop c adc val_mv (2 ^ 16) s l = some r ∧ 1 ≤ r.2.2 ∧
      r.2.2 ≤ s.cur_vbias_dac_val := by
  obtain ⟨r, h1, h2, h3⟩ := increasing_loop_bound c adc val_mv (2 ^ 16) s l (by omega)
  exact ⟨r, h1, h2, by omega⟩

/-- C4, the code at the failing input: entered with `cur_vbias_dac_val = DAC_MAX_VAL`
(a code in range, `DAC_MAX_VAL < 65535`) while every ADC reading converts to more
than the target, the voltage-decreasing loop hands `DAC_MAX_VAL + 1` to
`update_vbias_dac` on its first pass and makes `2^16` passes, more than
`DAC_MAX_VAL + 1`, before it exits with the code back at `DAC_MAX_VAL`. -/
theorem C4_decreasing_loop_overrun (c : VbiasCfg) (adc : Adc) (val_mv : Nat)
    (s : VbiasState) (l : Locals) (hmax : c.DAC_MAX_VAL + 1 < 2 ^ 16)
    (hdac : s.cur_vbias_dac_val = c.DAC_MAX_VAL)
    (hhigh : ∀ k req, compute_vbias_for_adc_value (adc k req % 2 ^ 16) > val_mv) :
    ∃ r, decreasing_loop c adc val_mv (2 ^ 16) s l = some r ∧ r.2.2 = 2 ^ 16 ∧
      c.DAC_MAX_VAL + 1 < r.2.2 ∧ r.1.cur_vbias_dac_val = c.DAC_MAX_VAL ∧
      DacCall.update_vbias_dac (c.DAC_MAX_VAL + 1) ∈ r.1.dac_calls := by
  obtain ⟨r, h1, h2, h3, -⟩ := decreasing_loop_high c adc val_mv (by omega) (2 ^ 16) s l
    (by omega) (fun k req _ _ => hhigh k req)
  obtain ⟨pre, hp⟩ := decreasing_loop_calls c adc val_mv (2 ^ 16) s l r h1
  have hcnt : r.2.2 = 2 ^ 16 := by rw [h2, hdac]; omega
  have hcode : (s.cur_vbias_dac_val + 1) % 2 ^ 16 = c.DAC_MAX_VAL + 1 := by
    rw [hdac]; omega
  refine ⟨r, h1, hcnt, by rw [hcnt]; exact hmax, h3, ?_⟩
  rw [hp, hcode]
  exact List.mem_append_right _ (List.mem_cons_self _ _)

/-- Witness for `C4_decreasing_loop_overrun`: `DAC_MAX_VAL = 4095`, the ADC stuck at
full scale (16740 mV), target 3000 mV. -/
theorem C4_decreasing_loop_overrun_witness :
    (sampleVbiasCfg.DAC_MAX_VAL + 1 < 2 ^ 16 ∧
      ({ VbiasState.zero with cur_vbias_dac_val := 4095 } : VbiasState).cur_vbias_dac_val
        = sampleVbiasCfg.DAC_MAX_VAL ∧
      compute_vbias_for_adc_value (adc_const 4095 0 (AdcReq.averaged 0) % 2 ^ 16) > 3000) ∧
    ∃ r, decreasing_loop sampleVbiasCfg (adc_const 4095) 3000 (2 ^ 16)
        { VbiasState.zero with cur_vbias_dac_val := 4095 } ⟨5000, 40, 3, 0⟩ = some r ∧
      r.2.2 = 2 ^ 16 ∧ sampleVbiasCfg.DAC_MAX_VAL + 1 < r.2.2 ∧
      r.1.cur_vbias_dac_val = sampleVbiasCfg.DAC_MAX_VAL ∧
      DacCall.update_vbias_dac (sampleVbiasCfg.DAC_MAX_VAL + 1) ∈ r.1.dac_calls :=
  ⟨by decide,
   C4_decreasing_loop_overrun sampleVbiasCfg (adc_const 4095) 3000
     { VbiasState.zero with cur_vbias_dac_val := 4095 } ⟨5000, 40, 3, 0⟩
     (by decide) rfl
     (fun _ _ => by show compute_vbias_for_adc_value (4095 % 2 ^ 16) > 3000; decide)⟩

/-- C5, the code at the failing input: entered with `cur_vbias_dac_val = 0` (a code
in range, `DAC_MAX_VAL < 65535`) while every ADC reading converts to less than the
target minus the overshoot allowance, the voltage-increasing loop hands 65535 to
`update_vbias_dac` on its first pass and makes `2^16` passes, more than
`DAC_MAX_VAL + 1`, before it exits with the code back at 0. -/
theorem C5_increasing_loop_overrun (c : VbiasCfg) (adc : Adc) (val_mv : Nat)
    (s : VbiasState) (l : Locals) (hmax : c.DAC_MAX_VAL + 1 < 2 ^ 16)
    (hdac : s.cur_vbias_dac_val = 0)
    (hlow : ∀ k req, compute_vbias_for_adc_value (adc k req % 2 ^ 16)
      < sub16 val_mv c.VBIAS_OVERSHOOT_MV) :
    ∃ r, increasing_loop c adc val_mv (2 ^ 16) s l = some r ∧ r.2.2 = 2 ^ 16 ∧
      c.DAC_MAX_VAL + 1 < r.2.2 ∧ r.1.cur_vbias_dac_val = 0 ∧
      DacCall.update_vbias_dac 65535 ∈ r.1.dac_calls ∧ c.DAC_MAX_VAL < 65535 := by
  obtain ⟨r, h1, h2, h3, -⟩ := increasing_loop_low c adc val_mv (2 ^ 16) s l
    (by omega) (fun k req _ _ => hlow k req)
  obtain ⟨pre, hp⟩ := increasing_loop_calls c adc val_mv (2 ^ 16) s l r h1
  have hcnt : r.2.2 = 2 ^ 16 := by rw [h2, hdac]; omega
  have hcode : (s.cur_vbias_dac_val + 2 ^ 16 - 1) % 2 ^ 16 = 65535 := by
    rw [hdac]; omega
  refine ⟨r, h1, hcnt, by rw [hcnt]; exact hmax, h3, ?_, by omega⟩
  rw [hp, hcode]
  exact List.mem_append_right _ (List.mem_cons_self _ _)

/-- Witness for `C5_increasing_loop_overrun`: `DAC_MAX_VAL = 4095`, the ADC stuck at
0, target 5000 mV. -/
theorem C5_increasing_loop_overrun_witness :
    (sampleVbiasCfg.DAC_MAX_VAL + 1 < 2 ^ 16 ∧ VbiasState.zero.cur_vbias_dac_val = 0 ∧
      compute_vbias_for_adc_value (adc_const 0 0 (AdcReq.averaged 0) % 2 ^ 16)
        < sub16 5000 sampleVbiasCfg.VBIAS_OVERSHOOT_MV) ∧
    ∃ r, increasing_loop sampleVbiasCfg (adc_const 0) 5000 (2 ^ 16)
        VbiasState.zero ⟨0, 40, 3, 0⟩ = some r ∧
      r.2.2 = 2 ^ 16 ∧ sampleVbiasCfg.DAC_MAX_VAL + 1 < r.2.2 ∧
      r.1.cur_vbias_dac_val = 0 ∧
      DacCall.update_vbias_dac 65535 ∈ r.1.dac_calls ∧
      sampleVbiasCfg.DAC_MAX_VAL < 65535 :=
  ⟨by decide,
   C5_increasing_loop_overrun sampleVbiasCfg (adc_const 0) 5000
     VbiasState.zero ⟨0, 40, 3, 0⟩ (by decide) rfl
     (fun _ _ => by
       show compute_vbias_for_adc_value (0 % 2 ^ 16)
         < sub16 5000 sampleVbiasCfg.VBIAS_OVERSHOOT_MV
       decide)⟩

/-- A request above the recorded target (and at or above the minimum) runs the
voltage-increasing loop from the same DAC code. -/
theorem update_bias_voltage_up (c : VbiasCfg) (adc : Adc) (v : Nat) (s : VbiasState)
    (hv : v < 2 ^ 16) (hmin : c.VBIAS_MIN_V ≤ v) (hlt : s.cur_set_vbias_voltage < v) :
    ∃ s3 l, s3.cur_vbias_dac_val = s.cur_vbias_dac_val ∧ s3.adc_samples = s.adc_samples ∧
      update_bias_voltage c adc v s
        = (increasing_loop c adc v (2 ^ 16) s3 l).map fun x =>
            ({ x.1 with
                cur_set_vbias_voltage := v
                last_measured_vbias := x.2.1.measured_vbias },
              x.2.1.measured_vbias) := by
  have hmod : v % 2 ^ 16 = v := Nat.mod_eq_of_lt hv
  have h1 : ¬ v < c.VBIAS_MIN_V := by omega
  have h2 : ¬ s.cur_set_vbias_voltage = v := by omega
  have h3 : ¬ s.cur_set_vbias_voltage > v := by omega
  unfold update_bias_voltage
  simp only [hmod, if_neg h1, if_neg h2, if_neg h3]
  split_ifs
  · refine ⟨_, _, ?_, ?_, rfl⟩ <;> rfl
  · refine ⟨_, _, ?_, ?_, rfl⟩ <;> rfl

/-- C3, the code at the failing input: `enable_bias_voltage(v1)` while the ADC reads 0
ends with the DAC saturated at code 0 (in range); the next
`update_bias_voltage(v2)` with a higher target steps the code down once more: it
hands 65535 to `update_vbias_dac` and, the ADC now reading full scale, returns with
`cur_vbias_dac_val = 65535`, above `DAC_MAX_VAL`. -/
theorem C3_dac_code_leaves_range (c : VbiasCfg) (s : VbiasState) (v1 v2 : Nat)
    (hov : c.VBIAS_OVERSHOOT_MV < c.VBIAS_MIN_V)
    (hmind : 1 ≤ c.VBIAS_MIN_DAC_VAL) (hmindmax : c.VBIAS_MIN_DAC_VAL ≤ c.DAC_MAX_VAL)
    (hmax : c.DAC_MAX_VAL + 1 < 2 ^ 16)
    (hv1 : c.VBIAS_MIN_V ≤ v1) (hv12 : v1 < v2) (hv2 : v2 ≤ 16740) :
    ∃ s1 r1 s2 r2,
      enable_bias_voltage c (adc_low_then_high (s.adc_samples + c.VBIAS_MIN_DAC_VAL)) v1 s
        = some (s1, r1) ∧
      s1.cur_vbias_dac_val = 0 ∧
      update_bias_voltage c (adc_low_then_high (s.adc_samples + c.VBIAS_MIN_DAC_VAL)) v2 s1
        = some (s2, r2) ∧
      s2.cur_vbias_dac_val = 65535 ∧ c.DAC_MAX_VAL < s2.cur_vbias_dac_val ∧
      DacCall.update_vbias_dac 65535 ∈ s2.dac_calls := by
  -- the first call: the search runs down to code 0
  obtain ⟨s3, l, e1, e2, e3⟩ := update_bias_voltage_up c
    (adc_low_then_high (s.adc_samples + c.VBIAS_MIN_DAC_VAL)) v1
    { s with
      last_measured_vbias := c.VBIAS_MIN_V % 2 ^ 16
      cur_set_vbias_voltage := (c.VBIAS_MIN_V + 2 ^ 16 - 1) % 2 ^ 16
      cur_vbias_dac_val := c.VBIAS_MIN_DAC_VAL % 2 ^ 16
      adc_channel := c.ADC_CHANNEL_VBIAS
      dac_calls := DacCall.setup_vbias_dac (c.VBIAS_MIN_DAC_VAL % 2 ^ 16) :: s.dac_calls
      ldo_enabled := true }
    (by omega) hv1 (by show (c.VBIAS_MIN_V + 2 ^ 16 - 1) % 2 ^ 16 < v1; omega)
  have e1a : s3.cur_vbias_dac_val = c.VBIAS_MIN_DAC_VAL := by
    rw [e1]; show c.VBIAS_MIN_DAC_VAL % 2 ^ 16 = _; omega
  have e2a : s3.adc_samples = s.adc_samples := e2
  have hsub1 : sub16 v1 c.VBIAS_OVERSHOOT_MV = v1 - c.VBIAS_OVERSHOOT_MV := by
    unfold sub16; omega
  obtain ⟨r, g1, -, g3, g4⟩ := increasing_loop_low c
    (adc_low_then_high (s.adc_samples + c.VBIAS_MIN_DAC_VAL)) v1 (2 ^ 16) s3 l
    (by rw [e1a]; omega)
    (fun k req hk1 hk2 => by
      have hk : k < s.adc_samples + c.VBIAS_MIN_DAC_VAL := by
        rw [e1a, e2a] at hk2; omega
      have h0 : adc_low_then_high (s.adc_samples + c.VBIAS_MIN_DAC_VAL) k req = 0 := by
        unfold adc_low_then_high; rw [if_pos hk]
      rw [h0, hsub1]
      show 0 < _
      omega)
  have g4a : r.1.adc_samples = s.adc_samples + c.VBIAS_MIN_DAC_VAL := by
    rw [g4, e1a, e2a]; omega
  -- the second call: one more step down from code 0
  obtain ⟨t3, l2, f1, f2, f3⟩ := update_bias_voltage_up c
    (adc_low_then_high (s.adc_samples + c.VBIAS_MIN_DAC_VAL)) v2
    { r.1 with cur_set_vbias_voltage := v1, last_measured_vbias := r.2.1.measured_vbias }
    (by omega) (by omega) (by show v1 < v2; exact hv12)
  have f1a : t3.cur_vbias_dac_val = 0 := by rw [f1]; exact g3
  have f2a : t3.adc_samples = s.adc_samples + c.VBIAS_MIN_DAC_VAL := by rw [f2]; exact g4a
  obtain ⟨B, hB⟩ : ∃ B, B = increasing_body c
      (adc_low_then_high (s.adc_samples + c.VBIAS_MIN_DAC_VAL)) v2 t3 l2 := ⟨_, rfl⟩
  have hb : B.1 = { t3 with
      cur_vbias_dac_val := (t3.cur_vbias_dac_val + 2 ^ 16 - 1) % 2 ^ 16
      dac_calls :=
        DacCall.update_vbias_dac ((t3.cur_vbias_dac_val + 2 ^ 16 - 1) % 2 ^ 16)
          :: t3.dac_calls
      adc_samples := t3.adc_samples + 1 } := by
    rw [hB]; exact increasing_body_state _ _ _ _ _
  obtain ⟨req, hm⟩ := increasing_body_measured c
    (adc_low_then_high (s.adc_samples + c.VBIAS_MIN_DAC_VAL)) v2 t3 l2
  rw [← hB] at hm
  have h4095 : adc_low_then_high (s.adc_samples + c.VBIAS_MIN_DAC_VAL) t3.adc_samples req
      = 4095 := by
    unfold adc_low_then_high; rw [if_neg (by rw [f2a]; omega)]
  have hmeas : B.2.measured_vbias = 16740 := by
    rw [hm, h4095]; decide
  have hsub2 : sub16 v2 c.VBIAS_OVERSHOOT_MV = v2 - c.VBIAS_OVERSHOOT_MV := by
    unfold sub16; omega
  have hexit : ¬ (B.2.measured_vbias < sub16 v2 c.VBIAS_OVERSHOOT_MV ∧
      B.1.cur_vbias_dac_val ≠ 0) := by
    rw [hmeas, hsub2]; omega
  have hloop : increasing_loop c (adc_low_then_high (s.adc_samples + c.VBIAS_MIN_DAC_VAL))
      v2 (2 ^ 16) t3 l2 = some (B.1, B.2, 1) := by
    have h216 : (2 : Nat) ^ 16 = 65535 + 1 := by norm_num
    rw [h216, increasing_loop_succ, ← hB, if_neg hexit]
  have hcode : (t3.cur_vbias_dac_val + 2 ^ 16 - 1) % 2 ^ 16 = 65535 := by
    rw [f1a]; norm_num
  have hB1 : B.1.cur_vbias_dac_val = 65535 := by rw [hb]; exact hcode
  have hB2 : DacCall.update_vbias_dac 65535 ∈ B.1.dac_calls := by
    rw [hb]
    show DacCall.update_vbias_dac 65535
      ∈ DacCall.update_vbias_dac ((t3.cur_vbias_dac_val + 2 ^ 16 - 1) % 2 ^ 16) :: t3.dac_calls
    rw [hcode]
    exact List.mem_cons_self _ _
  refine ⟨{ r.1 with cur_set_vbias_voltage := v1, last_measured_vbias := r.2.1.measured_vbias },
    r.2.1.measured_vbias,
    { B.1 with cur_set_vbias_voltage := v2, last_measured_vbias := B.2.measured_vbias },
    B.2.measured_vbias, ?_, g3, ?_, hB1, ?_, hB2⟩
  · show update_bias_voltage _ _ _ _ = _
    rw [e3, g1]; rfl
  · rw [f3, hloop]; rfl
  · show c.DAC_MAX_VAL < B.1.cur_vbias_dac_val
    rw [hB1]; omega

/-- Witness for `C3_dac_code_leaves_range`: from the reset state, `Enable(4500)` with
a dead ADC, then `Update(5000)`. -/
theorem C3_dac_code_leaves_range_witness :
    (sampleVbiasCfg.VBIAS_OVERSHOOT_MV < sampleVbiasCfg.VBIAS_MIN_V ∧
      1 ≤ sampleVbiasCfg.VBIAS_MIN_DAC_VAL ∧
      sampleVbiasCfg.VBIAS_MIN_DAC_VAL ≤ sampleVbiasCfg.DAC_MAX_VAL ∧
      sampleVbiasCfg.DAC_MAX_VAL + 1 < 2 ^ 16 ∧ sampleVbiasCfg.VBIAS_MIN_V ≤ 4500) ∧
    ∃ s1 r1 s2 r2,
      enable_bias_voltage sampleVbiasCfg
          (adc_low_then_high (VbiasState.zero.adc_samples + sampleVbiasCfg.VBIAS_MIN_DAC_VAL))
          4500 VbiasState.zero = some (s1, r1) ∧
      s1.cur_vbias_dac_val = 0 ∧
      update_bias_voltage sampleVbiasCfg
          (adc_low_then_high (VbiasState.zero.adc_samples + sampleVbiasCfg.VBIAS_MIN_DAC_VAL))
          5000 s1 = some (s2, r2) ∧
      s2.cur_vbias_dac_val = 65535 ∧ sampleVbiasCfg.DAC_MAX_VAL < s2.cur_vbias_dac_val ∧
      DacCall.update_vbias_dac 65535 ∈ s2.dac_calls :=
  ⟨by decide,
   C3_dac_code_leaves_range sampleVbiasCfg VbiasState.zero 4500 5000
     (by decide) (by decide) (by decide) (by decide) (by decide) (by decide) (by decide)⟩

/-- For 16-bit values the clamp is the maximum of the request and `VBIAS_MIN_V`. -/
theorem clamped_target_eq_max (c : VbiasCfg) (v : Nat) (hv : v < 2 ^ 16)
    (hmin : c.VBIAS_MIN_V < 2 ^ 16) : clamped_target c v = max v c.VBIAS_MIN_V := by
  unfold clamped_target
  rw [Nat.mod_eq_of_lt hv, Nat.mod_eq_of_lt hmin]
  split_ifs with h
  · exact (max_eq_right (le_of_lt h)).symm
  · exact (max_eq_left (not_lt.mp h)).symm

/-- What the voltage-increasing loop leaves alone, and what it returns: the
conversion of the last sample it took. -/
theorem increasing_loop_frame (c : VbiasCfg) (adc : Adc) (val_mv : Nat) :
    ∀ (fuel : Nat) (s : VbiasState) (l : Locals) (r : VbiasState × Locals × Nat),
      increasing_loop c adc val_mv fuel s l = some r →
      r.1.last_measured_vbias = s.last_measured_vbias ∧
      r.1.cur_set_vbias_voltage = s.cur_set_vbias_voltage ∧
      r.1.ldo_enabled = s.ldo_enabled ∧ r.1.stepup_enabled = s.stepup_enabled ∧
      r.1.quenching_enabled = s.quenching_enabled ∧ r.1.adc_channel = s.adc_channel ∧
      s.adc_samples < r.1.adc_samples ∧
      ∃ req, r.2.1.measured_vbias
        = compute_vbias_for_adc_value (adc (r.1.adc_samples - 1) req % 2 ^ 16) := by
  intro fuel
  induction fuel with
  | zero => intro s l r h; exact absurd h (by simp [increasing_loop])
  | succ fuel ih =>
    intro s l r h
    rw [increasing_loop_succ] at h
    have hb := increasing_body_state c adc val_mv s l
    obtain ⟨req, hm⟩ := increasing_body_measured c adc val_mv s l
    split_ifs at h with hc
    · cases hr : increasing_loop c adc val_mv fuel (increasing_body c adc val_mv s l).1
          (increasing_body c adc val_mv s l).2 with
      | none => rw [hr] at h; exact absurd h (by simp)
      | some r1 =>
        rw [hr] at h
        obtain ⟨g1, g2, g3, g4, g5, g6, g7, g8⟩ := ih _ _ r1 hr
        have hr1 : r = (r1.1, r1.2.1, r1.2.2 + 1) := (Option.some.inj h).symm
        rw [hb] at g1 g2 g3 g4 g5 g6 g7
        rw [hr1]
        exact ⟨g1, g2, g3, g4, g5, g6, by
          have : s.adc_samples + 1 < r1.1.adc_samples := g7
          show s.adc_samples < r1.1.adc_samples
          omega, g8⟩
    · have hr1 : r = ((increasing_body c adc val_mv s l).1,
          (increasing_body c adc val_mv s l).2, 1) := (Option.some.inj h).symm
      rw [hr1]
      refine ⟨by rw [hb], by rw [hb], by rw [hb], by rw [hb], by rw [hb], by rw [hb],
        by rw [hb]; exact Nat.lt_succ_self _, req, ?_⟩
      show (increasing_body c adc val_mv s l).2.measured_vbias = _
      rw [hm, hb]
      rfl

/-- What the voltage-decreasing loop leaves alone, and what it returns: the
conversion of the last sample it took. -/
theorem decreasing_loop_frame (c : VbiasCfg) (adc : Adc) (val_mv : Nat) :
    ∀ (fuel : Nat) (s : VbiasState) (l : Locals) (r : VbiasState × Locals × Nat),
      decreasing_loop c adc val_mv fuel s l = some r →
      r.1.last_measured_vbias = s.last_measured_vbias ∧
      r.1.cur_set_vbias_voltage = s.cur_set_vbias_voltage ∧
      r.1.ldo_enabled = s.ldo_enabled ∧ r.1.stepup_enabled = s.stepup_enabled ∧
      r.1.quenching_enabled = s.quenching_enabled ∧ r.1.adc_channel = s.adc_channel ∧
      s.adc_samples < r.1.adc_samples ∧
      ∃ req, r.2.1.measured_vbias
        = compute_vbias_for_adc_value (adc (r.1.adc_samples - 1) req % 2 ^ 16) := by
  intro fuel
  induction fuel with
  | zero => intro s l r h; exact absurd h (by simp [decreasing_loop])
  | succ fuel ih =>
    intro s l r h
    rw [decreasing_loop_succ] at h
    have hb := decreasing_body_state c adc val_mv s l
    obtain ⟨req, hm⟩ := decreasing_body_measured c adc val_mv s l
    split_ifs at h with hc
    · cases hr : decreasing_loop c adc val_mv fuel (decreasing_body c adc val_mv s l).1
          (decreasing_body c adc val_mv s l).2 with
      | none => rw [hr] at h; exact absurd h (by simp)
      | some r1 =>
        rw [hr] at h
        obtain ⟨g1, g2, g3, g4, g5, g6, g7, g8⟩ := ih _ _ r1 hr
        have hr1 : r = (r1.1, r1.2.1, r1.2.2 + 1) := (Option.some.inj h).symm
        rw [hb] at g1 g2 g3 g4 g5 g6 g7
        rw [hr1]
        exact ⟨g1, g2, g3, g4, g5, g6, by
          have : s.adc_samples + 1 < r1.1.adc_samples := g7
          show s.adc_samples < r1.1.adc_samples
          omega, g8⟩
    · have hr1 : r = ((decreasing_body c adc val_mv s l).1,
          (decreasing_body c adc val_mv s l).2, 1) := (Option.some.inj h).symm
      rw [hr1]
      refine ⟨by rw [hb], by rw [hb], by rw [hb], by rw [hb], by rw [hb], by rw [hb],
        by rw [hb]; exact Nat.lt_succ_self _, req, ?_⟩
      show (decreasing_body c adc val_mv s l).2.measured_vbias = _
      rw [hm, hb]
      rfl

/-- A request whose clamped value is the recorded target takes the same-value path:
only the ADC channel is set (and the quench path released by the clamp). -/
theorem update_bias_voltage_same (c : VbiasCfg) (adc : Adc) (v : Nat) (s : VbiasState)
    (heq : s.cur_set_vbias_voltage = clamped_target c v) :
    update_bias_voltage c adc v s
      = some ({ s with
                adc_channel := c.ADC_CHANNEL_VBIAS
                quenching_enabled :=
                  if v % 2 ^ 16 < c.VBIAS_MIN_V then false else s.quenching_enabled },
              s.last_measured_vbias) := by
  unfold update_bias_voltage
  unfold clamped_target at heq
  by_cases hlow : v % 2 ^ 16 < c.VBIAS_MIN_V
  · rw [if_pos hlow] at heq
    simp only [if_pos hlow, if_pos heq]
  · rw [if_neg hlow] at heq
    simp only [if_neg hlow, if_pos heq]

/-- A request whose clamped value is below the recorded target runs the
voltage-decreasing loop, after the step-up path was switched off if the threshold
is crossed. -/
theorem update_bias_voltage_down (c : VbiasCfg) (adc : Adc) (v : Nat) (s : VbiasState)
    (hgt : s.cur_set_vbias_voltage > clamped_target c v) :
    ∃ s3 l, update_bias_voltage c adc v s
        = (decreasing_loop c adc (clamped_target c v) (2 ^ 16) s3 l).map (fun x =>
            ({ x.1 with
                cur_set_vbias_voltage := clamped_target c v
                last_measured_vbias := x.2.1.measured_vbias },
              x.2.1.measured_vbias)) ∧
      s3.cur_vbias_dac_val = s.cur_vbias_dac_val ∧ s3.adc_samples = s.adc_samples ∧
      s3.dac_calls = s.dac_calls ∧ s3.ldo_enabled = s.ldo_enabled ∧
      s3.adc_channel = c.ADC_CHANNEL_VBIAS ∧
      s3.quenching_enabled
        = (if v % 2 ^ 16 < c.VBIAS_MIN_V then false else s.quenching_enabled) ∧
      s3.stepup_enabled
        = (if s.cur_set_vbias_voltage ≥ c.STEPUP_ACTIV_V ∧
              clamped_target c v < c.STEPUP_ACTIV_V then false
            else s.stepup_enabled) := by
  unfold update_bias_voltage
  unfold clamped_target at hgt ⊢
  by_cases hlow : v % 2 ^ 16 < c.VBIAS_MIN_V
  · rw [if_pos hlow] at hgt
    have h2 : ¬ s.cur_set_vbias_voltage = c.VBIAS_MIN_V % 2 ^ 16 := by omega
    simp only [if_pos hlow, if_neg h2, if_pos hgt]
    split_ifs
    · refine ⟨_, _, rfl, ?_, ?_, ?_, ?_, ?_, ?_, ?_⟩ <;> rfl
    · refine ⟨_, _, rfl, ?_, ?_, ?_, ?_, ?_, ?_, ?_⟩ <;> rfl
  · rw [if_neg hlow] at hgt
    have h2 : ¬ s.cur_set_vbias_voltage = v % 2 ^ 16 := by omega
    simp only [if_neg hlow, if_neg h2, if_pos hgt]
    split_ifs
    · refine ⟨_, _, rfl, ?_, ?_, ?_, ?_, ?_, ?_, ?_⟩ <;> rfl
    · refine ⟨_, _, rfl, ?_, ?_, ?_, ?_, ?_, ?_, ?_⟩ <;> rfl

/-- A request whose clamped value is above the recorded target runs the
voltage-increasing loop, after the step-up path was switched on if the threshold is
crossed. -/
theorem update_bias_voltage_rise (c : VbiasCfg) (adc : Adc) (v : Nat) (s : VbiasState)
    (hlt : s.cur_set_vbias_voltage < clamped_target c v) :
    ∃ s3 l, update_bias_voltage c adc v s
        = (increasing_loop c adc (clamped_target c v) (2 ^ 16) s3 l).map (fun x =>
            ({ x.1 with
                cur_set_vbias_voltage := clamped_target c v
                last_measured_vbias := x.2.1.measured_vbias },
              x.2.1.measured_vbias)) ∧
      s3.cur_vbias_dac_val = s.cur_vbias_dac_val ∧ s3.adc_samples = s.adc_samples ∧
      s3.dac_calls = s.dac_calls ∧ s3.ldo_enabled = s.ldo_enabled ∧
      s3.adc_channel = c.ADC_CHANNEL_VBIAS ∧
      s3.quenching_enabled
        = (if v % 2 ^ 16 < c.VBIAS_MIN_V then false else s.quenching_enabled) ∧
      s3.stepup_enabled
        = (if s.cur_set_vbias_voltage < c.STEPUP_ACTIV_V ∧
              clamped_target c v ≥ c.STEPUP_ACTIV_V then true
            else s.stepup_enabled) := by
  unfold update_bias_voltage
  unfold clamped_target at hlt ⊢
  by_cases hlow : v % 2 ^ 16 < c.VBIAS_MIN_V
  · rw [if_pos hlow] at hlt
    have h2 : ¬ s.cur_set_vbias_voltage = c.VBIAS_MIN_V % 2 ^ 16 := by omega
    have h3 : ¬ s.cur_set_vbias_voltage > c.VBIAS_MIN_V % 2 ^ 16 := by omega
    simp only [if_pos hlow, if_neg h2, if_neg h3]
    split_ifs
    · refine ⟨_, _, rfl, ?_, ?_, ?_, ?_, ?_, ?_, ?_⟩ <;> rfl
    · refine ⟨_, _, rfl, ?_, ?_, ?_, ?_, ?_, ?_, ?_⟩ <;> rfl
  · rw [if_neg hlow] at hlt
    have h2 : ¬ s.cur_set_vbias_voltage = v % 2 ^ 16 := by omega
    have h3 : ¬ s.cur_set_vbias_voltage > v % 2 ^ 16 := by omega
    simp only [if_neg hlow, if_neg h2, if_neg h3]
    split_ifs
    · refine ⟨_, _, rfl, ?_, ?_, ?_, ?_, ?_, ?_, ?_⟩ <;> rfl
    · refine ⟨_, _, rfl, ?_, ?_, ?_, ?_, ?_, ?_, ?_⟩ <;> rfl

/-- What `update_bias_voltage` has done when it returns, and that it returns: the
recorded target is the clamped request, the recorded measurement is the returned
value, the ADC channel is the bias one, the LDO path is as before, the quench path
is released by a clamp, the step-up path is switched when the threshold is crossed.
After a search the returned value is the conversion of the last ADC sample; on the
same-value path it is the previous measurement and nothing was sampled or written. -/
theorem update_bias_voltage_post (c : VbiasCfg) (adc : Adc) (v : Nat) (s : VbiasState)
    (hmax : c.DAC_MAX_VAL < 2 ^ 16) :
    ∃ r, update_bias_voltage c adc v s = some r ∧
      r.1.cur_set_vbias_voltage = clamped_target c v ∧
      r.1.last_measured_vbias = r.2 ∧
      r.1.adc_channel = c.ADC_CHANNEL_VBIAS ∧
      r.1.ldo_enabled = s.ldo_enabled ∧
      r.1.quenching_enabled
        = (if v % 2 ^ 16 < c.VBIAS_MIN_V then false else s.quenching_enabled) ∧
      r.1.stepup_enabled
        = (if s.cur_set_vbias_voltage > clamped_target c v ∧
              s.cur_set_vbias_voltage ≥ c.STEPUP_ACTIV_V ∧
              clamped_target c v < c.STEPUP_ACTIV_V then false
            else if s.cur_set_vbias_voltage < clamped_target c v ∧
              s.cur_set_vbias_voltage < c.STEPUP_ACTIV_V ∧
              clamped_target c v ≥ c.STEPUP_ACTIV_V then true
            else s.stepup_enabled) ∧
      (s.cur_set_vbias_voltage ≠ clamped_target c v →
        s.adc_samples < r.1.adc_samples ∧
        ∃ req, r.2 = compute_vbias_for_adc_value (adc (r.1.adc_samples - 1) req % 2 ^ 16)) ∧
      (s.cur_set_vbias_voltage = clamped_target c v →
        r.2 = s.last_measured_vbias ∧ r.1.cur_vbias_dac_val = s.cur_vbias_dac_val ∧
        r.1.dac_calls = s.dac_calls ∧ r.1.adc_samples = s.adc_samples) := by
  rcases Nat.lt_trichotomy s.cur_set_vbias_voltage (clamped_target c v) with hlt | heq | hgt
  · obtain ⟨s3, l, e, f1, f2, f3, f4, f5, f6, f7⟩ := update_bias_voltage_rise c adc v s hlt
    obtain ⟨r, h1, -, -⟩ := increasing_loop_bound c adc (clamped_target c v) (2 ^ 16) s3 l
      (by omega)
    obtain ⟨g1, g2, g3, g4, g5, g6, g7, req, g8⟩ :=
      increasing_loop_frame c adc (clamped_target c v) (2 ^ 16) s3 l r h1
    refine ⟨({ r.1 with
        cur_set_vbias_voltage := clamped_target c v
        last_measured_vbias := r.2.1.measured_vbias }, r.2.1.measured_vbias),
      by rw [e, h1]; rfl, rfl, rfl, by show r.1.adc_channel = _; rw [g6, f5],
      by show r.1.ldo_enabled = _; rw [g3, f4],
      by show r.1.quenching_enabled = _; rw [g5, f6], ?_, fun _ => ⟨?_, req, g8⟩,
      fun h => absurd h (by omega)⟩
    · show r.1.stepup_enabled = _
      rw [g4, f7]
      split_ifs <;> first | rfl | omega
    · show s.adc_samples < r.1.adc_samples
      omega
  · rw [update_bias_voltage_same c adc v s heq]
    refine ⟨_, rfl, heq, rfl, rfl, rfl, rfl, ?_, fun h => absurd heq h,
      fun _ => ⟨rfl, rfl, rfl, rfl⟩⟩
    show s.stepup_enabled = _
    split_ifs <;> first | rfl | omega
  · obtain ⟨s3, l, e, f1, f2, f3, f4, f5, f6, f7⟩ := update_bias_voltage_down c adc v s hgt
    obtain ⟨r, h1, -, -⟩ := decreasing_loop_bound c adc (clamped_target c v) hmax (2 ^ 16) s3 l
      (by omega)
    obtain ⟨g1, g2, g3, g4, g5, g6, g7, req, g8⟩ :=
      decreasing_loop_frame c adc (clamped_target c v) (2 ^ 16) s3 l r h1
    refine ⟨({ r.1 with
        cur_set_vbias_voltage := clamped_target c v
        last_measured_vbias := r.2.1.measured_vbias }, r.2.1.measured_vbias),
      by rw [e, h1]; rfl, rfl, rfl, by show r.1.adc_channel = _; rw [g6, f5],
      by show r.1.ldo_enabled = _; rw [g3, f4],
      by show r.1.quenching_enabled = _; rw [g5, f6], ?_, fun _ => ⟨?_, req, g8⟩,
      fun h => absurd h (by omega)⟩
    · show r.1.stepup_enabled = _
      rw [g4, f7]
      split_ifs <;> first | rfl | omega
    · show s.adc_samples < r.1.adc_samples
      omega

/-- Writing back the channel and quench flag a state already has changes nothing. -/
theorem VbiasState_restore (t : VbiasState) (ch : Nat) (q : Bool)
    (h1 : t.adc_channel = ch) (h2 : t.quenching_enabled = q) :
    { t with adc_channel := ch, quenching_enabled := q } = t := by
  cases t
  simp only at h1 h2
  subst h1 h2
  rfl

/-- C12: for every state and every 16-bit target whose clamped value
`max(target, VBIAS_MIN_V)` equals `cur_set_vbias_voltage`, `update_bias_voltage`
returns `last_measured_vbias`, leaves `cur_set_vbias_voltage`, `last_measured_vbias`
and `cur_vbias_dac_val` unchanged, takes no ADC sample and makes no DAC call.
Consequently, for every target `v`, a second `update_bias_voltage(v)` right after
the first returns the same value and leaves the whole state as the first call left
it. -/
theorem C12_servo_idempotence (c : VbiasCfg) (adc : Adc) (v : Nat) (s : VbiasState)
    (hv : v < 2 ^ 16) (hmin : c.VBIAS_MIN_V < 2 ^ 16) (hmax : c.DAC_MAX_VAL < 2 ^ 16) :
    (max v c.VBIAS_MIN_V = s.cur_set_vbias_voltage →
      ∃ s1, update_bias_voltage c adc v s = some (s1, s.last_measured_vbias) ∧
        s1.cur_set_vbias_voltage = s.cur_set_vbias_voltage ∧
        s1.last_measured_vbias = s.last_measured_vbias ∧
        s1.cur_vbias_dac_val = s.cur_vbias_dac_val ∧
        s1.adc_samples = s.adc_samples ∧ s1.dac_calls = s.dac_calls) ∧
    (∃ r, update_bias_voltage c adc v s = some r ∧
      update_bias_voltage c adc v r.1 = some (r.1, r.2)) := by
  constructor
  · intro h
    have heq : s.cur_set_vbias_voltage = clamped_target c v := by
      rw [clamped_target_eq_max c v hv hmin, h]
    exact ⟨_, update_bias_voltage_same c adc v s heq, rfl, rfl, rfl, rfl, rfl⟩
  · obtain ⟨r, h1, h2, h3, h4, -, h6, -, -, -⟩ := update_bias_voltage_post c adc v s hmax
    refine ⟨r, h1, ?_⟩
    have hq : r.1.quenching_enabled
        = (if v % 2 ^ 16 < c.VBIAS_MIN_V then false else r.1.quenching_enabled) := by
      split_ifs with hlow
      · rw [h6, if_pos hlow]
      · rfl
    rw [update_bias_voltage_same c adc v r.1 h2, VbiasState_restore r.1 _ _ h4 hq, h3]

/-- Witness for `C12_servo_idempotence`: the servo at 5000 mV asked for 5000 mV
again. -/
theorem C12_servo_idempotence_witness :
    ((5000 : Nat) < 2 ^ 16 ∧ sampleVbiasCfg.VBIAS_MIN_V < 2 ^ 16 ∧
      sampleVbiasCfg.DAC_MAX_VAL < 2 ^ 16 ∧
      max 5000 sampleVbiasCfg.VBIAS_MIN_V = servo_at_5000.cur_set_vbias_voltage) ∧
    ∃ s1, update_bias_voltage sampleVbiasCfg (adc_const 0) 5000 servo_at_5000
        = some (s1, servo_at_5000.last_measured_vbias) ∧
      s1.cur_set_vbias_voltage = servo_at_5000.cur_set_vbias_voltage ∧
      s1.last_measured_vbias = servo_at_5000.last_measured_vbias ∧
      s1.cur_vbias_dac_val = servo_at_5000.cur_vbias_dac_val ∧
      s1.adc_samples = servo_at_5000.adc_samples ∧
      s1.dac_calls = servo_at_5000.dac_calls :=
  ⟨by decide,
   (C12_servo_idempotence sampleVbiasCfg (adc_const 0) 5000 servo_at_5000
      (by decide) (by decide) (by decide)).1 (by decide)⟩

/-- C13: from every pre-state in which the step-up path is enabled exactly when
`cur_set_vbias_voltage >= STEPUP_ACTIV_V`, for every target and every behaviour of
the ADC, `update_bias_voltage` returns with the step-up path enabled exactly when
the recorded target is `>= STEPUP_ACTIV_V`, also when the target crosses the
threshold in either direction; the LDO path is left as it was. -/
theorem C13_source_arbitration (c : VbiasCfg) (adc : Adc) (v : Nat) (s : VbiasState)
    (hmax : c.DAC_MAX_VAL < 2 ^ 16)
    (hpre : s.stepup_enabled = true ↔ s.cur_set_vbias_voltage ≥ c.STEPUP_ACTIV_V) :
    ∃ r, update_bias_voltage c adc v s = some r ∧
      r.1.cur_set_vbias_voltage = clamped_target c v ∧
      (r.1.stepup_enabled = true ↔ r.1.cur_set_vbias_voltage ≥ c.STEPUP_ACTIV_V) ∧
      r.1.ldo_enabled = s.ldo_enabled := by
  obtain ⟨r, h1, h2, -, -, h5, -, h7, -, -⟩ := update_bias_voltage_post c adc v s hmax
  refine ⟨r, h1, h2, ?_, h5⟩
  rw [h7, h2]
  split_ifs with ha hb
  · constructor
    · intro h; simp at h
    · intro h; omega
  · constructor
    · intro _; exact hb.2.2
    · intro _; simp
  · constructor
    · intro h
      have := hpre.mp h
      by_contra hc
      rcases Nat.lt_trichotomy s.cur_set_vbias_voltage (clamped_target c v) with h3 | h3 | h3
      · omega
      · omega
      · exact ha ⟨h3, this, by omega⟩
    · intro h
      apply hpre.mpr
      by_contra hc
      rcases Nat.lt_trichotomy s.cur_set_vbias_voltage (clamped_target c v) with h3 | h3 | h3
      · exact hb ⟨h3, by omega, h⟩
      · omega
      · omega

/-- Witness for `C13_source_arbitration`: the servo at 5000 mV (step-up on, threshold
4500 mV) asked for 3000 mV. -/
theorem C13_source_arbitration_witness :
    (sampleVbiasCfg.DAC_MAX_VAL < 2 ^ 16 ∧
      (servo_at_5000.stepup_enabled = true
        ↔ servo_at_5000.cur_set_vbias_voltage ≥ sampleVbiasCfg.STEPUP_ACTIV_V)) ∧
    ∃ r, update_bias_voltage sampleVbiasCfg (adc_const 0) 3000 servo_at_5000 = some r ∧
      r.1.cur_set_vbias_voltage = clamped_target sampleVbiasCfg 3000 ∧
      (r.1.stepup_enabled = true
        ↔ r.1.cur_set_vbias_voltage ≥ sampleVbiasCfg.STEPUP_ACTIV_V) ∧
      r.1.ldo_enabled = servo_at_5000.ldo_enabled :=
  ⟨by decide,
   C13_source_arbitration sampleVbiasCfg (adc_const 0) 3000 servo_at_5000
     (by decide) (by decide)⟩

/-- The clamped target is never below `VBIAS_MIN_V`. -/
theorem clamped_target_ge (c : VbiasCfg) (v : Nat) (hmin : c.VBIAS_MIN_V < 2 ^ 16) :
    c.VBIAS_MIN_V ≤ clamped_target c v := by
  unfold clamped_target
  split_ifs with h
  · rw [Nat.mod_eq_of_lt hmin]
  · exact not_lt.mp h

/-- `enable_bias_voltage` always searches upward from `VBIAS_MIN_V - 1`: it returns,
with the LDO path on, and it touches the step-up path only to switch it on. -/
theorem enable_bias_voltage_post (c : VbiasCfg) (adc : Adc) (v : Nat) (s : VbiasState)
    (hmin1 : 1 ≤ c.VBIAS_MIN_V) (hmin : c.VBIAS_MIN_V < 2 ^ 16) :
    ∃ r, enable_bias_voltage c adc v s = some r ∧
      r.1.cur_set_vbias_voltage = clamped_target c v ∧
      r.1.last_measured_vbias = r.2 ∧
      r.1.ldo_enabled = true ∧
      r.1.stepup_enabled
        = (if c.VBIAS_MIN_V - 1 < c.STEPUP_ACTIV_V ∧
              clamped_target c v ≥ c.STEPUP_ACTIV_V then true
            else s.stepup_enabled) := by
  have hge := clamped_target_ge c v hmin
  have hcur : (c.VBIAS_MIN_V + 2 ^ 16 - 1) % 2 ^ 16 = c.VBIAS_MIN_V - 1 := by omega
  obtain ⟨s3, l, e, f1, f2, f3, f4, f5, f6, f7⟩ := update_bias_voltage_rise c adc v
    { s with
      last_measured_vbias := c.VBIAS_MIN_V % 2 ^ 16
      cur_set_vbias_voltage := (c.VBIAS_MIN_V + 2 ^ 16 - 1) % 2 ^ 16
      cur_vbias_dac_val := c.VBIAS_MIN_DAC_VAL % 2 ^ 16
      adc_channel := c.ADC_CHANNEL_VBIAS
      dac_calls := DacCall.setup_vbias_dac (c.VBIAS_MIN_DAC_VAL % 2 ^ 16) :: s.dac_calls
      ldo_enabled := true }
    (by show (c.VBIAS_MIN_V + 2 ^ 16 - 1) % 2 ^ 16 < clamped_target c v; omega)
  obtain ⟨r, h1, -, -⟩ := increasing_loop_bound c adc (clamped_target c v) (2 ^ 16) s3 l
    (by omega)
  obtain ⟨g1, g2, g3, g4, g5, g6, g7, req, g8⟩ :=
    increasing_loop_frame c adc (clamped_target c v) (2 ^ 16) s3 l r h1
  refine ⟨({ r.1 with
      cur_set_vbias_voltage := clamped_target c v
      last_measured_vbias := r.2.1.measured_vbias }, r.2.1.measured_vbias),
    by show update_bias_voltage _ _ _ _ = _; rw [e, h1]; rfl, rfl, rfl,
    by show r.1.ldo_enabled = _; rw [g3, f4], ?_⟩
  show r.1.stepup_enabled = _
  rw [g4, f7]
  show (if (c.VBIAS_MIN_V + 2 ^ 16 - 1) % 2 ^ 16 < c.STEPUP_ACTIV_V ∧
      clamped_target c v ≥ c.STEPUP_ACTIV_V then true else s.stepup_enabled) = _
  rw [hcur]

/-- C14, the code at the failing input: `enable_bias_voltage(v1)` with a target at or
above `STEPUP_ACTIV_V` switches the step-up path on; a following
`enable_bias_voltage(v2)` with a target below `STEPUP_ACTIV_V` (no disable in
between, as the `CMD_SET_VBIAS` handler does) returns with the recorded target
below the threshold and the LDO path on, but with the step-up path still enabled:
`enable_bias_voltage` restarts the search from `VBIAS_MIN_V - 1`, so
`update_bias_voltage` never takes its step-up deactivation branch. -/
theorem C14_stepup_left_enabled (c : VbiasCfg) (adc : Adc) (s : VbiasState) (v1 v2 : Nat)
    (hmin1 : 1 ≤ c.VBIAS_MIN_V) (hminact : c.VBIAS_MIN_V < c.STEPUP_ACTIV_V)
    (hact : c.STEPUP_ACTIV_V ≤ v1) (hv1 : v1 < 2 ^ 16) (hv2 : v2 < c.STEPUP_ACTIV_V) :
    ∃ r1 r2, enable_bias_voltage c adc v1 s = some r1 ∧ r1.1.stepup_enabled = true ∧
      enable_bias_voltage c adc v2 r1.1 = some r2 ∧
      r2.1.cur_set_vbias_voltage < c.STEPUP_ACTIV_V ∧
      r2.1.ldo_enabled = true ∧ r2.1.stepup_enabled = true := by
  have hmin : c.VBIAS_MIN_V < 2 ^ 16 := by omega
  have hc1 : clamped_target c v1 = v1 := by
    rw [clamped_target_eq_max c v1 hv1 hmin]; exact max_eq_left (by omega)
  have hc2 : clamped_target c v2 < c.STEPUP_ACTIV_V := by
    rw [clamped_target_eq_max c v2 (by omega) hmin]; exact max_lt hv2 hminact
  obtain ⟨r1, a1, -, -, -, a5⟩ := enable_bias_voltage_post c adc v1 s hmin1 hmin
  obtain ⟨r2, b1, b2, -, b4, b5⟩ := enable_bias_voltage_post c adc v2 r1.1 hmin1 hmin
  have hs1 : r1.1.stepup_enabled = true := by
    rw [a5, if_pos ⟨by omega, by rw [hc1]; exact hact⟩]
  refine ⟨r1, r2, a1, hs1, b1, by rw [b2]; exact hc2, b4, ?_⟩
  rw [b5, if_neg (fun h => by omega), hs1]

/-- Witness for `C14_stepup_left_enabled`: from the reset state, `Enable(5000)` then
`Enable(3000)` with the threshold at 4500 mV. -/
theorem C14_stepup_left_enabled_witness :
    (1 ≤ sampleVbiasCfg.VBIAS_MIN_V ∧
      sampleVbiasCfg.VBIAS_MIN_V < sampleVbiasCfg.STEPUP_ACTIV_V ∧
      sampleVbiasCfg.STEPUP_ACTIV_V ≤ 5000 ∧ 3000 < sampleVbiasCfg.STEPUP_ACTIV_V) ∧
    ∃ r1 r2, enable_bias_voltage sampleVbiasCfg (adc_const 4095) 5000 VbiasState.zero
        = some r1 ∧
      r1.1.stepup_enabled = true ∧
      enable_bias_voltage sampleVbiasCfg (adc_const 4095) 3000 r1.1 = some r2 ∧
      r2.1.cur_set_vbias_voltage < sampleVbiasCfg.STEPUP_ACTIV_V ∧
      r2.1.ldo_enabled = true ∧ r2.1.stepup_enabled = true :=
  ⟨by decide,
   C14_stepup_left_enabled sampleVbiasCfg (adc_const 4095) VbiasState.zero 5000 3000
     (by decide) (by decide) (by decide) (by decide) (by decide)⟩

/-- Once the reading is at or below 100 the wait loop is over. -/
theorem wait_loop_done (adc : Adc) (fuel m : Nat) (s : VbiasState) (h : m ≤ 100) :
    wait_loop adc fuel m s = some (s, m) := by
  cases fuel with
  | zero => simp only [wait_loop, if_neg (not_lt.mpr h)]
  | succ fuel => simp only [wait_loop, if_neg (not_lt.mpr h)]

/-- When some sample reads 100 or less, the wait loop returns as soon as it has fuel
to get there, with a final reading of at most 100; it only takes samples. -/
theorem wait_loop_reaches (adc : Adc) :
    ∀ (n fuel m : Nat) (s : VbiasState), n < fuel →
      adc (s.adc_samples + n) (AdcReq.stabilized 6 15 FALSE) % 2 ^ 16 ≤ 100 →
      ∃ r, wait_loop adc fuel m s = some r ∧ r.2 ≤ 100 ∧
        r.1 = { s with adc_samples := r.1.adc_samples } := by
  intro n
  induction n with
  | zero =>
    intro fuel m s hf hr
    obtain ⟨f, rfl⟩ : ∃ f, fuel = f + 1 := ⟨fuel - 1, by omega⟩
    by_cases hm : m > 100
    · simp only [wait_loop, if_pos hm, adc_read]
      rw [wait_loop_done adc f _ _ (by simpa using hr)]
      exact ⟨_, rfl, by simpa using hr, rfl⟩
    · rw [wait_loop_done adc _ m s (not_lt.mp hm)]
      exact ⟨_, rfl, not_lt.mp hm, rfl⟩
  | succ k ih =>
    intro fuel m s hf hr
    obtain ⟨f, rfl⟩ : ∃ f, fuel = f + 1 := ⟨fuel - 1, by omega⟩
    by_cases hm : m > 100
    · simp only [wait_loop, if_pos hm, adc_read]
      obtain ⟨r, h1, h2, h3⟩ := ih f
        (adc s.adc_samples (AdcReq.stabilized 6 15 FALSE) % 2 ^ 16)
        { s with adc_samples := s.adc_samples + 1 } (by omega)
        (by
          have e : s.adc_samples + 1 + k = s.adc_samples + (k + 1) := by omega
          show adc (s.adc_samples + 1 + k) _ % 2 ^ 16 ≤ 100
          rw [e]; exact hr)
      exact ⟨r, h1, h2, by rw [h3]⟩
    · rw [wait_loop_done adc _ m s (not_lt.mp hm)]
      exact ⟨_, rfl, not_lt.mp hm, rfl⟩

/-- Entered with a reading above 100, the wait loop samples until the first reading
of 100 or less and returns that sample: when the sample at offset `n` is low and
there is fuel to get there, it returns after at least one and at most `n + 1`
samples, its value is the last sample taken, and every sample before it read more
than 100; it only takes samples. -/
theorem wait_loop_first_low (adc : Adc) :
    ∀ (n fuel m : Nat) (s : VbiasState), n < fuel → m > 100 →
      adc (s.adc_samples + n) (AdcReq.stabilized 6 15 FALSE) % 2 ^ 16 ≤ 100 →
      ∃ r, wait_loop adc fuel m s = some r ∧ r.2 ≤ 100 ∧
        r.1 = { s with adc_samples := r.1.adc_samples } ∧
        s.adc_samples < r.1.adc_samples ∧ r.1.adc_samples ≤ s.adc_samples + n + 1 ∧
        r.2 = adc (r.1.adc_samples - 1) (AdcReq.stabilized 6 15 FALSE) % 2 ^ 16 ∧
        ∀ k, s.adc_samples ≤ k → k + 1 < r.1.adc_samples →
          adc k (AdcReq.stabilized 6 15 FALSE) % 2 ^ 16 > 100 := by
  intro n
  induction n with
  | zero =>
    intro fuel m s hf hm hr
    obtain ⟨f, rfl⟩ : ∃ f, fuel = f + 1 := ⟨fuel - 1, by omega⟩
    have hr0 : adc s.adc_samples (AdcReq.stabilized 6 15 FALSE) % 2 ^ 16 ≤ 100 := by
      simpa using hr
    simp only [wait_loop, if_pos hm, adc_read]
    rw [wait_loop_done adc f _ _ hr0]
    refine ⟨_, rfl, hr0, rfl, Nat.lt_succ_self _, by show s.adc_samples + 1 ≤ _; omega,
      rfl, fun k hk1 hk2 => ?_⟩
    have hk3 : k + 1 < s.adc_samples + 1 := hk2
    omega
  | succ j ih =>
    intro fuel m s hf hm hr
    obtain ⟨f, rfl⟩ : ∃ f, fuel = f + 1 := ⟨fuel - 1, by omega⟩
    simp only [wait_loop, if_pos hm, adc_read]
    by_cases h0 : adc s.adc_samples (AdcReq.stabilized 6 15 FALSE) % 2 ^ 16 ≤ 100
    · rw [wait_loop_done adc f _ _ h0]
      refine ⟨_, rfl, h0, rfl, Nat.lt_succ_self _, by show s.adc_samples + 1 ≤ _; omega,
        rfl, fun k hk1 hk2 => ?_⟩
      have hk3 : k + 1 < s.adc_samples + 1 := hk2
      omega
    · obtain ⟨r, h1, h2, h3, h4, h5, h6, h7⟩ := ih f
        (adc s.adc_samples (AdcReq.stabilized 6 15 FALSE) % 2 ^ 16)
        { s with adc_samples := s.adc_samples + 1 } (by omega) (not_le.mp h0)
        (by
          have e : s.adc_samples + 1 + j = s.adc_samples + (j + 1) := by omega
          show adc (s.adc_samples + 1 + j) _ % 2 ^ 16 ≤ 100
          rw [e]; exact hr)
      have h4a : s.adc_samples + 1 < r.1.adc_samples := h4
      have h5a : r.1.adc_samples ≤ s.adc_samples + 1 + j + 1 := h5
      refine ⟨r, h1, h2, by rw [h3], by omega, by omega, h6, fun k hk1 hk2 => ?_⟩
      by_cases hk : k = s.adc_samples
      · rw [hk]; exact not_le.mp h0
      · exact h7 k (by show s.adc_samples + 1 ≤ k; omega) hk2

/-- C15, the claim as stated fails: with the ADC reading exactly 100 during the
quench, `disable_bias_voltage` returns with the final measured value 100, which is
not strictly less than 100; both source paths and the quench path are off. -/
theorem C15_counterexample :
    (disable_bias_voltage sampleVbiasCfg (adc_const 100) 1 servo_at_5000).map
        (fun r => (r.2, decide (r.2 < 100), r.1.ldo_enabled, r.1.stepup_enabled,
          r.1.quenching_enabled))
      = some (100, false, false, false, false) := by
  decide

/-- C15, amended: for every behaviour of the ADC during the quench in which some
sample reads 100 or less, `disable_bias_voltage` returns (once the wait is allowed
enough samples to get there) with the final measured value, a raw ADC reading, at
most 100, the LDO and step-up paths both disabled and the quench path disengaged.
The final measured value is the last ADC sample the wait took: at least one sample
is taken, the wait stops at the first one that reads 100 or less, and every sample
before it read more than 100. -/
theorem C15_disable_scenario (c : VbiasCfg) (adc : Adc) (s : VbiasState) (n fuel : Nat)
    (hread : adc (s.adc_samples + n) (AdcReq.stabilized 6 15 FALSE) % 2 ^ 16 ≤ 100)
    (hfuel : n < fuel) :
    ∃ r, disable_bias_voltage c adc fuel s = some r ∧ r.2 ≤ 100 ∧
      r.1.ldo_enabled = false ∧ r.1.stepup_enabled = false ∧
      r.1.quenching_enabled = false ∧
      s.adc_samples < r.1.adc_samples ∧ r.1.adc_samples ≤ s.adc_samples + n + 1 ∧
      r.2 = adc (r.1.adc_samples - 1) (AdcReq.stabilized 6 15 FALSE) % 2 ^ 16 ∧
      ∀ k, s.adc_samples ≤ k → k + 1 < r.1.adc_samples →
        adc k (AdcReq.stabilized 6 15 FALSE) % 2 ^ 16 > 100 := by
  obtain ⟨r, h1, h2, h3, h4, h5, h6, h7⟩ := wait_loop_first_low adc n fuel 2000
    { s with
      ldo_enabled := false
      stepup_enabled := false
      dac_calls := DacCall.disable_vbias_dac :: s.dac_calls
      adc_channel := c.ADC_CHANNEL_VBIAS
      quenching_enabled := true } hfuel (by decide) hread
  refine ⟨({ r.1 with quenching_enabled := false }, r.2), ?_, h2, ?_, ?_, rfl, h4, h5, h6,
    h7⟩
  · unfold disable_bias_voltage wait_for_0v_bias
    show Option.map _ (wait_loop adc fuel 2000 _) = _
    rw [h1]
    rfl
  · show r.1.ldo_enabled = false
    rw [h3]
  · show r.1.stepup_enabled = false
    rw [h3]

/-- Witness for `C15_disable_scenario`: the servo at 5000 mV, the ADC reading 3000 on
two samples and 90 from the third on. -/
theorem C15_disable_scenario_witness :
    (adc_step 1002 3000 90 (servo_at_5000.adc_samples + 2) (AdcReq.stabilized 6 15 FALSE)
        % 2 ^ 16 ≤ 100 ∧ 2 < 10) ∧
    ∃ r, disable_bias_voltage sampleVbiasCfg (adc_step 1002 3000 90) 10 servo_at_5000
        = some r ∧
      r.2 ≤ 100 ∧ r.1.ldo_enabled = false ∧ r.1.stepup_enabled = false ∧
      r.1.quenching_enabled = false ∧
      servo_at_5000.adc_samples < r.1.adc_samples ∧
      r.1.adc_samples ≤ servo_at_5000.adc_samples + 2 + 1 ∧
      r.2 = adc_step 1002 3000 90 (r.1.adc_samples - 1) (AdcReq.stabilized 6 15 FALSE)
        % 2 ^ 16 ∧
      ∀ k, servo_at_5000.adc_samples ≤ k → k + 1 < r.1.adc_samples →
        adc_step 1002 3000 90 k (AdcReq.stabilized 6 15 FALSE) % 2 ^ 16 > 100 :=
  ⟨by decide,
   C15_disable_scenario sampleVbiasCfg (adc_step 1002 3000 90) servo_at_5000 2 10
     (by decide) (by decide)⟩

/-- The downward search of `update_bias_voltage`, with the state and locals the loop
is entered with. -/
theorem update_bias_voltage_down_eq (c : VbiasCfg) (adc : Adc) (v : Nat) (s : VbiasState)
    (hgt : s.cur_set_vbias_voltage > clamped_target c v) :
    update_bias_voltage c adc v s
      = (decreasing_loop c adc (clamped_target c v) (2 ^ 16)
          { s with
            adc_channel := c.ADC_CHANNEL_VBIAS
            quenching_enabled :=
              if v % 2 ^ 16 < c.VBIAS_MIN_V then false else s.quenching_enabled
            stepup_enabled :=
              if s.cur_set_vbias_voltage ≥ c.STEPUP_ACTIV_V ∧
                  clamped_target c v < c.STEPUP_ACTIV_V then false
              else s.stepup_enabled }
          ⟨s.last_measured_vbias, c.PEAKPEAK_APPROCH % 2 ^ 8, c.BIT_AVG_APPROACH % 2 ^ 8,
            FALSE⟩).map (fun x =>
            ({ x.1 with
                cur_set_vbias_voltage := clamped_target c v
                last_measured_vbias := x.2.1.measured_vbias },
              x.2.1.measured_vbias)) := by
  unfold update_bias_voltage
  unfold clamped_target at hgt ⊢
  by_cases hlow : v % 2 ^ 16 < c.VBIAS_MIN_V
  · rw [if_pos hlow] at hgt
    have h2 : ¬ s.cur_set_vbias_voltage = c.VBIAS_MIN_V % 2 ^ 16 := by omega
    simp only [if_pos hlow, if_neg h2, if_pos hgt]
    split_ifs <;> rfl
  · rw [if_neg hlow] at hgt
    have h2 : ¬ s.cur_set_vbias_voltage = v % 2 ^ 16 := by omega
    simp only [if_neg hlow, if_neg h2, if_pos hgt]
    split_ifs <;> rfl

/-- The upward search of `update_bias_voltage`, with the state and locals the loop is
entered with. -/
theorem update_bias_voltage_rise_eq (c : VbiasCfg) (adc : Adc) (v : Nat) (s : VbiasState)
    (hlt : s.cur_set_vbias_voltage < clamped_target c v) :
    update_bias_voltage c adc v s
      = (increasing_loop c adc (clamped_target c v) (2 ^ 16)
          { s with
            adc_channel := c.ADC_CHANNEL_VBIAS
            quenching_enabled :=
              if v % 2 ^ 16 < c.VBIAS_MIN_V then false else s.quenching_enabled
            stepup_enabled :=
              if s.cur_set_vbias_voltage < c.STEPUP_ACTIV_V ∧
                  clamped_target c v ≥ c.STEPUP_ACTIV_V then true
              else s.stepup_enabled }
          ⟨s.last_measured_vbias, c.PEAKPEAK_APPROCH % 2 ^ 8, c.BIT_AVG_APPROACH % 2 ^ 8,
            FALSE⟩).map (fun x =>
            ({ x.1 with
                cur_set_vbias_voltage := clamped_target c v
                last_measured_vbias := x.2.1.measured_vbias },
              x.2.1.measured_vbias)) := by
  unfold update_bias_voltage
  unfold clamped_target at hlt ⊢
  by_cases hlow : v % 2 ^ 16 < c.VBIAS_MIN_V
  · rw [if_pos hlow] at hlt
    have h2 : ¬ s.cur_set_vbias_voltage = c.VBIAS_MIN_V % 2 ^ 16 := by omega
    have h3 : ¬ s.cur_set_vbias_voltage > c.VBIAS_MIN_V % 2 ^ 16 := by omega
    simp only [if_pos hlow, if_neg h2, if_neg h3]
    split_ifs <;> rfl
  · rw [if_neg hlow] at hlt
    have h2 : ¬ s.cur_set_vbias_voltage = v % 2 ^ 16 := by omega
    have h3 : ¬ s.cur_set_vbias_voltage > v % 2 ^ 16 := by omega
    simp only [if_neg hlow, if_neg h2, if_neg h3]
    split_ifs <;> rfl

/-- The loop bodies do not look at the quench path. -/
theorem increasing_body_quench (c : VbiasCfg) (adc : Adc) (val_mv : Nat) (s : VbiasState)
    (l : Locals) :
    increasing_body c adc val_mv { s with quenching_enabled := false } l
      = ({ (increasing_body c adc val_mv s l).1 with quenching_enabled := false },
          (increasing_body c adc val_mv s l).2) := by
  simp only [increasing_body, adc_read]
  split_ifs <;> rfl

theorem decreasing_body_quench (c : VbiasCfg) (adc : Adc) (val_mv : Nat) (s : VbiasState)
    (l : Locals) :
    decreasing_body c adc val_mv { s with quenching_enabled := false } l
      = ({ (decreasing_body c adc val_mv s l).1 with quenching_enabled := false },
          (decreasing_body c adc val_mv s l).2) := by
  simp only [decreasing_body, adc_read]

/-- The search loops do not look at the quench path: entered with it released they
do what they do otherwise. -/
theorem increasing_loop_quench (c : VbiasCfg) (adc : Adc) (val_mv : Nat) :
    ∀ (fuel : Nat) (s : VbiasState) (l : Locals),
      increasing_loop c adc val_mv fuel { s with quenching_enabled := false } l
        = (increasing_loop c adc val_mv fuel s l).map
            (fun x => ({ x.1 with quenching_enabled := false }, x.2)) := by
  intro fuel
  induction fuel with
  | zero => intro s l; rfl
  | succ fuel ih =>
    intro s l
    rw [increasing_loop_succ, increasing_loop_succ, increasing_body_quench]
    by_cases hc : (increasing_body c adc val_mv s l).2.measured_vbias
          < sub16 val_mv c.VBIAS_OVERSHOOT_MV ∧
        (increasing_body c adc val_mv s l).1.cur_vbias_dac_val ≠ 0
    · rw [if_pos hc, if_pos (by exact hc)]
      show Option.map _ (increasing_loop c adc val_mv fuel
        { (increasing_body c adc val_mv s l).1 with quenching_enabled := false }
        (increasing_body c adc val_mv s l).2) = _
      rw [ih]
      cases increasing_loop c adc val_mv fuel (increasing_body c adc val_mv s l).1
          (increasing_body c adc val_mv s l).2 with
      | none => rfl
      | some x => rfl
    · rw [if_neg hc, if_neg (by exact hc)]
      rfl

theorem decreasing_loop_quench (c : VbiasCfg) (adc : Adc) (val_mv : Nat) :
    ∀ (fuel : Nat) (s : VbiasState) (l : Locals),
      decreasing_loop c adc val_mv fuel { s with quenching_enabled := false } l
        = (decreasing_loop c adc val_mv fuel s l).map
            (fun x => ({ x.1 with quenching_enabled := false }, x.2)) := by
  intro fuel
  induction fuel with
  | zero => intro s l; rfl
  | succ fuel ih =>
    intro s l
    rw [decreasing_loop_succ, decreasing_loop_succ, decreasing_body_quench]
    by_cases hc : (decreasing_body c adc val_mv s l).2.measured_vbias > val_mv ∧
        (decreasing_body c adc val_mv s l).1.cur_vbias_dac_val ≠ c.DAC_MAX_VAL
    · rw [if_pos hc, if_pos (by exact hc)]
      show Option.map _ (decreasing_loop c adc val_mv fuel
        { (decreasing_body c adc val_mv s l).1 with quenching_enabled := false }
        (decreasing_body c adc val_mv s l).2) = _
      rw [ih]
      cases decreasing_loop c adc val_mv fuel (decreasing_body c adc val_mv s l).1
          (decreasing_body c adc val_mv s l).2 with
      | none => rfl
      | some x => rfl
    · rw [if_neg hc, if_neg (by exact hc)]
      rfl

/-- A request below `VBIAS_MIN_V` does what a request for exactly `VBIAS_MIN_V` does,
and releases the quench path. -/
theorem update_bias_voltage_below_min (c : VbiasCfg) (adc : Adc) (v : Nat) (s : VbiasState)
    (hlow : v % 2 ^ 16 < c.VBIAS_MIN_V) (hmin : c.VBIAS_MIN_V < 2 ^ 16) :
    update_bias_voltage c adc v s
      = (update_bias_voltage c adc c.VBIAS_MIN_V s).map
          (fun x => ({ x.1 with quenching_enabled := false }, x.2)) := by
  have hcv : clamped_target c v = c.VBIAS_MIN_V := by
    unfold clamped_target; rw [if_pos hlow, Nat.mod_eq_of_lt hmin]
  have hnl : ¬ c.VBIAS_MIN_V % 2 ^ 16 < c.VBIAS_MIN_V := by
    rw [Nat.mod_eq_of_lt hmin]; exact lt_irrefl _
  have hcm : clamped_target c c.VBIAS_MIN_V = c.VBIAS_MIN_V := by
    unfold clamped_target; rw [if_neg hnl, Nat.mod_eq_of_lt hmin]
  rcases Nat.lt_trichotomy s.cur_set_vbias_voltage c.VBIAS_MIN_V with hlt | heq | hgt
  · rw [update_bias_voltage_rise_eq c adc v s (by rw [hcv]; exact hlt),
      update_bias_voltage_rise_eq c adc c.VBIAS_MIN_V s (by rw [hcm]; exact hlt),
      hcv, hcm, if_pos hlow, if_neg hnl]
    have e := increasing_loop_quench c adc c.VBIAS_MIN_V (2 ^ 16)
      { s with
        adc_channel := c.ADC_CHANNEL_VBIAS
        stepup_enabled :=
          if s.cur_set_vbias_voltage < c.STEPUP_ACTIV_V ∧
              c.VBIAS_MIN_V ≥ c.STEPUP_ACTIV_V then true
          else s.stepup_enabled }
      ⟨s.last_measured_vbias, c.PEAKPEAK_APPROCH % 2 ^ 8, c.BIT_AVG_APPROACH % 2 ^ 8, FALSE⟩
    refine Eq.trans (congrArg _ e) ?_
    generalize increasing_loop c adc c.VBIAS_MIN_V (2 ^ 16) _ _ = L
    cases L <;> rfl
  · rw [update_bias_voltage_same c adc v s (by rw [hcv]; exact heq),
      update_bias_voltage_same c adc c.VBIAS_MIN_V s (by rw [hcm]; exact heq),
      if_pos hlow, if_neg hnl]
    rfl
  · rw [update_bias_voltage_down_eq c adc v s (by rw [hcv]; exact hgt),
      update_bias_voltage_down_eq c adc c.VBIAS_MIN_V s (by rw [hcm]; exact hgt),
      hcv, hcm, if_pos hlow, if_neg hnl]
    have e := decreasing_loop_quench c adc c.VBIAS_MIN_V (2 ^ 16)
      { s with
        adc_channel := c.ADC_CHANNEL_VBIAS
        stepup_enabled :=
          if s.cur_set_vbias_voltage ≥ c.STEPUP_ACTIV_V ∧
              c.VBIAS_MIN_V < c.STEPUP_ACTIV_V then false
          else s.stepup_enabled }
      ⟨s.last_measured_vbias, c.PEAKPEAK_APPROCH % 2 ^ 8, c.BIT_AVG_APPROACH % 2 ^ 8, FALSE⟩
    refine Eq.trans (congrArg _ e) ?_
    generalize decreasing_loop c adc c.VBIAS_MIN_V (2 ^ 16) _ _ = L
    cases L <;> rfl

/-- C20: for every state, 16-bit target `v` and behaviour of the ADC for which
`update_bias_voltage` runs a search (`max(v, VBIAS_MIN_V)` differs from
`cur_set_vbias_voltage`), it returns with `cur_set_vbias_voltage = max(v,
VBIAS_MIN_V)` and `last_measured_vbias` equal to the returned value, which is the
conversion of the last ADC sample taken. A request below `VBIAS_MIN_V` returns the
value and leaves the state that a request for exactly `VBIAS_MIN_V` does, the quench
path released apart. -/
theorem C20_clamp_and_record (c : VbiasCfg) (adc : Adc) (v : Nat) (s : VbiasState)
    (hv : v < 2 ^ 16) (hmin : c.VBIAS_MIN_V < 2 ^ 16) (hmax : c.DAC_MAX_VAL < 2 ^ 16) :
    (max v c.VBIAS_MIN_V ≠ s.cur_set_vbias_voltage →
      ∃ r, update_bias_voltage c adc v s = some r ∧
        r.1.cur_set_vbias_voltage = max v c.VBIAS_MIN_V ∧
        r.1.last_measured_vbias = r.2 ∧
        s.adc_samples < r.1.adc_samples ∧
        ∃ req, r.2
          = compute_vbias_for_adc_value (adc (r.1.adc_samples - 1) req % 2 ^ 16)) ∧
    (v < c.VBIAS_MIN_V →
      ∃ r, update_bias_voltage c adc c.VBIAS_MIN_V s = some r ∧
        update_bias_voltage c adc v s
          = some ({ r.1 with quenching_enabled := false }, r.2)) := by
  have hct := clamped_target_eq_max c v hv hmin
  constructor
  · intro hne
    obtain ⟨r, h1, h2, h3, -, -, -, -, h8, -⟩ := update_bias_voltage_post c adc v s hmax
    obtain ⟨g1, g2⟩ := h8 (by rw [hct]; exact fun h => hne h.symm)
    exact ⟨r, h1, by rw [h2, hct], h3, g1, g2⟩
  · intro hlow
    obtain ⟨r, h1, -⟩ := update_bias_voltage_post c adc c.VBIAS_MIN_V s hmax
    refine ⟨r, h1, ?_⟩
    rw [update_bias_voltage_below_min c adc v s (by rw [Nat.mod_eq_of_lt hv]; exact hlow) hmin,
      h1]
    rfl

/-- Witness for `C20_clamp_and_record`: the servo at 5000 mV asked for 3000 mV, and
asked for 1000 mV, below the minimum of 1250 mV. -/
theorem C20_clamp_and_record_witness :
    ((3000 : Nat) < 2 ^ 16 ∧ sampleVbiasCfg.VBIAS_MIN_V < 2 ^ 16 ∧
      sampleVbiasCfg.DAC_MAX_VAL < 2 ^ 16 ∧
      max 3000 sampleVbiasCfg.VBIAS_MIN_V ≠ servo_at_5000.cur_set_vbias_voltage ∧
      1000 < sampleVbiasCfg.VBIAS_MIN_V) ∧
    (∃ r, update_bias_voltage sampleVbiasCfg (adc_const 0) 3000 servo_at_5000 = some r ∧
      r.1.cur_set_vbias_voltage = max 3000 sampleVbiasCfg.VBIAS_MIN_V ∧
      r.1.last_measured_vbias = r.2 ∧
      servo_at_5000.adc_samples < r.1.adc_samples ∧
      ∃ req, r.2
        = compute_vbias_for_adc_value (adc_const 0 (r.1.adc_samples - 1) req % 2 ^ 16)) ∧
    (∃ r, update_bias_voltage sampleVbiasCfg (adc_const 0) sampleVbiasCfg.VBIAS_MIN_V
        servo_at_5000 = some r ∧
      update_bias_voltage sampleVbiasCfg (adc_const 0) 1000 servo_at_5000
        = some ({ r.1 with quenching_enabled := false }, r.2)) :=
  ⟨by decide,
   (C20_clamp_and_record sampleVbiasCfg (adc_const 0) 3000 servo_at_5000
      (by decide) (by decide) (by decide)).1 (by decide),
   (C20_clamp_and_record sampleVbiasCfg (adc_const 0) 1000 servo_at_5000
      (by decide) (by decide) (by decide)).2 (by decide)⟩

/-- For a 12-bit ADC value nothing wraps in `compute_vbias_for_adc_value`. -/
theorem compute_vbias_for_adc_value_exact (adc_val : Nat) (h : adc_val ≤ 4095) :
    compute_vbias_for_adc_value adc_val = adc_val * 16 / 182 + adc_val * 4 := by
  unfold compute_vbias_for_adc_value
  have h1 : (adc_val * 16) % 2 ^ 16 = adc_val * 16 := Nat.mod_eq_of_lt (by omega)
  have h2 : (adc_val * 4) % 2 ^ 16 = adc_val * 4 := Nat.mod_eq_of_lt (by omega)
  have h3 : adc_val * 16 / 182 ≤ 360 := by omega
  simp only [h1, h2]
  exact Nat.mod_eq_of_lt (by omega)

/-- The integer form of the comment `VALadc * 20088 / 4914`: `20088 / 4914` is
`4 + 16 / 182` exactly. -/
theorem ratio_20088_4914 (adc_val : Nat) :
    adc_val * 20088 / 4914 = adc_val * 16 / 182 + adc_val * 4 := by
  have e1 : adc_val * 20088 = adc_val * 432 + adc_val * 4 * 4914 := by ring
  have e2 : adc_val * 432 = adc_val * 16 * 27 := by ring
  have e3 : (4914 : Nat) = 182 * 27 := by norm_num
  rw [e1, Nat.add_mul_div_right _ _ (by norm_num : 0 < 4914), e2]
  congr 1
  rw [e3]
  exact Nat.mul_div_mul_right _ _ (by norm_num)

/-- C21: for every ADC value in `[0, 4095]`, `compute_vbias_for_adc_value(adc)` equals
`floor(adc * 20088 / 4914)`, which is `4 * adc + floor(16 * adc / 182)`; neither
product, nor the quotient, nor the sum exceeds 16 bits; the function is
non-decreasing on `[0, 4095]` and reaches 16740 at 4095. -/
theorem C21_adc_to_millivolt (adc_val other : Nat) (h : adc_val ≤ 4095)
    (ho : other ≤ adc_val) :
    compute_vbias_for_adc_value adc_val = adc_val * 20088 / 4914 ∧
    compute_vbias_for_adc_value adc_val = 4 * adc_val + 16 * adc_val / 182 ∧
    (adc_val * 16 < 2 ^ 16 ∧ adc_val * 16 / 182 < 2 ^ 16 ∧ adc_val * 4 < 2 ^ 16 ∧
      adc_val * 16 / 182 + adc_val * 4 < 2 ^ 16 ∧
      compute_vbias_for_adc_value adc_val < 2 ^ 16) ∧
    compute_vbias_for_adc_value other ≤ compute_vbias_for_adc_value adc_val ∧
    compute_vbias_for_adc_value adc_val ≤ compute_vbias_for_adc_value 4095 ∧
    compute_vbias_for_adc_value 4095 = 16740 := by
  have hx := compute_vbias_for_adc_value_exact adc_val h
  have hy := compute_vbias_for_adc_value_exact other (by omega)
  have hz := compute_vbias_for_adc_value_exact 4095 (le_refl _)
  have h3 : adc_val * 16 / 182 ≤ 360 := by omega
  have hm : other * 16 / 182 ≤ adc_val * 16 / 182 :=
    Nat.div_le_div_right (by omega)
  have hm2 : adc_val * 16 / 182 ≤ 4095 * 16 / 182 :=
    Nat.div_le_div_right (by omega)
  refine ⟨by rw [hx, ratio_20088_4914], ?_, ⟨by omega, by omega, by omega, by omega, ?_⟩,
    ?_, ?_, by decide⟩
  · rw [hx, Nat.mul_comm 4 adc_val, Nat.mul_comm 16 adc_val]; omega
  · rw [hx]; omega
  · rw [hx, hy]; omega
  · rw [hx, hz]; omega

/-- Witness for `C21_adc_to_millivolt`: the ADC values 1000 and 2000. -/
theorem C21_adc_to_millivolt_witness :
    ((2000 : Nat) ≤ 4095 ∧ (1000 : Nat) ≤ 2000) ∧
    compute_vbias_for_adc_value 2000 = 2000 * 20088 / 4914 ∧
    compute_vbias_for_adc_value 2000 = 4 * 2000 + 16 * 2000 / 182 ∧
    (2000 * 16 < 2 ^ 16 ∧ 2000 * 16 / 182 < 2 ^ 16 ∧ 2000 * 4 < 2 ^ 16 ∧
      2000 * 16 / 182 + 2000 * 4 < 2 ^ 16 ∧
      compute_vbias_for_adc_value 2000 < 2 ^ 16) ∧
    compute_vbias_for_adc_value 1000 ≤ compute_vbias_for_adc_value 2000 ∧
    compute_vbias_for_adc_value 2000 ≤ compute_vbias_for_adc_value 4095 ∧
    compute_vbias_for_adc_value 4095 = 16740 :=
  ⟨by decide, C21_adc_to_millivolt 2000 1000 (by decide) (by decide)⟩

/-- `enable_bias_voltage` always runs its search: it returns having taken at least
one ADC sample, with the clamped target and the returned measurement recorded. -/
theorem enable_bias_voltage_samples (c : VbiasCfg) (adc : Adc) (v : Nat) (s : VbiasState)
    (hmin1 : 1 ≤ c.VBIAS_MIN_V) (hmin : c.VBIAS_MIN_V < 2 ^ 16) :
    ∃ r, enable_bias_voltage c adc v s = some r ∧
      r.1.cur_set_vbias_voltage = clamped_target c v ∧
      r.1.last_measured_vbias = r.2 ∧
      s.adc_samples < r.1.adc_samples := by
  have hge := clamped_target_ge c v hmin
  obtain ⟨s3, l, e, -, f2, -, -, -, -, -⟩ := update_bias_voltage_rise c adc v
    { s with
      last_measured_vbias := c.VBIAS_MIN_V % 2 ^ 16
      cur_set_vbias_voltage := (c.VBIAS_MIN_V + 2 ^ 16 - 1) % 2 ^ 16
      cur_vbias_dac_val := c.VBIAS_MIN_DAC_VAL % 2 ^ 16
      adc_channel := c.ADC_CHANNEL_VBIAS
      dac_calls := DacCall.setup_vbias_dac (c.VBIAS_MIN_DAC_VAL % 2 ^ 16) :: s.dac_calls
      ldo_enabled := true }
    (by show (c.VBIAS_MIN_V + 2 ^ 16 - 1) % 2 ^ 16 < clamped_target c v; omega)
  obtain ⟨r, h1, -, -⟩ := increasing_loop_bound c adc (clamped_target c v) (2 ^ 16) s3 l
    (by omega)
  obtain ⟨-, -, -, -, -, -, g7, -⟩ :=
    increasing_loop_frame c adc (clamped_target c v) (2 ^ 16) s3 l r h1
  have f2a : s3.adc_samples = s.adc_samples := f2
  refine ⟨({ r.1 with
      cur_set_vbias_voltage := clamped_target c v
      last_measured_vbias := r.2.1.measured_vbias }, r.2.1.measured_vbias),
    by show update_bias_voltage _ _ _ _ = _; rw [e, h1]; rfl, rfl, rfl, ?_⟩
  show s.adc_samples < r.1.adc_samples
  omega

/-- What `disable_bias_voltage` has done when it returns, and that it returns when
some sample of the quench reads 100 or less: both source paths and the quench path
are off, the DAC driver was told to disable, samples were taken; the three servo
globals are not written. -/
theorem disable_bias_voltage_post (c : VbiasCfg) (adc : Adc) (t : VbiasState) (n fuel : Nat)
    (hread : adc (t.adc_samples + n) (AdcReq.stabilized 6 15 FALSE) % 2 ^ 16 ≤ 100)
    (hfuel : n < fuel) :
    ∃ r k, disable_bias_voltage c adc fuel t = some r ∧ r.2 ≤ 100 ∧
      r.1 = { t with
              ldo_enabled := false
              stepup_enabled := false
              quenching_enabled := false
              adc_channel := c.ADC_CHANNEL_VBIAS
              dac_calls := DacCall.disable_vbias_dac :: t.dac_calls
              adc_samples := k } := by
  obtain ⟨r, h1, h2, h3⟩ := wait_loop_reaches adc n fuel 2000
    { t with
      ldo_enabled := false
      stepup_enabled := false
      dac_calls := DacCall.disable_vbias_dac :: t.dac_calls
      adc_channel := c.ADC_CHANNEL_VBIAS
      quenching_enabled := true } hfuel hread
  refine ⟨({ r.1 with quenching_enabled := false }, r.2), r.1.adc_samples, ?_, h2, ?_⟩
  · unfold disable_bias_voltage wait_for_0v_bias
    show Option.map _ (wait_loop adc fuel 2000 _) = _
    rw [h1]
    rfl
  · show { r.1 with quenching_enabled := false } = _
    rw [h3]

/-- C22: `disable_bias_voltage` leaves `cur_set_vbias_voltage`,
`last_measured_vbias` and `cur_vbias_dac_val` unchanged (from every state `t`, when
the quench wait ends). So for every 16-bit target `v >= VBIAS_MIN_V` the sequence
`enable_bias_voltage(v); disable_bias_voltage(); update_bias_voltage(v)` ends on
the same-value path: the final update returns the measurement that
`enable_bias_voltage` took before the disable, changes nothing in the state (no DAC
call, no ADC sample), and leaves the LDO and step-up paths disabled. -/
theorem C22_disable_keeps_servo_state (c : VbiasCfg) (adc : Adc) (s t : VbiasState)
    (v n fuel : Nat) (hmin1 : 1 ≤ c.VBIAS_MIN_V) (hvmin : c.VBIAS_MIN_V ≤ v)
    (hv : v < 2 ^ 16) (hfuel : n < fuel) :
    (adc (t.adc_samples + n) (AdcReq.stabilized 6 15 FALSE) % 2 ^ 16 ≤ 100 →
      ∃ r, disable_bias_voltage c adc fuel t = some r ∧
        r.1.cur_set_vbias_voltage = t.cur_set_vbias_voltage ∧
        r.1.last_measured_vbias = t.last_measured_vbias ∧
        r.1.cur_vbias_dac_val = t.cur_vbias_dac_val) ∧
    ∃ r1, enable_bias_voltage c adc v s = some r1 ∧
      s.adc_samples < r1.1.adc_samples ∧
      r1.1.cur_set_vbias_voltage = v ∧ r1.1.last_measured_vbias = r1.2 ∧
      (adc (r1.1.adc_samples + n) (AdcReq.stabilized 6 15 FALSE) % 2 ^ 16 ≤ 100 →
        ∃ r2, disable_bias_voltage c adc fuel r1.1 = some r2 ∧
          r2.1.cur_set_vbias_voltage = v ∧
          r2.1.last_measured_vbias = r1.2 ∧
          r2.1.cur_vbias_dac_val = r1.1.cur_vbias_dac_val ∧
          update_bias_voltage c adc v r2.1 = some (r2.1, r1.2) ∧
          r2.1.ldo_enabled = false ∧ r2.1.stepup_enabled = false) := by
  have hmin : c.VBIAS_MIN_V < 2 ^ 16 := by omega
  have hcv : clamped_target c v = v := by
    rw [clamped_target_eq_max c v hv hmin]; exact max_eq_left hvmin
  have hnl : ¬ v % 2 ^ 16 < c.VBIAS_MIN_V := by
    rw [Nat.mod_eq_of_lt hv]; omega
  constructor
  · intro hread
    obtain ⟨r, k, h1, -, h3⟩ := disable_bias_voltage_post c adc t n fuel hread hfuel
    exact ⟨r, h1, by rw [h3], by rw [h3], by rw [h3]⟩
  · obtain ⟨r1, a1, a2, a3, a4⟩ := enable_bias_voltage_samples c adc v s hmin1 hmin
    rw [hcv] at a2
    refine ⟨r1, a1, a4, a2, a3, fun hread => ?_⟩
    obtain ⟨r2, k, b1, -, b3⟩ := disable_bias_voltage_post c adc r1.1 n fuel hread hfuel
    have c1 : r2.1.cur_set_vbias_voltage = v := by rw [b3]; exact a2
    have c2 : r2.1.last_measured_vbias = r1.2 := by rw [b3]; exact a3
    have c3 : r2.1.adc_channel = c.ADC_CHANNEL_VBIAS := by rw [b3]
    have c4 : r2.1.quenching_enabled
        = (if v % 2 ^ 16 < c.VBIAS_MIN_V then false else r2.1.quenching_enabled) := by
      rw [if_neg hnl]
    refine ⟨r2, b1, c1, c2, by rw [b3], ?_, by rw [b3], by rw [b3]⟩
    rw [update_bias_voltage_same c adc v r2.1 (by rw [c1, hcv]),
      VbiasState_restore r2.1 _ _ c3 c4, c2]

/-- Witness for `C22_disable_keeps_servo_state`: from the reset state, `Enable(4500)`
with the ADC at full scale on its first sample and at 90 afterwards, `Disable()`,
`Update(4500)`. -/
theorem C22_disable_keeps_servo_state_witness :
    (1 ≤ sampleVbiasCfg.VBIAS_MIN_V ∧ sampleVbiasCfg.VBIAS_MIN_V ≤ 4500 ∧
      (4500 : Nat) < 2 ^ 16 ∧ 0 < 5) ∧
    ∃ r1 r2, enable_bias_voltage sampleVbiasCfg (adc_step 1 4095 90) 4500 VbiasState.zero
        = some r1 ∧
      disable_bias_voltage sampleVbiasCfg (adc_step 1 4095 90) 5 r1.1 = some r2 ∧
      r2.1.cur_set_vbias_voltage = 4500 ∧ r2.1.last_measured_vbias = r1.2 ∧
      r2.1.cur_vbias_dac_val = r1.1.cur_vbias_dac_val ∧
      update_bias_voltage sampleVbiasCfg (adc_step 1 4095 90) 4500 r2.1
        = some (r2.1, r1.2) ∧
      r2.1.ldo_enabled = false ∧ r2.1.stepup_enabled = false := by
  refine ⟨by decide, ?_⟩
  obtain ⟨r1, a1, a2, -, -, a5⟩ :=
    (C22_disable_keeps_servo_state sampleVbiasCfg (adc_step 1 4095 90) VbiasState.zero
      VbiasState.zero 4500 0 5 (by decide) (by decide) (by decide) (by decide)).2
  have hlow : adc_step 1 4095 90 (r1.1.adc_samples + 0) (AdcReq.stabilized 6 15 FALSE)
      % 2 ^ 16 ≤ 100 := by
    have hk : ¬ r1.1.adc_samples + 0 < 1 := by omega
    unfold adc_step
    rw [if_neg hk]
    decide
  obtain ⟨r2, b1, b2, b3, b4, b5, b6, b7⟩ := a5 hlow
  exact ⟨r1, r2, a1, b1, b2, b3, b4, b5, b6, b7⟩

end Servo

end Capmeter
